import Mathlib

/-!
# mns_consumer: wire-protocol client of the MNS queue/topic service

A shallow embedding of the Go packages `mns.aliyun.v20150606` (sign.go, endpoint.go,
queue.go, error.go) and `mns.aliyun` (util.go, topic.go).

Conventions of the embedding.

* A Go `string` / `[]byte` is a `Bytes`, the list of its bytes (each below 256).
* An `http.Header` (a Go map from name to value list) is the list of its entries in the
  order in which one `range` statement enumerates them; the names of a header are pairwise
  distinct (`Header.WF`).  Go fixes no order for a map: two `range` statements over one
  map see two lists that are permutations of each other.
* The standard library is embedded by what it computes: SHA-1, MD5, HMAC, base64,
  `strings.ToLower` on ASCII strings, `strings.HasPrefix`, `sort.Sort`, `strconv.Itoa`.
  `strings.ToLower` on a string that is not ASCII rests on the Unicode tables, which are a
  parameter (`mapToLower`).
* What the process cannot compute by itself (the clock, URL parsing, XML coding, the HTTP
  round trip) is the `Env` an operation runs in.
-/

namespace Mns

/-! ## Byte strings -/

/-- A Go string or byte slice: its bytes in order. -/
abbrev Bytes := List Nat

/-- The bytes of an ASCII string literal of the source. -/
def str (s : String) : Bytes := s.toList.map Char.toNat

/-- Well-formed byte string: every element is a byte. -/
def IsBytes (b : Bytes) : Prop := ∀ x ∈ b, x < 256

instance (b : Bytes) : Decidable (IsBytes b) := inferInstanceAs (Decidable (∀ x ∈ b, x < 256))

/-- Go's `<` on strings: byte-wise lexicographic, a proper prefix is smaller. -/
def bytesLess : Bytes → Bytes → Bool
  | [], [] => false
  | [], _ :: _ => true
  | _ :: _, [] => false
  | a :: as, b :: bs => if a < b then true else if b < a then false else bytesLess as bs

/-- One byte of `strings.ToLower` on an ASCII string: 'A'..'Z' move to 'a'..'z'. -/
def toLowerByte (b : Nat) : Nat := if 65 ≤ b ∧ b ≤ 90 then b + 32 else b

/-- One byte of `strings.ToUpper` on an ASCII string: 'a'..'z' move to 'A'..'Z'. -/
def toUpperByte (b : Nat) : Nat := if 97 ≤ b ∧ b ≤ 122 then b - 32 else b

/-- `strings.ToLower`: a string of ASCII bytes is lower-cased byte by byte; for every other
string the result is `strings.Map(unicode.ToLower, s)`, which is the parameter
`mapToLower` (the UTF-8 decoding and the case tables of package unicode). -/
def ToLower (mapToLower : Bytes → Bytes) (s : Bytes) : Bytes :=
  if s.all (fun c => c < 128) then s.map toLowerByte else mapToLower s

/-- `strings.ToUpper` / `bytes.ToUpper` on ASCII strings. -/
def ToUpper (s : Bytes) : Bytes := s.map toUpperByte

/-- `strings.HasPrefix s pre`. -/
def HasPrefix : Bytes → Bytes → Bool
  | _, [] => true
  | [], _ :: _ => false
  | a :: s, b :: pre => a == b && HasPrefix s pre

/-- `strconv.Itoa` on a non-negative number, most significant digit first. -/
def itoaNat (n : Nat) : Bytes := (Nat.toDigits 10 n).map Char.toNat

/-- `strconv.Itoa`. -/
def Itoa (n : Int) : Bytes :=
  if n < 0 then 45 :: itoaNat n.natAbs else itoaNat n.natAbs

/-! ## Buffered writers (`bufio.Writer`, `bytes.Buffer`): the bytes written so far -/

/-- `WriteString`: the string is appended to what was written. -/
def WriteString (w : Bytes) (s : Bytes) : Bytes := w ++ s

/-- `WriteByte`: the byte is appended to what was written. -/
def WriteByte (w : Bytes) (c : Nat) : Bytes := w ++ [c]

/-! ## encoding/base64, `StdEncoding` -/

namespace StdEncoding

/-- The alphabet `A-Z a-z 0-9 + /` at index `i`. -/
def encodeChar (i : Nat) : Nat :=
  if i < 26 then 65 + i
  else if i < 52 then 97 + (i - 26)
  else if i < 62 then 48 + (i - 52)
  else if i = 62 then 43
  else 47

/-- The `decodeMap` of the encoding: the index of an alphabet byte, `0xff` elsewhere. -/
def decodeMap (c : Nat) : Nat :=
  if 65 ≤ c ∧ c ≤ 90 then c - 65
  else if 97 ≤ c ∧ c ≤ 122 then c - 97 + 26
  else if 48 ≤ c ∧ c ≤ 57 then c - 48 + 52
  else if c = 43 then 62
  else if c = 47 then 63
  else 255

/-- `EncodedLen(n)` for a padded encoding. -/
def EncodedLen (n : Nat) : Nat := (n + 2) / 3 * 4

/-- `DecodedLen(n)` for a padded encoding. -/
def DecodedLen (n : Nat) : Nat := n / 4 * 3

/-- `Encode` / `EncodeToString`: three bytes become four alphabet bytes, the last group is
padded with `=`. -/
def Encode : Bytes → Bytes
  | [] => []
  | [a] => [encodeChar (a / 4), encodeChar (a % 4 * 16), 61, 61]
  | [a, b] => [encodeChar (a / 4), encodeChar (a % 4 * 16 + b / 16), encodeChar (b % 16 * 4), 61]
  | a :: b :: c :: rest =>
    encodeChar (a / 4) :: encodeChar (a % 4 * 16 + b / 16) ::
      encodeChar (b % 16 * 4 + c / 64) :: encodeChar (c % 64) :: Encode rest

/-- The bytes a quantum of `j` six-bit values decodes to (`j - 1` bytes, 2 ≤ j ≤ 4). -/
def quantumBytes (q : List Nat) : Bytes :=
  let val := q.getD 0 0 * 262144 + q.getD 1 0 * 4096 + q.getD 2 0 * 64 + q.getD 3 0
  ([val / 65536 % 256, val / 256 % 256, val % 256]).take (q.length - 1)

/-- Skip `\n` and `\r`; returns what is left and how many bytes were skipped. -/
def skipNewlines : Bytes → Nat → Bytes × Nat
  | [], k => ([], k)
  | c :: rest, k => if c = 10 ∨ c = 13 then skipNewlines rest (k + 1) else (c :: rest, k)

/-- After the padding of the last quantum: newlines may follow, anything else is trailing
garbage (`CorruptInputError` at its offset). -/
def afterPadding (rest : Bytes) (si : Nat) (out : Bytes) : Except Nat Bytes :=
  match skipNewlines rest si with
  | ([], _) => .ok out
  | (_ :: _, si2) => .error si2

/-- The loop of `Decode` over `decodeQuantum`: `src` is the input from offset `si` on, `q`
the six-bit values of the current quantum (`dbuf[0..j]`), `out` the bytes decoded so far,
`total` the length of the whole input. An error is the offset of a `CorruptInputError`. -/
def decodeLoop (total : Nat) : Bytes → Nat → List Nat → Bytes → Except Nat Bytes
  | [], si, q, out => if q.length = 0 then .ok out else .error (si - q.length)
  | c :: rest, si, q, out =>
    if decodeMap c ≠ 255 then
      if q.length = 3 then decodeLoop total rest (si + 1) [] (out ++ quantumBytes (q ++ [decodeMap c]))
      else decodeLoop total rest (si + 1) (q ++ [decodeMap c]) out
    else if c = 10 ∨ c = 13 then decodeLoop total rest (si + 1) q out
    else if c ≠ 61 then .error si
    else if q.length < 2 then .error si
    else if q.length = 2 then
      match skipNewlines rest (si + 1) with
      | ([], _) => .error total
      | (c2 :: rest2, si2) =>
        if c2 ≠ 61 then .error (si2 - 1)
        else afterPadding rest2 (si2 + 1) (out ++ quantumBytes q)
    else afterPadding rest (si + 1) (out ++ quantumBytes q)

/-- `Decode(dst, src)` with `dst` of `DecodedLen(len(src))` bytes: the decoded bytes
`dst[:n]`, or the `CorruptInputError`. -/
def Decode (src : Bytes) : Except Nat Bytes := decodeLoop src.length src 0 [] []

end StdEncoding

/-! ## crypto/sha1, crypto/md5, crypto/hmac, encoding/hex -/

/-- The 32-bit word `x` as four bytes, most significant first. -/
def be32 (x : Nat) : Bytes := [x / 16777216 % 256, x / 65536 % 256, x / 256 % 256, x % 256]

/-- The 32-bit word `x` as four bytes, least significant first. -/
def le32 (x : Nat) : Bytes := [x % 256, x / 256 % 256, x / 65536 % 256, x / 16777216 % 256]

/-- Rotate a 32-bit word left by `n` bits. -/
def rotl32 (x n : Nat) : Nat := ((x <<< n) ||| (x >>> (32 - n))) % 4294967296

/-- Big-endian 32-bit words of a block. -/
def wordsBE : Bytes → List Nat
  | a :: b :: c :: d :: rest => (a * 16777216 + b * 65536 + c * 256 + d) :: wordsBE rest
  | _ => []

/-- Little-endian 32-bit words of a block. -/
def wordsLE : Bytes → List Nat
  | a :: b :: c :: d :: rest => (d * 16777216 + c * 65536 + b * 256 + a) :: wordsLE rest
  | _ => []

/-- The 64-byte blocks of a padded message (at most `n` of them). -/
def chunks64 : Nat → Bytes → List Bytes
  | 0, _ => []
  | n + 1, m => if m.length < 64 then [] else m.take 64 :: chunks64 n (m.drop 64)

/-- SHA-1 padding: `0x80`, zeros up to 56 mod 64, the bit length as 8 bytes big-endian. -/
def sha1Pad (m : Bytes) : Bytes :=
  m ++ [128] ++ List.replicate ((119 - m.length % 64) % 64) 0 ++
    be32 (8 * m.length / 4294967296 % 4294967296) ++ be32 (8 * m.length % 4294967296)

/-- Message schedule of SHA-1, kept reversed (the head is the latest word). -/
def sha1Schedule : Nat → List Nat → List Nat
  | 0, w => w
  | n + 1, w =>
    sha1Schedule n (rotl32 (w.getD 2 0 ^^^ w.getD 7 0 ^^^ w.getD 13 0 ^^^ w.getD 15 0) 1 :: w)

/-- The five chaining words of SHA-1. -/
structure Sha1State where
  a : Nat
  b : Nat
  c : Nat
  d : Nat
  e : Nat
deriving DecidableEq, Repr

/-- Round function of SHA-1 in round `i`. -/
def sha1F (i b c d : Nat) : Nat :=
  if i < 20 then (b &&& c) ||| ((b ^^^ 4294967295) &&& d)
  else if i < 40 then b ^^^ c ^^^ d
  else if i < 60 then (b &&& c) ||| (b &&& d) ||| (c &&& d)
  else b ^^^ c ^^^ d

/-- Round constant of SHA-1 in round `i`. -/
def sha1K (i : Nat) : Nat :=
  if i < 20 then 0x5A827999 else if i < 40 then 0x6ED9EBA1
  else if i < 60 then 0x8F1BBCDC else 0xCA62C1D6

/-- The 80 rounds of SHA-1 over the schedule `w`, from round `i` on. -/
def sha1Rounds : Nat → List Nat → Sha1State → Sha1State
  | _, [], s => s
  | i, w :: ws, s =>
    sha1Rounds (i + 1) ws
      ⟨(rotl32 s.a 5 + sha1F i s.b s.c s.d + s.e + sha1K i + w) % 4294967296,
        s.a, rotl32 s.b 30, s.c, s.d⟩

/-- SHA-1 compression of one block. -/
def sha1Block (s : Sha1State) (blk : Bytes) : Sha1State :=
  let w := (sha1Schedule 64 (wordsBE blk).reverse).reverse
  let t := sha1Rounds 0 w s
  ⟨(s.a + t.a) % 4294967296, (s.b + t.b) % 4294967296, (s.c + t.c) % 4294967296,
    (s.d + t.d) % 4294967296, (s.e + t.e) % 4294967296⟩

/-- `sha1.Sum`. -/
def sha1Sum (m : Bytes) : Bytes :=
  let p := sha1Pad m
  let s := (chunks64 p.length p).foldl sha1Block
    ⟨0x67452301, 0xEFCDAB89, 0x98BADCFE, 0x10325476, 0xC3D2E1F0⟩
  be32 s.a ++ be32 s.b ++ be32 s.c ++ be32 s.d ++ be32 s.e

/-- The key of an HMAC over a 64-byte block hash: hashed when longer than a block, then
zero-padded to the block size. -/
def hmacKey (key : Bytes) : Bytes :=
  let k := if key.length > 64 then sha1Sum key else key
  k ++ List.replicate (64 - k.length) 0

/-- `hmac.New(sha1.New, key)` fed with `msg`, then `Sum(nil)`. -/
def hmacSHA1 (key msg : Bytes) : Bytes :=
  let k := hmacKey key
  sha1Sum (k.map (· ^^^ 0x5c) ++ sha1Sum (k.map (· ^^^ 0x36) ++ msg))

/-- MD5 padding: `0x80`, zeros up to 56 mod 64, the bit length as 8 bytes little-endian. -/
def md5Pad (m : Bytes) : Bytes :=
  m ++ [128] ++ List.replicate ((119 - m.length % 64) % 64) 0 ++
    le32 (8 * m.length % 4294967296) ++ le32 (8 * m.length / 4294967296 % 4294967296)

/-- The sine table of MD5. -/
def md5K : List Nat :=
  [ 0xd76aa478, 0xe8c7b756, 0x242070db, 0xc1bdceee, 0xf57c0faf, 0x4787c62a, 0xa8304613, 0xfd469501,
    0x698098d8, 0x8b44f7af, 0xffff5bb1, 0x895cd7be, 0x6b901122, 0xfd987193, 0xa679438e, 0x49b40821,
    0xf61e2562, 0xc040b340, 0x265e5a51, 0xe9b6c7aa, 0xd62f105d, 0x02441453, 0xd8a1e681, 0xe7d3fbc8,
    0x21e1cde6, 0xc33707d6, 0xf4d50d87, 0x455a14ed, 0xa9e3e905, 0xfcefa3f8, 0x676f02d9, 0x8d2a4c8a,
    0xfffa3942, 0x8771f681, 0x6d9d6122, 0xfde5380c, 0xa4beea44, 0x4bdecfa9, 0xf6bb4b60, 0xbebfbc70,
    0x289b7ec6, 0xeaa127fa, 0xd4ef3085, 0x04881d05, 0xd9d4d039, 0xe6db99e5, 0x1fa27cf8, 0xc4ac5665,
    0xf4292244, 0x432aff97, 0xab9423a7, 0xfc93a039, 0x655b59c3, 0x8f0ccc92, 0xffeff47d, 0x85845dd1,
    0x6fa87e4f, 0xfe2ce6e0, 0xa3014314, 0x4e0811a1, 0xf7537e82, 0xbd3af235, 0x2ad7d2bb, 0xeb86d391 ]

/-- The rotation amounts of MD5. -/
def md5S : List Nat :=
  [ 7, 12, 17, 22, 7, 12, 17, 22, 7, 12, 17, 22, 7, 12, 17, 22,
    5, 9, 14, 20, 5, 9, 14, 20, 5, 9, 14, 20, 5, 9, 14, 20,
    4, 11, 16, 23, 4, 11, 16, 23, 4, 11, 16, 23, 4, 11, 16, 23,
    6, 10, 15, 21, 6, 10, 15, 21, 6, 10, 15, 21, 6, 10, 15, 21 ]

/-- The four chaining words of MD5. -/
structure Md5State where
  a : Nat
  b : Nat
  c : Nat
  d : Nat
deriving DecidableEq, Repr

/-- Round function of MD5 in step `i`. -/
def md5F (i b c d : Nat) : Nat :=
  if i < 16 then (b &&& c) ||| ((b ^^^ 4294967295) &&& d)
  else if i < 32 then (d &&& b) ||| ((d ^^^ 4294967295) &&& c)
  else if i < 48 then b ^^^ c ^^^ d
  else c ^^^ (b ||| (d ^^^ 4294967295))

/-- Index of the message word used in step `i` of MD5. -/
def md5G (i : Nat) : Nat :=
  if i < 16 then i else if i < 32 then (5 * i + 1) % 16
  else if i < 48 then (3 * i + 5) % 16 else 7 * i % 16

/-- Steps `i .. i + n - 1` of MD5 over the message words `m`. -/
def md5Rounds (m : List Nat) : Nat → Nat → Md5State → Md5State
  | 0, _, s => s
  | n + 1, i, s =>
    md5Rounds m n (i + 1)
      ⟨s.d,
        (s.b + rotl32 ((md5F i s.b s.c s.d + s.a + md5K.getD i 0 + m.getD (md5G i) 0) % 4294967296)
          (md5S.getD i 0)) % 4294967296,
        s.b, s.c⟩

/-- MD5 compression of one block. -/
def md5Block (s : Md5State) (blk : Bytes) : Md5State :=
  let t := md5Rounds (wordsLE blk) 64 0 s
  ⟨(s.a + t.a) % 4294967296, (s.b + t.b) % 4294967296, (s.c + t.c) % 4294967296,
    (s.d + t.d) % 4294967296⟩

/-- `md5.Sum`. -/
def md5Sum (m : Bytes) : Bytes :=
  let p := md5Pad m
  let s := (chunks64 p.length p).foldl md5Block ⟨0x67452301, 0xefcdab89, 0x98badcfe, 0x10325476⟩
  le32 s.a ++ le32 s.b ++ le32 s.c ++ le32 s.d

/-- One lower-case hexadecimal digit. -/
def hexDigit (n : Nat) : Nat := if n < 10 then 48 + n else 87 + n

/-- `hex.Encode`: two lower-case digits a byte. -/
def hexEncode : Bytes → Bytes
  | [] => []
  | b :: rest => hexDigit (b / 16) :: hexDigit (b % 16) :: hexEncode rest

/-! ## util.go -/

/-- `authorizationHeader` returns the Authorization http header. -/
def authorizationHeader (accessKeyId signature : Bytes) : Bytes :=
  str "MNS " ++ accessKeyId ++ str ":" ++ signature

/-- `contentMD5`: base64 of the MD5 of the body (RFC 1864). -/
def contentMD5 (b : Bytes) : Bytes := StdEncoding.Encode (md5Sum b)

/-- `messageBodyMD5`: the MD5 of the message body in upper-case hexadecimal. -/
def messageBodyMD5 (b : Bytes) : Bytes := ToUpper (hexEncode (md5Sum b))

/-! ## net/http headers -/

/-- An `http.Header`: its entries `(name, values)` in the order a `range` enumerates them. -/
abbrev Header := List (Bytes × List Bytes)

/-- Well-formed header: a Go map has every name once. A nil value list is an empty one. -/
def Header.WF (h : Header) : Prop := (h.map Prod.fst).Nodup

instance (h : Header) : Decidable h.WF := inferInstanceAs (Decidable (h.map Prod.fst).Nodup)

/-- `Header.Get(key)` for a key in canonical form (every key of the source is): the first
value stored under the key, the empty string when there is none. -/
def Header.Get (h : Header) (key : Bytes) : Bytes :=
  match h.lookup key with
  | some (v :: _) => v
  | _ => []

/-- `Header.Set(key, value)` for a key in canonical form: the entry of the key is replaced
by the single value. -/
def Header.Set (h : Header) (key value : Bytes) : Header :=
  h.filter (fun e => e.1 != key) ++ [(key, [value])]

/-! ## sign.go -/

/-- The slice type `canonicalizedMNSHeaders`: pairs `[k, v]`. -/
abbrev canonicalizedMNSHeaders := List (Bytes × Bytes)

/-- `canonicalizedMNSHeaders.Less` on two elements: only the names are compared. -/
def canonicalizedMNSHeaders.Less (a b : Bytes × Bytes) : Bool := bytesLess a.1 b.1

/-- Inner loop of the insertion sort of package sort: the element moves towards the front
while it is `Less` than its predecessor. The sorted part is held reversed (nearest
predecessor first). -/
def insertionStep (x : Bytes × Bytes) : canonicalizedMNSHeaders → canonicalizedMNSHeaders
  | [] => [x]
  | p :: ps =>
    if canonicalizedMNSHeaders.Less x p then p :: insertionStep x ps else x :: p :: ps

/-- Outer loop of the insertion sort: `done` is the sorted part, reversed. -/
def insertionLoop :
    canonicalizedMNSHeaders → canonicalizedMNSHeaders → canonicalizedMNSHeaders
  | [], done => done
  | x :: rest, done => insertionLoop rest (insertionStep x done)

/-- `sort.Sort` on a `canonicalizedMNSHeaders`, as the insertion sort with which package
sort sorts a short slice (a slice of two elements in every version of the package). On
longer slices package sort uses another comparison sort; every one of them returns a
permutation ordered by `Less`, which is the same list whenever the names are pairwise
distinct. -/
def sortSort (p : canonicalizedMNSHeaders) : canonicalizedMNSHeaders :=
  (insertionLoop p []).reverse

/-- The loop `for k, vs := range header` of `sign` and of `getSignStr` over the entries
in the order this `range` statement enumerates them: an entry without values is skipped,
the name is lower-cased, and a name with the prefix `x-mns-` is appended with its first
value. -/
def rangeHeader (mapToLower : Bytes → Bytes) :
    Header → canonicalizedMNSHeaders → canonicalizedMNSHeaders
  | [], acc => acc
  | (k, vs) :: rest, acc =>
    match vs with
    | [] => rangeHeader mapToLower rest acc
    | v :: _ =>
      if HasPrefix (ToLower mapToLower k) (str "x-mns-") then
        rangeHeader mapToLower rest (acc ++ [(ToLower mapToLower k, v)])
      else rangeHeader mapToLower rest acc

/-- The loop `for i := 0; i < len(canonicalizedMNSHeaders); i++` writing `k:v\n`. -/
def writeHeaders : canonicalizedMNSHeaders → Bytes → Bytes
  | [], w => w
  | (k, v) :: rest, w =>
    writeHeaders rest (WriteByte (WriteString (WriteByte (WriteString w k) 58) v) 10)

/-- The bytes `sign` has written through `bufw` into the HMAC `h` when it flushes;
`header` is the header as the `range` statement of `sign` enumerates it. -/
def signWritten (mapToLower : Bytes → Bytes) (httpMethod : Bytes) (header : Header)
    (canonicalizedResource : Bytes) : Bytes :=
  let bufw : Bytes := []
  let bufw := WriteString bufw httpMethod
  let bufw := WriteByte bufw 10
  let bufw := WriteString bufw (header.Get (str "Content-Md5"))
  let bufw := WriteByte bufw 10
  let bufw := WriteString bufw (header.Get (str "Content-Type"))
  let bufw := WriteByte bufw 10
  let bufw := WriteString bufw (header.Get (str "Date"))
  let bufw := WriteByte bufw 10
  let canonicalizedMNSHeaders := rangeHeader mapToLower header []
  let bufw :=
    if canonicalizedMNSHeaders.length > 0 then
      writeHeaders (sortSort canonicalizedMNSHeaders) bufw
    else bufw
  WriteString bufw canonicalizedResource

/-- `sign` computes the request signature: base64 of the HMAC-SHA1, keyed with the
secret, of what was written. -/
def sign (mapToLower : Bytes → Bytes) (httpMethod : Bytes) (header : Header)
    (canonicalizedResource : Bytes) (accessKeySecret : Bytes) : Bytes :=
  StdEncoding.Encode
    (hmacSHA1 accessKeySecret (signWritten mapToLower httpMethod header canonicalizedResource))

/-! ## endpoint.go -/

/-- The parts of an inbound `http.Request` that `getSignStr` reads. -/
structure InboundRequest where
  Method : Bytes
  Header : Header
  RequestURI : Bytes
deriving DecidableEq, Repr

/-- `getSignStr` computes the string to be signed of an inbound request; `r.Header` is
the header as the `range` statement of `getSignStr` enumerates it. -/
def getSignStr (mapToLower : Bytes → Bytes) (r : InboundRequest) : Bytes :=
  let buf : Bytes := []
  let buf := WriteString buf r.Method
  let buf := WriteByte buf 10
  let buf := WriteString buf (r.Header.Get (str "Content-Md5"))
  let buf := WriteByte buf 10
  let buf := WriteString buf (r.Header.Get (str "Content-Type"))
  let buf := WriteByte buf 10
  let buf := WriteString buf (r.Header.Get (str "Date"))
  let buf := WriteByte buf 10
  let canonicalizedMNSHeaders := rangeHeader mapToLower r.Header []
  let buf :=
    if canonicalizedMNSHeaders.length > 0 then
      writeHeaders (sortSort canonicalizedMNSHeaders) buf
    else buf
  WriteString buf r.RequestURI

/-! ## error.go and the error values of the operations -/

/-- `ApiError` is the error response of MNS. -/
structure ApiError where
  HttpStatusCode : Int
  Code : Bytes
  Message : Bytes
  RequestId : Bytes
  HostId : Bytes
deriving DecidableEq, Repr

/-- An error value made by the standard library (net/http, net/url, encoding/xml, io):
what its `Timeout()` reports and its message. -/
structure ExtErr where
  Timeout : Bool
  msg : Bytes
deriving DecidableEq, Repr

/-- A non-nil Go `error` returned by an operation. -/
inductive Err where
  /-- Made by `errors.New` or `fmt.Errorf` in this package: the message. -/
  | errorString (s : Bytes)
  /-- An `*ApiError`. -/
  | apiError (e : ApiError)
  /-- Handed on from the standard library. -/
  | external (e : ExtErr)
deriving DecidableEq, Repr

/-- How a call ends: it returns its results, or the goroutine panics. -/
inductive Outcome (α : Type) where
  | returned (r : α)
  | panicked (reason : Bytes)
deriving DecidableEq, Repr

/-- `CorruptInputError.Error()` of encoding/base64. -/
def corruptInputError (offset : Nat) : Bytes :=
  str "illegal base64 data at input byte " ++ itoaNat offset

/-! ## Requests, responses and the environment of an operation -/

/-- What the operations read of a parsed `*url.URL`; `Raw` is the string it was parsed
from. -/
structure URL where
  Raw : Bytes
  Host : Bytes
  RequestURI : Bytes
deriving DecidableEq, Repr

/-- An outbound `http.Request` as the operations build it (`Body = none`: no body). -/
structure HttpRequest where
  Method : Bytes
  URL : URL
  Header : Header
  Body : Option Bytes
  ContentLength : Int
  Host : Bytes
deriving DecidableEq, Repr

/-- An `http.Response`: `BodyErr` is the error with which reading the body ends, if it
does not end with `io.EOF`. -/
structure HttpResponse where
  StatusCode : Int
  Header : Header
  Body : Bytes
  BodyErr : Option ExtErr
deriving DecidableEq, Repr

/-- `MessageToSend` of queue.go. -/
structure MessageToSend where
  MessageBody : Bytes
  DelaySeconds : Int
  Priority : Int
deriving DecidableEq, Repr

/-- The anonymous result struct of `SendMessage2` and of `PublishMessage2`. -/
structure SendResult where
  MessageId : Bytes
  MessageBodyMD5 : Bytes
deriving DecidableEq, Repr

/-- `BatchSendMessageResponseItem`: either the error fields or the message fields hold. -/
structure BatchSendMessageResponseItem where
  ErrorCode : Bytes
  ErrorMessage : Bytes
  MessageId : Bytes
  MessageBodyMD5 : Bytes
deriving DecidableEq, Repr

/-- `Message` of queue.go. -/
structure Message where
  MessageId : Bytes
  ReceiptHandle : Bytes
  MessageBody : Bytes
  MessageBodyMD5 : Bytes
  EnqueueTime : Int
  NextVisibleTime : Int
  FirstDequeueTime : Int
  DequeueCount : Int
  Priority : Int
deriving DecidableEq, Repr

/-- `MessageFromPeek` of queue.go. -/
structure MessageFromPeek where
  MessageId : Bytes
  MessageBody : Bytes
  MessageBodyMD5 : Bytes
  EnqueueTime : Int
  FirstDequeueTime : Int
  DequeueCount : Int
  Priority : Int
deriving DecidableEq, Repr

/-- `BatchDeleteMessageErrorItem` of queue.go. -/
structure BatchDeleteMessageErrorItem where
  ErrorCode : Bytes
  ErrorMessage : Bytes
  ReceiptHandle : Bytes
deriving DecidableEq, Repr

/-- `ChangeMessageVisibilityResponse` of queue.go. -/
structure ChangeMessageVisibilityResponse where
  ReceiptHandle : Bytes
  NextVisibleTime : Int
deriving DecidableEq, Repr

/-- `MessageToPublishAttributes` of topic.go. -/
structure MessageToPublishAttributes where
  DirectMail : Bytes
deriving DecidableEq, Repr

/-- `MessageToPublish` of topic.go. -/
structure MessageToPublish where
  MessageBody : Bytes
  MessageTag : Bytes
  MessageAttributes : Option MessageToPublishAttributes
deriving DecidableEq, Repr

/-- `QueueClient` of queue.go (the HTTP client is `Env.Do`). -/
structure QueueClient where
  QueueURL : Bytes
  AccessKeyId : Bytes
  AccessKeySecret : Bytes
deriving DecidableEq, Repr

/-- `TopicClient` of topic.go (the HTTP client is `Env.Do`). -/
structure TopicClient where
  TopicURL : Bytes
  AccessKeyId : Bytes
  AccessKeySecret : Bytes
deriving DecidableEq, Repr

/-- What an operation takes from outside the package: the constants `__ContentTypeTextXML`
and `__ApiVersion` (declared in a file that is not part of the sources at hand), the clock
as `formatDate(time.Now())`, `url.ParseRequestURI` (host and request URI of the parsed
URL), `xml.Marshal` and the XML decoding of each payload type, and the round trip
`getHttpClient().Do`; and `MapToLower`, the part of `strings.ToLower` that rests on the
Unicode tables. -/
structure Env where
  MapToLower : Bytes → Bytes
  ContentTypeTextXML : Bytes
  ApiVersion : Bytes
  Now : Bytes
  ParseURI : Bytes → Except ExtErr (Bytes × Bytes)
  MarshalMessage : MessageToSend → Except ExtErr Bytes
  MarshalMessages : List MessageToSend → Except ExtErr Bytes
  MarshalReceiptHandles : List Bytes → Except ExtErr Bytes
  MarshalPublish : MessageToPublish → Except ExtErr Bytes
  DecodeSendResult : Bytes → Except ExtErr SendResult
  DecodeBatchSendResult : Bytes → Except ExtErr (List BatchSendMessageResponseItem)
  DecodeMessage : Bytes → Except ExtErr Message
  DecodeMessages : Bytes → Except ExtErr (List Message)
  DecodeMessageFromPeek : Bytes → Except ExtErr MessageFromPeek
  DecodeMessagesFromPeek : Bytes → Except ExtErr (List MessageFromPeek)
  DecodeChangeVisibility : Bytes → Except ExtErr ChangeMessageVisibilityResponse
  DecodeDeleteErrors : Bytes → Except ExtErr (List BatchDeleteMessageErrorItem)
  DecodeApiError : Bytes → Except ExtErr ApiError
  Do : HttpRequest → Except ExtErr HttpResponse

/-- `url.ParseRequestURI(rawurl)`. -/
def ParseRequestURI (env : Env) (rawurl : Bytes) : Except ExtErr URL :=
  match env.ParseURI rawurl with
  | .error e => .error e
  | .ok (host, uri) => .ok ⟨rawurl, host, uri⟩

/-- `xml.NewDecoder(httpResp.Body).Decode(&result)`: a body that cannot be read
completely does not decode. -/
def xmlDecode {α : Type} (dec : Bytes → Except ExtErr α) (httpResp : HttpResponse) :
    Except ExtErr α :=
  match httpResp.BodyErr with
  | some e => .error e
  | none => dec httpResp.Body

/-- `ioutil.ReadAll(httpResp.Body)`. -/
def ReadAll (httpResp : HttpResponse) : Except ExtErr Bytes :=
  match httpResp.BodyErr with
  | some e => .error e
  | none => .ok httpResp.Body

/-- `bytes.Contains(b, sub)`. -/
def Contains : Bytes → Bytes → Bool
  | [], sub => sub.isEmpty
  | c :: rest, sub => HasPrefix (c :: rest) sub || Contains rest sub

/-- One byte of `url.QueryEscape`: unreserved bytes stay, a space becomes `+`, every other
byte becomes `%XX` with upper-case hexadecimal digits. -/
def queryEscapeByte (c : Nat) : Bytes :=
  if (48 ≤ c ∧ c ≤ 57) ∨ (65 ≤ c ∧ c ≤ 90) ∨ (97 ≤ c ∧ c ≤ 122) ∨
      c = 45 ∨ c = 95 ∨ c = 46 ∨ c = 126 then [c]
  else if c = 32 then [43]
  else [37, toUpperByte (hexDigit (c / 16)), toUpperByte (hexDigit (c % 16))]

/-- `url.QueryEscape`. -/
def QueryEscape (s : Bytes) : Bytes := (s.map queryEscapeByte).flatten

/-- The results of an operation: the request id, the operation's value (a nil pointer is
`none`, a nil slice is `[]`, an unset string is `[]`), the error (`none` is nil), and the
requests that were handed to the HTTP client, in order. -/
structure Ret (α : Type) where
  requestId : Bytes
  val : α
  err : Option Err
  sent : List HttpRequest
deriving DecidableEq, Repr

/-- The header of a request with a body, up to the protocol version, in the order of the
`header.Set` calls. -/
def bodyHeader (env : Env) (body : Bytes) (host : Bytes) : Header :=
  let header : Header := []
  let header := header.Set (str "Content-Length") (Itoa body.length)
  let header := header.Set (str "Content-Type") env.ContentTypeTextXML
  let header := header.Set (str "Content-Md5") (contentMD5 body)
  let header := header.Set (str "Date") env.Now
  let header := header.Set (str "Host") host
  header.Set (str "X-Mns-Version") env.ApiVersion

/-- The header of a request without a body, up to the protocol version. -/
def plainHeader (env : Env) (host : Bytes) : Header :=
  let header : Header := []
  let header := header.Set (str "Date") env.Now
  let header := header.Set (str "Host") host
  header.Set (str "X-Mns-Version") env.ApiVersion

/-- The last `header.Set`: the Authorization header over the signature of the header
built so far. -/
def authorize (mapToLower : Bytes → Bytes) (header : Header) (httpMethod : Bytes) (_url : URL)
    (accessKeyId accessKeySecret : Bytes) : Header :=
  header.Set (str "Authorization")
    (authorizationHeader accessKeyId
      (sign mapToLower httpMethod header _url.RequestURI accessKeySecret))

/-- The request of an operation that sends a body. -/
def bodyRequest (env : Env) (httpMethod : Bytes) (_url : URL) (body : Bytes)
    (accessKeyId accessKeySecret : Bytes) : HttpRequest :=
  { Method := httpMethod
    URL := _url
    Header := authorize env.MapToLower (bodyHeader env body _url.Host) httpMethod _url
      accessKeyId accessKeySecret
    Body := some body
    ContentLength := body.length
    Host := _url.Host }

/-- The request of an operation that sends no body. -/
def plainRequest (env : Env) (httpMethod : Bytes) (_url : URL)
    (accessKeyId accessKeySecret : Bytes) : HttpRequest :=
  { Method := httpMethod
    URL := _url
    Header := authorize env.MapToLower (plainHeader env _url.Host) httpMethod _url
      accessKeyId accessKeySecret
    Body := none
    ContentLength := 0
    Host := _url.Host }

/-- The `default:` branch of the status switch, the same in every operation: the body is
decoded as an `ApiError`, which gets the HTTP status and, when it has no request id, the
request id of the response header. -/
def defaultBranch (env : Env) (httpResp : HttpResponse) (requestId : Bytes) : Err :=
  match xmlDecode env.DecodeApiError httpResp with
  | .error e => .external e
  | .ok result =>
    let result := { result with HttpStatusCode := httpResp.StatusCode }
    let result := if result.RequestId = [] then { result with RequestId := requestId } else result
    .apiError result

/-- The case `httpResp.StatusCode/100 == 2` (Go's `/` truncates). -/
def is2xx (httpResp : HttpResponse) : Bool := Int.tdiv httpResp.StatusCode 100 == 2

/-- The error of a single digest check that failed. -/
def md5Mismatch (have_ want : Bytes) : Err :=
  .errorString (str "MessageBodyMD5 mismatch, have " ++ have_ ++ str ", want " ++ want)

/-- The error of the digest check of the `i`-th message of a batch. -/
def md5MismatchAt (i : Nat) (have_ want : Bytes) : Err :=
  .errorString (str "The " ++ itoaNat i ++ [39] ++ str "th MessageBodyMD5 mismatch, have " ++
    have_ ++ str ", want " ++ want)

/-- The error of the base64 decoding of the `i`-th message of a batch. -/
def base64FailedAt (i : Nat) (offset : Nat) : Err :=
  .errorString (str "base64 decode " ++ itoaNat i ++ [39] ++ str "th MessageBody failed: " ++
    corruptInputError offset)

/-- The error `errors.New("MessageBody must not be empty")`. -/
def errEmptyBody : Err := .errorString (str "MessageBody must not be empty")

/-- The error `errors.New("The length of msgs is invalid")`. -/
def errMsgsLength : Err := .errorString (str "The length of msgs is invalid")

/-- The error `errors.New("the length of receiptHandles is invalid")`. -/
def errHandlesLength : Err := .errorString (str "the length of receiptHandles is invalid")

/-! ## queue.go -/

/-- The base64 step before marshalling, under `if base64Encode`: the body is replaced by
its encoding. -/
def encodeBody (base64Encode : Bool) (body : Bytes) : Bytes :=
  if base64Encode then StdEncoding.Encode body else body

/-- `SendMessage2` sends a message to the queue. The first component is the caller's
`*msg` after the call, the second the results. -/
def QueueClient.SendMessage2 (env : Env) (clt : QueueClient) (msg : Option MessageToSend)
    (base64Encode : Bool) : Option MessageToSend × Ret Bytes :=
  match msg with
  | none => (none, ⟨[], [], some errEmptyBody, []⟩)
  | some m =>
    if m.MessageBody.length = 0 then (some m, ⟨[], [], some errEmptyBody, []⟩)
    else
      match ParseRequestURI env (clt.QueueURL ++ str "/messages") with
      | .error e => (some m, ⟨[], [], some (.external e), []⟩)
      | .ok _url =>
        let m := { m with MessageBody := encodeBody base64Encode m.MessageBody }
        match env.MarshalMessage m with
        | .error e => (some m, ⟨[], [], some (.external e), []⟩)
        | .ok body =>
          let httpReq := bodyRequest env (str "POST") _url body clt.AccessKeyId clt.AccessKeySecret
          match env.Do httpReq with
          | .error e => (some m, ⟨[], [], some (.external e), [httpReq]⟩)
          | .ok httpResp =>
            let requestId := httpResp.Header.Get (str "X-Mns-Request-Id")
            if is2xx httpResp then
              match xmlDecode env.DecodeSendResult httpResp with
              | .error e => (some m, ⟨requestId, [], some (.external e), [httpReq]⟩)
              | .ok result =>
                let wantMessageBodyMD5 := messageBodyMD5 m.MessageBody
                if ToUpper result.MessageBodyMD5 ≠ wantMessageBodyMD5 then
                  (some m, ⟨requestId, [],
                    some (md5Mismatch result.MessageBodyMD5 wantMessageBodyMD5), [httpReq]⟩)
                else (some m, ⟨requestId, result.MessageId, none, [httpReq]⟩)
            else (some m, ⟨requestId, [], some (defaultBranch env httpResp requestId), [httpReq]⟩)

/-- The loop of `BatchSendMessage2` over the response items from index `i` on: an item
with an error code is skipped, the first digest that does not match ends the call. -/
def checkSendDigests : Nat → List MessageToSend → List BatchSendMessageResponseItem → Option Err
  | i, m :: ms, r :: rs =>
    if r.ErrorCode ≠ [] then checkSendDigests (i + 1) ms rs
    else if ToUpper r.MessageBodyMD5 ≠ messageBodyMD5 m.MessageBody then
      some (md5MismatchAt i r.MessageBodyMD5 (messageBodyMD5 m.MessageBody))
    else checkSendDigests (i + 1) ms rs
  | _, _, _ => none

/-- `BatchSendMessage2` sends a batch of messages to the queue. The first component is
the caller's slice `msgs` after the call (the request shares its backing array). -/
def QueueClient.BatchSendMessage2 (env : Env) (clt : QueueClient) (msgs : List MessageToSend)
    (base64Encode : Bool) : List MessageToSend × Ret (List BatchSendMessageResponseItem) :=
  if msgs.length < 1 ∨ msgs.length > 16 then (msgs, ⟨[], [], some errMsgsLength, []⟩)
  else if msgs.any (fun m => m.MessageBody.length == 0) then
    (msgs, ⟨[], [], some errEmptyBody, []⟩)
  else
    match ParseRequestURI env (clt.QueueURL ++ str "/messages") with
    | .error e => (msgs, ⟨[], [], some (.external e), []⟩)
    | .ok _url =>
      let reqMessages :=
        msgs.map (fun m => { m with MessageBody := encodeBody base64Encode m.MessageBody })
      match env.MarshalMessages reqMessages with
      | .error e => (reqMessages, ⟨[], [], some (.external e), []⟩)
      | .ok body =>
        let httpReq := bodyRequest env (str "POST") _url body clt.AccessKeyId clt.AccessKeySecret
        match env.Do httpReq with
        | .error e => (reqMessages, ⟨[], [], some (.external e), [httpReq]⟩)
        | .ok httpResp =>
          let requestId := httpResp.Header.Get (str "X-Mns-Request-Id")
          if httpResp.StatusCode = 201 ∨ httpResp.StatusCode = 500 then
            match xmlDecode env.DecodeBatchSendResult httpResp with
            | .error e => (reqMessages, ⟨requestId, [], some (.external e), [httpReq]⟩)
            | .ok resultMessages =>
              if reqMessages.length ≠ resultMessages.length then
                (reqMessages, ⟨requestId, [],
                  some (.errorString (str "result message count mismatch, have " ++
                    itoaNat resultMessages.length ++ str ", want " ++ itoaNat reqMessages.length)),
                  [httpReq]⟩)
              else
                match checkSendDigests 0 reqMessages resultMessages with
                | some e => (reqMessages, ⟨requestId, [], some e, [httpReq]⟩)
                | none => (reqMessages, ⟨requestId, resultMessages, none, [httpReq]⟩)
          else
            (reqMessages, ⟨requestId, [], some (defaultBranch env httpResp requestId), [httpReq]⟩)

/-- The clamp of `waitSeconds` at the head of the receive operations. -/
def clampWaitSeconds (waitSeconds : Int) : Int :=
  if waitSeconds < 0 ∨ waitSeconds > 30 then 30 else waitSeconds

/-- The clamp of `numOfMessages` at the head of the batch receive and batch peek. -/
def clampNumOfMessages (numOfMessages : Int) : Int :=
  if numOfMessages < 1 ∨ numOfMessages > 16 then 16 else numOfMessages

/-- `ReceiveMessage2Context` receives one message of the queue. -/
def QueueClient.ReceiveMessage2Context (env : Env) (clt : QueueClient) (waitSeconds : Int)
    (base64Decode : Bool) : Outcome (Ret (Option Message)) :=
  let waitSeconds := clampWaitSeconds waitSeconds
  let rawurl := clt.QueueURL ++ str "/messages"
  let rawurl := if waitSeconds > 0 then rawurl ++ str "?waitseconds=" ++ Itoa waitSeconds else rawurl
  match ParseRequestURI env rawurl with
  | .error e => .returned ⟨[], none, some (.external e), []⟩
  | .ok _url =>
    let httpReq := plainRequest env (str "GET") _url clt.AccessKeyId clt.AccessKeySecret
    match env.Do httpReq with
    | .error e => .returned ⟨[], none, some (.external e), [httpReq]⟩
    | .ok httpResp =>
      let requestId := httpResp.Header.Get (str "X-Mns-Request-Id")
      if is2xx httpResp then
        match xmlDecode env.DecodeMessage httpResp with
        | .error e => .returned ⟨requestId, none, some (.external e), [httpReq]⟩
        | .ok result =>
          let wantMessageBodyMD5 := messageBodyMD5 result.MessageBody
          if ToUpper result.MessageBodyMD5 ≠ wantMessageBodyMD5 then
            .returned ⟨requestId, none,
              some (md5Mismatch result.MessageBodyMD5 wantMessageBodyMD5), [httpReq]⟩
          else if base64Decode ∧ result.MessageBody.length > 0 then
            match StdEncoding.Decode result.MessageBody with
            | .error _ =>
              -- `err.Error()` is called on the result `err`, which is nil here
              .panicked (str "runtime error: invalid memory address or nil pointer dereference")
            | .ok MessageBody =>
              .returned ⟨requestId, some { result with MessageBody := MessageBody }, none, [httpReq]⟩
          else .returned ⟨requestId, some result, none, [httpReq]⟩
      else .returned ⟨requestId, none, some (defaultBranch env httpResp requestId), [httpReq]⟩

/-- The digest loop of `BatchReceiveMessage2Context` from index `i` on. -/
def checkDigests : Nat → List Message → Option Err
  | _, [] => none
  | i, m :: ms =>
    if ToUpper m.MessageBodyMD5 ≠ messageBodyMD5 m.MessageBody then
      some (md5MismatchAt i m.MessageBodyMD5 (messageBodyMD5 m.MessageBody))
    else checkDigests (i + 1) ms

/-- The decoding loop of `BatchReceiveMessage2Context` from index `i` on: an empty body is
left as it is, the first body that does not decode ends the call. -/
def decodeBodies : Nat → List Message → Except Err (List Message)
  | _, [] => .ok []
  | i, m :: ms =>
    if m.MessageBody.length = 0 then
      match decodeBodies (i + 1) ms with
      | .error e => .error e
      | .ok rest => .ok (m :: rest)
    else
      match StdEncoding.Decode m.MessageBody with
      | .error offset => .error (base64FailedAt i offset)
      | .ok MessageBody =>
        match decodeBodies (i + 1) ms with
        | .error e => .error e
        | .ok rest => .ok ({ m with MessageBody := MessageBody } :: rest)

/-- `BatchReceiveMessage2Context` receives up to `numOfMessages` messages of the queue. -/
def QueueClient.BatchReceiveMessage2Context (env : Env) (clt : QueueClient)
    (numOfMessages waitSeconds : Int) (base64Decode : Bool) : Ret (List Message) :=
  let numOfMessages := clampNumOfMessages numOfMessages
  let waitSeconds := clampWaitSeconds waitSeconds
  let rawurl := clt.QueueURL ++ str "/messages?numOfMessages=" ++ Itoa numOfMessages
  let rawurl := if waitSeconds > 0 then rawurl ++ str "&waitseconds=" ++ Itoa waitSeconds else rawurl
  match ParseRequestURI env rawurl with
  | .error e => ⟨[], [], some (.external e), []⟩
  | .ok _url =>
    let httpReq := plainRequest env (str "GET") _url clt.AccessKeyId clt.AccessKeySecret
    match env.Do httpReq with
    | .error e => ⟨[], [], some (.external e), [httpReq]⟩
    | .ok httpResp =>
      let requestId := httpResp.Header.Get (str "X-Mns-Request-Id")
      if is2xx httpResp then
        match xmlDecode env.DecodeMessages httpResp with
        | .error e => ⟨requestId, [], some (.external e), [httpReq]⟩
        | .ok resultMessages =>
          match checkDigests 0 resultMessages with
          | some e => ⟨requestId, [], some e, [httpReq]⟩
          | none =>
            if base64Decode then
              match decodeBodies 0 resultMessages with
              | .error e => ⟨requestId, [], some e, [httpReq]⟩
              | .ok decoded => ⟨requestId, decoded, none, [httpReq]⟩
            else ⟨requestId, resultMessages, none, [httpReq]⟩
      else ⟨requestId, [], some (defaultBranch env httpResp requestId), [httpReq]⟩

/-- `PeekMessage2Context` looks at one message of the queue. -/
def QueueClient.PeekMessage2Context (env : Env) (clt : QueueClient) (base64Decode : Bool) :
    Outcome (Ret (Option MessageFromPeek)) :=
  match ParseRequestURI env (clt.QueueURL ++ str "/messages?peekonly=true") with
  | .error e => .returned ⟨[], none, some (.external e), []⟩
  | .ok _url =>
    let httpReq := plainRequest env (str "GET") _url clt.AccessKeyId clt.AccessKeySecret
    match env.Do httpReq with
    | .error e => .returned ⟨[], none, some (.external e), [httpReq]⟩
    | .ok httpResp =>
      let requestId := httpResp.Header.Get (str "X-Mns-Request-Id")
      if is2xx httpResp then
        match xmlDecode env.DecodeMessageFromPeek httpResp with
        | .error e => .returned ⟨requestId, none, some (.external e), [httpReq]⟩
        | .ok result =>
          let wantMessageBodyMD5 := messageBodyMD5 result.MessageBody
          if ToUpper result.MessageBodyMD5 ≠ wantMessageBodyMD5 then
            .returned ⟨requestId, none,
              some (md5Mismatch result.MessageBodyMD5 wantMessageBodyMD5), [httpReq]⟩
          else if base64Decode ∧ result.MessageBody.length > 0 then
            match StdEncoding.Decode result.MessageBody with
            | .error _ =>
              -- `err.Error()` is called on the result `err`, which is nil here
              .panicked (str "runtime error: invalid memory address or nil pointer dereference")
            | .ok MessageBody =>
              .returned ⟨requestId, some { result with MessageBody := MessageBody }, none, [httpReq]⟩
          else .returned ⟨requestId, some result, none, [httpReq]⟩
      else .returned ⟨requestId, none, some (defaultBranch env httpResp requestId), [httpReq]⟩

/-- The digest loop of `BatchPeekMessage2Context` from index `i` on. -/
def checkPeekDigests : Nat → List MessageFromPeek → Option Err
  | _, [] => none
  | i, m :: ms =>
    if ToUpper m.MessageBodyMD5 ≠ messageBodyMD5 m.MessageBody then
      some (md5MismatchAt i m.MessageBodyMD5 (messageBodyMD5 m.MessageBody))
    else checkPeekDigests (i + 1) ms

/-- The decoding loop of `BatchPeekMessage2Context` from index `i` on. -/
def decodePeekBodies : Nat → List MessageFromPeek → Except Err (List MessageFromPeek)
  | _, [] => .ok []
  | i, m :: ms =>
    if m.MessageBody.length = 0 then
      match decodePeekBodies (i + 1) ms with
      | .error e => .error e
      | .ok rest => .ok (m :: rest)
    else
      match StdEncoding.Decode m.MessageBody with
      | .error offset => .error (base64FailedAt i offset)
      | .ok MessageBody =>
        match decodePeekBodies (i + 1) ms with
        | .error e => .error e
        | .ok rest => .ok ({ m with MessageBody := MessageBody } :: rest)

/-- `BatchPeekMessage2Context` looks at up to `numOfMessages` messages of the queue. -/
def QueueClient.BatchPeekMessage2Context (env : Env) (clt : QueueClient) (numOfMessages : Int)
    (base64Decode : Bool) : Ret (List MessageFromPeek) :=
  let numOfMessages := clampNumOfMessages numOfMessages
  match ParseRequestURI env
      (clt.QueueURL ++ str "/messages?peekonly=true&numOfMessages=" ++ Itoa numOfMessages) with
  | .error e => ⟨[], [], some (.external e), []⟩
  | .ok _url =>
    let httpReq := plainRequest env (str "GET") _url clt.AccessKeyId clt.AccessKeySecret
    match env.Do httpReq with
    | .error e => ⟨[], [], some (.external e), [httpReq]⟩
    | .ok httpResp =>
      let requestId := httpResp.Header.Get (str "X-Mns-Request-Id")
      if is2xx httpResp then
        match xmlDecode env.DecodeMessagesFromPeek httpResp with
        | .error e => ⟨requestId, [], some (.external e), [httpReq]⟩
        | .ok resultMessages =>
          match checkPeekDigests 0 resultMessages with
          | some e => ⟨requestId, [], some e, [httpReq]⟩
          | none =>
            if base64Decode then
              match decodePeekBodies 0 resultMessages with
              | .error e => ⟨requestId, [], some e, [httpReq]⟩
              | .ok decoded => ⟨requestId, decoded, none, [httpReq]⟩
            else ⟨requestId, resultMessages, none, [httpReq]⟩
      else ⟨requestId, [], some (defaultBranch env httpResp requestId), [httpReq]⟩

/-- `DeleteMessage` deletes a message that was received. -/
def QueueClient.DeleteMessage (env : Env) (clt : QueueClient) (receiptHandle : Bytes) :
    Ret Unit :=
  match ParseRequestURI env
      (clt.QueueURL ++ str "/messages?ReceiptHandle=" ++ QueryEscape receiptHandle) with
  | .error e => ⟨[], (), some (.external e), []⟩
  | .ok _url =>
    let httpReq := plainRequest env (str "DELETE") _url clt.AccessKeyId clt.AccessKeySecret
    match env.Do httpReq with
    | .error e => ⟨[], (), some (.external e), [httpReq]⟩
    | .ok httpResp =>
      let requestId := httpResp.Header.Get (str "X-Mns-Request-Id")
      if is2xx httpResp then ⟨requestId, (), none, [httpReq]⟩
      else ⟨requestId, (), some (defaultBranch env httpResp requestId), [httpReq]⟩

/-- `BatchDeleteMessage` deletes up to 16 messages of the queue; `val` is `Errors`. -/
def QueueClient.BatchDeleteMessage (env : Env) (clt : QueueClient) (receiptHandles : List Bytes) :
    Ret (List BatchDeleteMessageErrorItem) :=
  if receiptHandles.length < 1 ∨ receiptHandles.length > 16 then
    ⟨[], [], some errHandlesLength, []⟩
  else
    match ParseRequestURI env (clt.QueueURL ++ str "/messages") with
    | .error e => ⟨[], [], some (.external e), []⟩
    | .ok _url =>
      match env.MarshalReceiptHandles receiptHandles with
      | .error e => ⟨[], [], some (.external e), []⟩
      | .ok body =>
        let httpReq := bodyRequest env (str "DELETE") _url body clt.AccessKeyId clt.AccessKeySecret
        match env.Do httpReq with
        | .error e => ⟨[], [], some (.external e), [httpReq]⟩
        | .ok httpResp =>
          let requestId := httpResp.Header.Get (str "X-Mns-Request-Id")
          if is2xx httpResp then ⟨requestId, [], none, [httpReq]⟩
          else if httpResp.StatusCode = 404 then
            match ReadAll httpResp with
            | .error err2 => ⟨requestId, [], some (.external err2), [httpReq]⟩
            | .ok body =>
              if Contains body (str "<ReceiptHandle>") then
                match env.DecodeDeleteErrors body with
                | .error e => ⟨requestId, [], some (.external e), [httpReq]⟩
                | .ok resultErrors => ⟨requestId, resultErrors, none, [httpReq]⟩
              else
                match env.DecodeApiError body with
                | .error e => ⟨requestId, [], some (.external e), [httpReq]⟩
                | .ok result =>
                  let result := { result with HttpStatusCode := httpResp.StatusCode }
                  let result :=
                    if result.RequestId = [] then { result with RequestId := requestId } else result
                  ⟨requestId, [], some (.apiError result), [httpReq]⟩
          else ⟨requestId, [], some (defaultBranch env httpResp requestId), [httpReq]⟩

/-- `ChangeMessageVisibility` changes the time at which a received message becomes visible
again and returns the new receipt handle. -/
def QueueClient.ChangeMessageVisibility (env : Env) (clt : QueueClient) (receiptHandle : Bytes)
    (visibilityTimeout : Int) : Ret (Option ChangeMessageVisibilityResponse) :=
  let rawurl := clt.QueueURL ++ str "/messages?receiptHandle=" ++ QueryEscape receiptHandle ++
    str "&visibilityTimeout=" ++ Itoa visibilityTimeout
  match ParseRequestURI env rawurl with
  | .error e => ⟨[], none, some (.external e), []⟩
  | .ok _url =>
    let httpReq := plainRequest env (str "PUT") _url clt.AccessKeyId clt.AccessKeySecret
    match env.Do httpReq with
    | .error e => ⟨[], none, some (.external e), [httpReq]⟩
    | .ok httpResp =>
      let requestId := httpResp.Header.Get (str "X-Mns-Request-Id")
      if is2xx httpResp then
        match xmlDecode env.DecodeChangeVisibility httpResp with
        | .error e => ⟨requestId, none, some (.external e), [httpReq]⟩
        | .ok result => ⟨requestId, some result, none, [httpReq]⟩
      else ⟨requestId, none, some (defaultBranch env httpResp requestId), [httpReq]⟩

/-! ## topic.go -/

/-- `PublishMessage2` publishes a message to the topic. The first component is the
caller's `*msg` after the call, the second the results. -/
def TopicClient.PublishMessage2 (env : Env) (clt : TopicClient) (msg : Option MessageToPublish)
    (base64Encode : Bool) : Option MessageToPublish × Ret Bytes :=
  match msg with
  | none => (none, ⟨[], [], some errEmptyBody, []⟩)
  | some m =>
    if m.MessageBody.length = 0 then (some m, ⟨[], [], some errEmptyBody, []⟩)
    else
      match ParseRequestURI env (clt.TopicURL ++ str "/messages") with
      | .error e => (some m, ⟨[], [], some (.external e), []⟩)
      | .ok _url =>
        let m := { m with MessageBody := encodeBody base64Encode m.MessageBody }
        match env.MarshalPublish m with
        | .error e => (some m, ⟨[], [], some (.external e), []⟩)
        | .ok body =>
          let httpReq := bodyRequest env (str "POST") _url body clt.AccessKeyId clt.AccessKeySecret
          match env.Do httpReq with
          | .error e => (some m, ⟨[], [], some (.external e), [httpReq]⟩)
          | .ok httpResp =>
            let requestId := httpResp.Header.Get (str "X-Mns-Request-Id")
            if is2xx httpResp then
              match xmlDecode env.DecodeSendResult httpResp with
              | .error e => (some m, ⟨requestId, [], some (.external e), [httpReq]⟩)
              | .ok result =>
                let wantMessageBodyMD5 := messageBodyMD5 m.MessageBody
                if ToUpper result.MessageBodyMD5 ≠ wantMessageBodyMD5 then
                  (some m, ⟨requestId, [],
                    some (md5Mismatch result.MessageBodyMD5 wantMessageBodyMD5), [httpReq]⟩)
                else (some m, ⟨requestId, result.MessageId, none, [httpReq]⟩)
            else (some m, ⟨requestId, [], some (defaultBranch env httpResp requestId), [httpReq]⟩)

end Mns

set_option maxRecDepth 1000000

namespace Mns

/-! ## The specification's notions, and a test double of the environment -/

/-- The service headers of a header set, in the words of the specification: the entries
with a value whose lower-cased name starts with `x-mns-`, as the pair of the lower-cased
name and the first value. -/
def serviceHeaders (mapToLower : Bytes → Bytes) (h : Header) : canonicalizedMNSHeaders :=
  h.filterMap fun e =>
    match e.2 with
    | [] => none
    | v :: _ =>
      if HasPrefix (ToLower mapToLower e.1) (str "x-mns-") then
        some (ToLower mapToLower e.1, v)
      else none

/-- A test double of `strings.Map(unicode.ToLower, s)`: the Kelvin sign U+212A (the
bytes E2 84 AA) becomes `k`, an ASCII capital its small letter, every other byte is kept;
it agrees with the library on the well-formed UTF-8 strings in which the Kelvin sign is
the only rune outside ASCII that has a lower case. -/
def testMapToLower : Bytes → Bytes
  | 226 :: 132 :: 170 :: rest => 107 :: testMapToLower rest
  | c :: rest => toLowerByte c :: testMapToLower rest
  | [] => []

/-- One emitted service header: `name:value\n`. -/
def emitHeader (kv : Bytes × Bytes) : Bytes := kv.1 ++ [58] ++ kv.2 ++ [10]

/-- The part `CanonicalizedServiceHeaders` of the string to sign, in the words of the
specification: the service headers sorted by name, each emitted as `name:value\n`. -/
def CanonicalizedServiceHeaders (mapToLower : Bytes → Bytes) (h : Header) : Bytes :=
  ((sortSort (serviceHeaders mapToLower h)).map emitHeader).flatten

/-- The environment answers with `httpResp`: every URL parses, every payload marshals
and the HTTP client returns `httpResp` for the request it is handed. -/
structure Env.Answers (env : Env) (httpResp : HttpResponse) : Prop where
  parse : ∃ host uri : Bytes → Bytes, ∀ raw, env.ParseURI raw = .ok (host raw, uri raw)
  marshalMessage : ∃ f : MessageToSend → Bytes, ∀ m, env.MarshalMessage m = .ok (f m)
  marshalMessages : ∃ f : List MessageToSend → Bytes, ∀ ms, env.MarshalMessages ms = .ok (f ms)
  marshalReceiptHandles :
    ∃ f : List Bytes → Bytes, ∀ hs, env.MarshalReceiptHandles hs = .ok (f hs)
  marshalPublish : ∃ f : MessageToPublish → Bytes, ∀ m, env.MarshalPublish m = .ok (f m)
  roundTrip : ∀ req, env.Do req = .ok httpResp

/-- A message payload of the test double: the digest field is the first 32 bytes of the
body of the response, the message body is what follows. -/
def framedMessage (b : Bytes) : Message :=
  ⟨str "id", str "handle", b.drop 32, b.take 32, 0, 0, 0, 1, 8⟩

/-- A peeked message payload of the test double, framed as `framedMessage`. -/
def framedPeek (b : Bytes) : MessageFromPeek :=
  ⟨str "id", b.drop 32, b.take 32, 0, 0, 1, 8⟩

/-- A test double of the environment: every URL parses (the request URI is the raw URL),
a payload is marshalled as its bodies, the server answers every request with `httpResp`,
and the body of the response is read with a fixed framing in place of XML (a send result
and an error payload carry the whole body as digest and as error code). -/
def testEnv (httpResp : HttpResponse) : Env where
  MapToLower := testMapToLower
  ContentTypeTextXML := str "text/xml;charset=utf-8"
  ApiVersion := str "2015-06-06"
  Now := str "Thu, 17 Mar 2012 18:49:58 GMT"
  ParseURI := fun raw => .ok (str "mns.example", raw)
  MarshalMessage := fun m => .ok m.MessageBody
  MarshalMessages := fun ms => .ok (ms.map fun m => m.MessageBody).flatten
  MarshalReceiptHandles := fun hs => .ok hs.flatten
  MarshalPublish := fun m => .ok m.MessageBody
  DecodeSendResult := fun b => .ok ⟨str "id", b⟩
  DecodeBatchSendResult := fun b => .ok [⟨[], [], str "id", b⟩]
  DecodeMessage := fun b => .ok (framedMessage b)
  DecodeMessages := fun b => .ok [framedMessage b]
  DecodeMessageFromPeek := fun b => .ok (framedPeek b)
  DecodeMessagesFromPeek := fun b => .ok [framedPeek b]
  DecodeChangeVisibility := fun b => .ok ⟨b, 0⟩
  DecodeDeleteErrors := fun b => .ok [⟨str "MessageNotExist", [], b⟩]
  DecodeApiError := fun b => .ok ⟨0, b, str "message", [], str "host"⟩
  Do := fun _ => .ok httpResp

/-- A queue client of the test double. -/
def testQueue : QueueClient := ⟨str "http://mns.example/queues/q", str "id", str "secret"⟩

/-- A topic client of the test double. -/
def testTopic : TopicClient := ⟨str "http://mns.example/topics/t", str "id", str "secret"⟩

/-- A response of the test double to a send: status 201, the digest of `hello` in lower
case as payload. -/
def sendResponse : HttpResponse :=
  ⟨201, [(str "X-Mns-Request-Id", [str "r1"])], str "5d41402abc4b2a76b9719d911017c592", none⟩

/-- A response of the test double to a receive: status 200, the body `hello` under a
digest that is not its own. -/
def mismatchResponse : HttpResponse :=
  ⟨200, [(str "X-Mns-Request-Id", [str "r1"])],
    str "00000000000000000000000000000000" ++ str "hello", none⟩

/-- A response of the test double to a receive: status 200, the body `hello` under its
digest. -/
def receiveResponse : HttpResponse :=
  ⟨200, [(str "X-Mns-Request-Id", [str "r1"])],
    str "5D41402ABC4B2A76B9719D911017C592" ++ str "hello", none⟩

/-- A response of the test double to a receive: status 200, the body `!`, which is not
base64, under its digest. -/
def undecodableResponse : HttpResponse :=
  ⟨200, [(str "X-Mns-Request-Id", [str "r1"])],
    str "9033E0E305F247C0C3C80D0C7848C8B3" ++ str "!", none⟩

/-- The typed error of the specification for a response that is not 2xx and whose body
decodes as the payload: the HTTP status of the response, code, message and host id of the
payload, the request id of the payload or else that of the response header. -/
def surfacedApiError (httpResp : HttpResponse) (payload : ApiError) : ApiError :=
  { HttpStatusCode := httpResp.StatusCode
    Code := payload.Code
    Message := payload.Message
    RequestId :=
      if payload.RequestId = [] then httpResp.Header.Get (str "X-Mns-Request-Id")
      else payload.RequestId
    HostId := payload.HostId }

/-- A response of the test double that is not 2xx: status 404, the error code as body. -/
def notFoundResponse : HttpResponse :=
  ⟨404, [(str "X-Mns-Request-Id", [str "r1"])], str "MessageNotExist", none⟩

/-- A response of the test double to a receive: status 200, the base64 encoding of
`hello` under its digest. -/
def encodedResponse : HttpResponse :=
  ⟨200, [(str "X-Mns-Request-Id", [str "r1"])],
    str "0733351879B2FA9BD05C7CA3061529C0" ++ str "aGVsbG8=", none⟩

/-- A response of the test double to a batch delete: status 404 with one per-handle
entry. -/
def partialDeleteResponse : HttpResponse :=
  ⟨404, [(str "X-Mns-Request-Id", [str "r1"])], str "<ReceiptHandle>h1", none⟩

/-- A response of the test double to a batch send: status 500, the digest of `hello` as
payload. -/
def batchFailureResponse : HttpResponse :=
  ⟨500, [(str "X-Mns-Request-Id", [str "r1"])], str "5D41402ABC4B2A76B9719D911017C592", none⟩

/-- A response of the test double to a batch send: status 200, the digest of `hello` as
payload. -/
def batchOkResponse : HttpResponse :=
  ⟨200, [(str "X-Mns-Request-Id", [str "r1"])], str "5D41402ABC4B2A76B9719D911017C592", none⟩

/-- The header carries the name with the single value. -/
def Carries (h : Header) (key value : Bytes) : Prop := h.lookup key = some [value]

/-- The headers that the operations put on a signed request: Date and the protocol
version, the Authorization header `MNS <accessKeyId>:<signature>` where the signature is
`sign` over the header as it stands before Authorization is added and over the request
URI, and, for a request with a body, Content-Md5 and Content-Type. -/
structure SignedRequest (env : Env) (accessKeyId accessKeySecret : Bytes) (req : HttpRequest) :
    Prop where
  date : Carries req.Header (str "Date") env.Now
  version : Carries req.Header (str "X-Mns-Version") env.ApiVersion
  authorization : ∃ before : Header, before.lookup (str "Authorization") = none ∧
    req.Header = before.Set (str "Authorization")
      (str "MNS " ++ accessKeyId ++ str ":" ++
        sign env.MapToLower req.Method before req.URL.RequestURI accessKeySecret) ∧
    Carries req.Header (str "Authorization")
      (str "MNS " ++ accessKeyId ++ str ":" ++
        sign env.MapToLower req.Method before req.URL.RequestURI accessKeySecret)
  content : ∀ body, req.Body = some body →
    Carries req.Header (str "Content-Md5") (contentMD5 body) ∧
      Carries req.Header (str "Content-Type") env.ContentTypeTextXML
  plain : req.Body = none →
    req.Header.lookup (str "Content-Md5") = none ∧ req.Header.lookup (str "Content-Type") = none

/-! ## endpoint.go: verification of a notification -/

/-- An `rsa.PublicKey`. -/
structure PublicKey where
  N : Nat
  E : Nat
deriving DecidableEq, Repr

/-- The dynamic type of `cert.PublicKey`: an `*rsa.PublicKey` or a key of another kind. -/
inductive CertKey where
  | rsa (key : PublicKey)
  | other
deriving DecidableEq, Repr

/-- A value held by the certificate cache (an `interface` value): an `*rsa.PublicKey` or a
value of another type. -/
inductive CacheValue where
  | key (k : PublicKey)
  | other
deriving DecidableEq, Repr

/-- The error of `lrucache.Get`: `ErrNotFound` or another one. -/
inductive CacheErr where
  | ErrNotFound
  | other (e : ExtErr)
deriving DecidableEq, Repr

/-- The certificate cache `__certCache = lrucache.New(100)`: its entries, the most
recently used first. -/
abbrev Cache := List (Bytes × CacheValue)

/-- `Cache.Get`: the value under the key, which becomes the most recently used entry, or
`ErrNotFound`. -/
def Cache.Get (c : Cache) (key : Bytes) : Except CacheErr CacheValue × Cache :=
  match c.lookup key with
  | some v => (.ok v, (key, v) :: c.filter (fun e => e.1 != key))
  | none => (.error .ErrNotFound, c)

/-- `Cache.Set`: the entry becomes the most recently used one; beyond 100 entries the
least recently used one is dropped. -/
def Cache.Set (c : Cache) (key : Bytes) (v : CacheValue) : Cache :=
  ((key, v) :: c.filter (fun e => e.1 != key)).take 100

/-- What the verification takes from outside the package: the download of a certificate
(`http.DefaultClient.Get` and `ioutil.ReadAll`), `pem.Decode` (the bytes of the block, or
none), `x509.ParseCertificate` followed by the field `PublicKey`, and
`rsa.VerifyPKCS1v15` for SHA-1 (true when it returns nil); and `MapToLower`, the part
of `strings.ToLower` that rests on the Unicode tables. -/
structure NotifyEnv where
  MapToLower : Bytes → Bytes
  Download : Bytes → Except ExtErr Bytes
  pemDecode : Bytes → Option Bytes
  ParseCertificate : Bytes → Except ExtErr CertKey
  VerifyPKCS1v15 : PublicKey → Bytes → Bytes → Bool

/-- `downloadCertificate` downloads the X509 certificate. -/
def downloadCertificate (nenv : NotifyEnv) (url : Bytes) : Except ExtErr Bytes :=
  nenv.Download url

/-- `parseRSAPublicKey` takes the public key out of the certificate. -/
def parseRSAPublicKey (nenv : NotifyEnv) (pemBytes : Bytes) : Except Err PublicKey :=
  match nenv.pemDecode pemBytes with
  | none => .error (.errorString (str "incorrect pem bytes"))
  | some blockBytes =>
    match nenv.ParseCertificate blockBytes with
    | .error e => .error (.external e)
    | .ok (.rsa key) => .ok key
    | .ok .other => .error (.errorString (str "it" ++ [39] ++ str "s not an RSA public key"))

/-- The result of `getRSAPublicKey`: the key or the error, the cache after the call and
the URLs that were downloaded. -/
structure KeyResult where
  key : Except Err PublicKey
  cache : Cache
  downloads : List Bytes

/-- The download branch of `getRSAPublicKey` (case `lrucache.ErrNotFound`, reached also
by fallthrough). -/
def fetchRSAPublicKey (nenv : NotifyEnv) (cache : Cache) (certURL : Bytes) : KeyResult :=
  match downloadCertificate nenv certURL with
  | .error e => ⟨.error (.external e), cache, [certURL]⟩
  | .ok certBytes =>
    match parseRSAPublicKey nenv certBytes with
    | .error e => ⟨.error e, cache, [certURL]⟩
    | .ok pubKey => ⟨.ok pubKey, cache.Set certURL (.key pubKey), [certURL]⟩

/-- `getRSAPublicKey`: the cached key of the URL, or the key of the downloaded
certificate, which is then cached. -/
def getRSAPublicKey (nenv : NotifyEnv) (cache : Cache) (certURL : Bytes) : KeyResult :=
  match cache.Get certURL with
  | (.ok (.key key), cache) => ⟨.ok key, cache, []⟩
  | (.ok .other, cache) => fetchRSAPublicKey nenv cache certURL
  | (.error .ErrNotFound, cache) => fetchRSAPublicKey nenv cache certURL
  | (.error (.other e), cache) => ⟨.error (.external e), cache, []⟩

/-- `rsaVerify` checks the signature (base64) of the data. -/
def rsaVerify (nenv : NotifyEnv) (data : Bytes) (publicKey : PublicKey) (sign : Bytes) :
    Bool × Option Err :=
  match StdEncoding.Decode sign with
  | .error offset => (false, some (.external ⟨false, corruptInputError offset⟩))
  | .ok sig =>
    let digest := sha1Sum data
    if nenv.VerifyPKCS1v15 publicKey digest sig = false then (false, none) else (true, none)

/-- The results of `verifyNotification`, with the cache after the call and the URLs that
were downloaded. -/
structure VerifyResult where
  ok : Bool
  err : Option Err
  cache : Cache
  downloads : List Bytes

/-- The prefix that a signing-certificate URL must have. -/
def certURLPrefix : Bytes := str "http://mnstest.oss-cn-hangzhou.aliyuncs.com/"

/-- `verifyNotification` verifies the origin of a notification; with `verifyContentMD5`
the header Content-MD5 is checked when there is one. -/
def verifyNotification (nenv : NotifyEnv) (cache : Cache) (req : InboundRequest) (body : Bytes)
    (verifyContentMD5 : Bool) : VerifyResult :=
  let haveContentMD5 := req.Header.Get (str "Content-Md5")
  let wantContentMD5 := contentMD5 body
  if verifyContentMD5 = true ∧ haveContentMD5 ≠ [] ∧ haveContentMD5 ≠ wantContentMD5 then
    ⟨false, some (.errorString (str "Content-MD5 mismatch, have " ++ haveContentMD5 ++
      str ", want " ++ wantContentMD5)), cache, []⟩
  else
    let Authorization := req.Header.Get (str "Authorization")
    if Authorization = [] then
      ⟨false, some (.errorString (str "Authorization header not found")), cache, []⟩
    else
      let base64CertURL := req.Header.Get (str "X-Mns-Signing-Cert-Url")
      if base64CertURL = [] then
        ⟨false, some (.errorString (str "x-mns-signing-cert-url header not found")), cache, []⟩
      else
        match StdEncoding.Decode base64CertURL with
        | .error _ =>
          ⟨false, some (.errorString (str "invalid x-mns-signing-cert-url header: " ++
            base64CertURL)), cache, []⟩
        | .ok certURL =>
          if HasPrefix certURL certURLPrefix = false then
            ⟨false, some (.errorString (str "invalid x-mns-signing-cert-url header: " ++
              base64CertURL)), cache, []⟩
          else
            match getRSAPublicKey nenv cache certURL with
            | ⟨.error err, cache, downloads⟩ => ⟨false, some err, cache, downloads⟩
            | ⟨.ok pubKey, cache, downloads⟩ =>
              let signStr := getSignStr nenv.MapToLower req
              let r := rsaVerify nenv signStr pubKey Authorization
              ⟨r.1, r.2, cache, downloads⟩

/-- `VerifyNotification` verifies the origin of a notification. -/
def VerifyNotification (nenv : NotifyEnv) (cache : Cache) (req : InboundRequest) (body : Bytes) :
    VerifyResult :=
  verifyNotification nenv cache req body true

/-- A test double of the environment of the verification: the certificate at a URL is the
URL itself, every certificate parses to an RSA key whose modulus is its length, and a
signature is valid when it is the digest itself. -/
def testNotifyEnv : NotifyEnv where
  MapToLower := testMapToLower
  Download := fun url => .ok url
  pemDecode := fun b => some b
  ParseCertificate := fun b => .ok (.rsa ⟨b.length, 65537⟩)
  VerifyPKCS1v15 := fun _ digest sig => sig == digest
/-- A notification for the test double: signed with the digest of its string to sign,
the certificate at an allow-listed URL. -/
def testNotification : InboundRequest :=
  { Method := str "POST"
    Header :=
      [(str "Authorization", [str "eFT6CvzuXkj3VLr8UoTk8MAI3+Y="]),
        (str "X-Mns-Signing-Cert-Url",
          [StdEncoding.Encode (str "http://mnstest.oss-cn-hangzhou.aliyuncs.com/cert.pem")])]
    RequestURI := str "/notify" }

/-! ## consumer/consumer.go: the consumer engine

The engine is a set of goroutines over two channels and a tomb.  It is embedded as a
transition system: a state holds the fields of the `Consumer`, the contents of its
channels and the place each goroutine has reached; a label names the goroutine that
moves next (and, for the long poll, what the service answered); `step` is the move,
defined exactly when the goroutine is not blocked.  Real time (the ticker, the sleep)
is not part of the state: a goroutine waiting for a tick or sleeping may move at any
step. -/

/-- What a handler does that the engine can observe, a statement at a time. -/
inductive HandlerOp where
  /-- A statement that touches no channel of the engine (logging, `c.Delete`). -/
  | work
  /-- The receive `<-c.LimitChan`. -/
  | release
deriving DecidableEq, Repr

/-- `Handler` of consumer.go, as the statements it runs for a message; a handler that
has run its last statement (deferred ones included) has returned. -/
abbrev Handler := Message → List HandlerOp

/-- `ProcessMessage` of main.go: the log line, then the deferred `c.Delete`, then the
deferred `<-c.LimitChan`. -/
def ProcessMessage : Handler := fun _ => [.work, .work, .release]

/-- `defaultTimeoutMaxRetry` of consumer.go. -/
def defaultTimeoutMaxRetry : Int := 5

/-- The fields of `Consumer` that are fixed by `NewConsumer` (the channels and the tomb
are in `Engine`).  The capacities are the `int`s handed to `make`, which panics on a
negative one. -/
structure Consumer where
  hanlder : Handler
  timeoutMaxRetry : Int
  queSize : Nat
  limitSize : Nat

/-- `option` of consumer.go. -/
abbrev option := Consumer → Consumer

/-- `WithTimeoutRetry` of consumer.go. -/
def WithTimeoutRetry (retry : Int) : option := fun c => { c with timeoutMaxRetry := retry }

/-- `WithChanSize` of consumer.go. -/
def WithChanSize (size : Nat) : option := fun c => { c with queSize := size }

/-- `WithLimitSize` of consumer.go. -/
def WithLimitSize (size : Nat) : option := fun c => { c with limitSize := size }

/-- `NewConsumer` of consumer.go, without the queue client. -/
def NewConsumer (handler : Handler) (options : List option) : Consumer :=
  options.foldl (fun c o => o c) ⟨handler, defaultTimeoutMaxRetry, 0, 0⟩

/-- `timeoutErr` of consumer.go: the error is a `net.Error` whose `Timeout()` is true. -/
def timeoutErr (err : Err) : Bool :=
  match err with
  | .external e => e.Timeout
  | _ => false

/-- `mnsMsgNotFound` of consumer.go. -/
def mnsMsgNotFound (err : Err) : Bool :=
  match err with
  | .apiError e => e.HttpStatusCode == 404 && e.Code == str "MessageNotExist"
  | _ => false

/-- Where `serve` stands. -/
inductive ServePc where
  /-- `Start` has not been called. -/
  | idle
  /-- At the test `i < c.timeoutMaxRetry` of the retry loop. -/
  | retry
  /-- After the retry loop, before the two `if err != nil`. -/
  | check
  /-- In `time.Sleep(time.Second)`. -/
  | sleep
  /-- In `for _, msg := range msgs` with `rest` still to come, before
  `c.LimitChan <- true`. -/
  | range (rest : List Message)
  /-- Holding a token for `msg`, before `c.queMsgChan <- queueMsg{...}`. -/
  | send (msg : Message) (rest : List Message)
  /-- At `DONE`, before `close(c.serveDone)`. -/
  | done
  /-- Returned. -/
  | exited
deriving DecidableEq, Repr

/-- Where `startQueueWorker` stands. -/
inductive WorkerPc where
  /-- `Start` has not been called. -/
  | idle
  /-- At `for msg := range c.queMsgChan`, waiting for a message or for the close. -/
  | range
  /-- Holding `msg`, at `<-tick.C` before `go c.hanlder(msg.c, msg.mnsMsg)`. -/
  | tick (msg : Message)
  /-- Returned. -/
  | exited
deriving DecidableEq, Repr

/-- A state of a running `Consumer`.  `placed` and `launched` are history: the messages
ever sent on `queMsgChan` and the messages ever handed to `go c.hanlder`, in order. -/
structure Engine where
  /-- `Start` has been called. -/
  started : Bool
  /-- `Stop` has been called (it has run `c.t.Kill(nil)`). -/
  stopCalled : Bool
  /-- `c.t.Dying()` is closed. -/
  dying : Bool
  /-- `c.t.Dead()` is closed. -/
  dead : Bool
  /-- `Stop` has returned. -/
  stopped : Bool
  servePc : ServePc
  i : Int
  msgs : List Message
  err : Option Err
  /-- `ctx.Done()` of `serve` is closed. -/
  canceled : Bool
  /-- `c.serveDone` is closed. -/
  serveDone : Bool
  /-- The number of tokens in `c.LimitChan`. -/
  LimitChan : Nat
  /-- The messages in `c.queMsgChan`, oldest first (each `queueMsg` carries this `c`). -/
  queMsgChan : List Message
  /-- `c.queMsgChan` is closed. -/
  queClosed : Bool
  workerPc : WorkerPc
  /-- The handler goroutines in the order of their launch: what each has left to run. -/
  handlers : List (List HandlerOp)
  placed : List Message
  launched : List Message
deriving DecidableEq, Repr

/-- The state `NewConsumer` returns: nothing started, both channels empty and open. -/
def Engine.init : Engine :=
  ⟨false, false, false, false, false, .idle, 0, [], none, false, false, 0, [], false,
    .idle, [], [], []⟩

/-- The moves of the engine. -/
inductive Label where
  /-- The caller runs `Start`: both loops are wrapped into goroutines. -/
  | start
  /-- The caller enters `Stop`: `c.t.Kill(nil)`. -/
  | kill
  /-- `c.t.Wait()` in `Stop` returns, and `Stop` with it. -/
  | wait
  /-- The goroutine of `serve`: `<-c.t.Dying(); cancel()`. -/
  | cancel
  /-- `serve` passes the test of the retry loop and `BatchReceiveMessage2Context`
  returns `msgs, err`; the branches on `err` follow. -/
  | receive (msgs : List Message) (err : Option Err)
  /-- `serve` fails the test of the retry loop. -/
  | leave
  /-- `serve` runs the two `if err != nil` after the retry loop. -/
  | branch
  /-- `time.Sleep` returns. -/
  | wake
  /-- `serve` finds the range over `msgs` exhausted. -/
  | next
  /-- `serve` sends on `c.LimitChan`: into the channel, or to the handler goroutine
  `k` that is blocked receiving from it. -/
  | acquire (k : Option Nat)
  /-- `serve` sends on `c.queMsgChan`. -/
  | enqueue
  /-- `serve` runs `close(c.serveDone)` and returns (the deferred `cancel()` runs). -/
  | finish
  /-- The goroutine of `startQueueWorker`: `<-c.serveDone; close(c.queMsgChan)`. -/
  | closeQue
  /-- The worker receives from `c.queMsgChan`, or sees it closed and empty. -/
  | take
  /-- The worker receives the tick and runs `go c.hanlder(msg.c, msg.mnsMsg)`. -/
  | launch
  /-- The handler goroutine `k` runs its next statement. -/
  | handler (k : Nat)
  /-- The goroutine of `Start`: `c.w.Wait()` returns and `c.t.Done()` runs. -/
  | join

/-- Modelled from the spec: `util.WaitGroupWrapper` is not among the sources.  `Wrap`
runs a loop in a goroutine of its own (the `start` move) and `Wait` can return when both
wrapped loops have exited: stop "waits for both loops to fully exit before returning". -/
def Wait (s : Engine) : Bool := decide (s.servePc = .exited ∧ s.workerPc = .exited)

/-- One move of the engine; `none` when the goroutine named by the label is not at that
statement or is blocked there.  The tomb is `gopkg.in/tomb.v1`: `Kill` closes `Dying`,
`Done` closes `Dead` (and `Dying`), `Wait` blocks until `Dead` is closed.  Channels are
those of Go: a send on a channel whose buffer is full blocks unless a receiver is
waiting, a receive on an empty channel blocks unless it is closed. -/
def step (c : Consumer) (s : Engine) : Label → Option Engine
  | .start =>
    if s.started = false then
      some { s with started := true, servePc := .retry, i := 0, workerPc := .range }
    else none
  | .kill => some { s with stopCalled := true, dying := true }
  | .wait =>
    if s.stopCalled = true ∧ s.dead = true ∧ s.stopped = false then
      some { s with stopped := true }
    else none
  | .cancel =>
    if s.servePc ≠ .idle ∧ s.dying = true ∧ s.canceled = false then
      some { s with canceled := true }
    else none
  | .receive msgs err =>
    if s.servePc = .retry ∧ s.i < c.timeoutMaxRetry then
      match err with
      | none => some { s with msgs := msgs, err := none, servePc := .check }
      | some e =>
        if timeoutErr e || mnsMsgNotFound e then
          some { s with msgs := msgs, err := some e, i := s.i + 1 }
        else some { s with msgs := msgs, err := some e, servePc := .check }
    else none
  | .leave =>
    if s.servePc = .retry ∧ ¬ s.i < c.timeoutMaxRetry then
      some { s with servePc := .check }
    else none
  | .branch =>
    if s.servePc = .check then
      match s.err with
      | some e =>
        if s.canceled = true then some { s with servePc := .done }
        else if mnsMsgNotFound e then some { s with servePc := .retry, i := 0 }
        else some { s with servePc := .sleep }
      | none => some { s with servePc := .range s.msgs }
    else none
  | .wake =>
    if s.servePc = .sleep then some { s with servePc := .retry, i := 0 } else none
  | .next =>
    if s.servePc = .range [] then some { s with servePc := .retry, i := 0 } else none
  | .acquire k =>
    match s.servePc with
    | .range (msg :: rest) =>
      match k with
      | none =>
        if s.LimitChan < c.limitSize then
          some { s with LimitChan := s.LimitChan + 1, servePc := .send msg rest }
        else none
      | some k =>
        if s.LimitChan = 0 then
          match s.handlers[k]? with
          | some (.release :: ops) =>
            some { s with handlers := s.handlers.set k ops, servePc := .send msg rest }
          | _ => none
        else none
    | _ => none
  | .enqueue =>
    match s.servePc with
    | .send msg rest =>
      if s.queClosed = true then none
      else if s.queMsgChan.length < c.queSize then
        some { s with queMsgChan := s.queMsgChan ++ [msg], placed := s.placed ++ [msg],
                      servePc := .range rest }
      else if s.workerPc = .range ∧ s.queMsgChan = [] then
        some { s with workerPc := .tick msg, placed := s.placed ++ [msg],
                      servePc := .range rest }
      else none
    | _ => none
  | .finish =>
    if s.servePc = .done then
      some { s with serveDone := true, canceled := true, servePc := .exited }
    else none
  | .closeQue =>
    if s.workerPc ≠ .idle ∧ s.serveDone = true ∧ s.queClosed = false then
      some { s with queClosed := true }
    else none
  | .take =>
    if s.workerPc = .range then
      match s.queMsgChan with
      | msg :: rest => some { s with queMsgChan := rest, workerPc := .tick msg }
      | [] => if s.queClosed = true then some { s with workerPc := .exited } else none
    else none
  | .launch =>
    match s.workerPc with
    | .tick msg =>
      some { s with handlers := s.handlers ++ [c.hanlder msg],
                    launched := s.launched ++ [msg], workerPc := .range }
    | _ => none
  | .handler k =>
    match s.handlers[k]? with
    | some (.work :: ops) => some { s with handlers := s.handlers.set k ops }
    | some (.release :: ops) =>
      if 0 < s.LimitChan then
        some { s with handlers := s.handlers.set k ops, LimitChan := s.LimitChan - 1 }
      else none
    | _ => none
  | .join =>
    if s.started = true ∧ Wait s = true ∧ s.dead = false then
      some { s with dead := true, dying := true }
    else none

/-- The state after the moves `ls`, when each of them is possible in turn. -/
def run (c : Consumer) : Engine → List Label → Option Engine
  | s, [] => some s
  | s, l :: ls => (step c s l).bind fun t => run c t ls

/-- The states the engine of `c` can be in. -/
def Reachable (c : Consumer) (s : Engine) : Prop := ∃ ls, run c Engine.init ls = some s

/-- The number of handler goroutines that are executing: launched and not returned. -/
def executing (s : Engine) : Nat := s.handlers.countP fun ops => !ops.isEmpty

/-- The messages sent on `queMsgChan` for which no handler has been launched: the one
the worker holds, then the buffer. -/
def pending (s : Engine) : List Message :=
  (match s.workerPc with
   | .tick msg => [msg]
   | _ => []) ++ s.queMsgChan

/-- A handler's statements receive from `LimitChan` at most once, and as the last of
them (as `ProcessMessage` does in its first deferred function). -/
def releasesLast : List HandlerOp → Bool
  | [] => true
  | [_] => true
  | op :: ops => op != .release && releasesLast ops

/-- A test message with the given body. -/
def testMsg (body : String) : Message := ⟨str "id", str "handle", str body, [], 0, 0, 0, 1, 8⟩
/-- What holds of every state the engine can be in: nothing moves before `Start`, a
channel is closed only by the goroutine that waits for what precedes it, a loop that
has exited has left nothing behind, the messages sent on `queMsgChan` are the launched ones followed by the pending
ones, and every launch has made one handler goroutine. -/
structure Engine.Inv (s : Engine) : Prop where
  idle : s.started = false → s.servePc = .idle ∧ s.workerPc = .idle
  closed : s.queClosed = true → s.serveDone = true
  served : s.serveDone = true → s.servePc = .exited
  worker : s.workerPc = .exited → s.queClosed = true ∧ s.queMsgChan = []
  dead : s.dead = true → s.started = true ∧ s.servePc = .exited ∧ s.workerPc = .exited
  stopped : s.stopped = true → s.dead = true
  fifo : s.placed = s.launched ++ pending s
  spawned : s.handlers.length = s.launched.length
/-- The number of tokens taken for messages that have no handler yet: the one `serve`
holds between its two sends, and one for each pending message. -/
def held (s : Engine) : Nat :=
  (match s.servePc with
   | .send _ _ => 1
   | _ => 0) + (pending s).length

/-- The account of the tokens of `LimitChan` for handlers that release last: every
message on its way and every executing handler has a token in the channel. -/
structure Engine.Bounded (c : Consumer) (s : Engine) : Prop where
  tokens : held s + executing s ≤ s.LimitChan
  limit : s.LimitChan ≤ c.limitSize
  scripts : ∀ ops ∈ s.handlers, releasesLast ops = true
/-- A handler that gives its token back first and works afterwards. -/
def earlyRelease : Handler := fun _ => [.release, .work]

/-- A consumer with room for `n` tokens and `n` buffered messages. -/
def testConsumer (handler : Handler) (n : Nat) : Consumer :=
  NewConsumer handler [WithLimitSize n, WithChanSize n]

/-- Two handlers launched under a limit of one: the first has released its token and
still works when the second is launched. -/
def overrunTrace : List Label :=
  [.start, .receive [testMsg "a", testMsg "b"] none, .branch, .acquire none, .enqueue,
   .take, .launch, .handler 0, .acquire none, .enqueue, .take, .launch]

/-- A batch of two is received and its first message is sent on the buffer. -/
def midBatchTrace : List Label :=
  [.start, .receive [testMsg "a", testMsg "b"] none, .branch, .acquire none, .enqueue]

/-- After the stop request the rest of the batch is sent, the cancelled poll fails, both
loops exit and `Stop` returns. -/
def drainTrace : List Label :=
  [.acquire none, .enqueue, .cancel, .next,
   .receive [] (some (.external ⟨false, str "context canceled"⟩)), .branch, .finish,
   .closeQue, .take, .launch, .take, .launch, .take, .join, .wait]

/-- The state in which the stop of `midBatchTrace` is requested. -/
def midBatch : Engine :=
  (run (testConsumer ProcessMessage 2) Engine.init midBatchTrace).getD Engine.init

/-- The state in which `Stop` has returned after `midBatchTrace` and `drainTrace`. -/
def drained : Engine :=
  (run (testConsumer ProcessMessage 2) midBatch (.kill :: drainTrace)).getD Engine.init

/-- The state after `overrunTrace`. -/
def overrun : Engine :=
  (run (testConsumer earlyRelease 1) Engine.init overrunTrace).getD Engine.init

/-- Under a limit of one a message is dispatched and its handler has run its first
statement. -/
def busyTrace : List Label :=
  [.start, .receive [testMsg "a", testMsg "b"] none, .branch, .acquire none, .enqueue,
   .take, .launch, .handler 0]

/-- The state after `busyTrace`. -/
def busy : Engine :=
  (run (testConsumer ProcessMessage 1) Engine.init busyTrace).getD Engine.init

/-! ## consumer/consumer.go: `Delete` -/

/-- A call of a method of `c.client`. -/
inductive ClientCall where
  /-- `DeleteMessage(receiptHandle)`. -/
  | DeleteMessage (receiptHandle : Bytes)
  /-- `SendMessage2(msg, base64Encode)`, which puts a message on the queue. -/
  | SendMessage2 (msg : MessageToSend) (base64Encode : Bool)
deriving DecidableEq, Repr

/-- What a call of `Delete` did: its calls of `c.client`, in order, the last value of
`err`, and the operands of its `log.Println` calls, in order. -/
structure DeleteRun where
  calls : List ClientCall
  err : Option Err
  logged : List (List Bytes)
deriving DecidableEq, Repr

/-- The loop `for i := 0; i < c.timeoutMaxRetry; i++` of `Delete` from `i` on, where
`DeleteMessage i receiptHandle` is the error returned by the call made in iteration `i`
and `calls` are the calls of the client made so far: the calls made when the loop is
left, and `err`.  At most `fuel` iterations are run, which is enough when `i + fuel` is
the ceiling. -/
def deleteLoop (timeoutMaxRetry : Int) (DeleteMessage : Nat → Bytes → Option Err)
    (receiptHandle : Bytes) : Nat → Nat → List ClientCall → Option Err →
    List ClientCall × Option Err
  | 0, _, calls, err => (calls, err)
  | fuel + 1, i, calls, err =>
    if (i : Int) < timeoutMaxRetry then
      let calls := calls ++ [ClientCall.DeleteMessage receiptHandle]
      match DeleteMessage i receiptHandle with
      | none => (calls, none)
      | some e =>
        if timeoutErr e then
          deleteLoop timeoutMaxRetry DeleteMessage receiptHandle fuel (i + 1) calls (some e)
        else (calls, some e)
    else (calls, err)

/-- `Delete` of consumer.go.  `DeleteMessage i receiptHandle` is the error of the call
`c.client.DeleteMessage(receiptHandle)` made in iteration `i`; `Marshal` is
`xml.Marshal`, whose error is dropped (`b` is nil with it). -/
def Consumer.Delete (c : Consumer) (DeleteMessage : Nat → Bytes → Option Err)
    (Marshal : Message → Except ExtErr Bytes) (msg : Message) : DeleteRun :=
  let logged := [[str "method", str "mns.Delete", str "msgID", msg.MessageId]]
  let r := deleteLoop c.timeoutMaxRetry DeleteMessage msg.ReceiptHandle
    c.timeoutMaxRetry.toNat 0 [] none
  if r.2 ≠ none then
    match Marshal msg with
    | .ok b => ⟨r.1, r.2, logged ++ [[str "msgstr", b]]⟩
    | .error _ => ⟨r.1, r.2, logged ++ [[str "msgstr", []]]⟩
  else ⟨r.1, r.2, logged⟩

/-- A test double of `xml.Marshal` on a message: the body between tags. -/
def testMarshal : Message → Except ExtErr Bytes := fun m =>
  .ok (str "<Message><MessageBody>" ++ m.MessageBody ++ str "</MessageBody></Message>")

/-- A timeout of the transport. -/
def testTimeout : Err := .external ⟨true, str "net/http: request canceled (Client.Timeout exceeded)"⟩

/-- The service's answer for a message that does not exist. -/
def testNotExist : Err := .apiError ⟨404, str "MessageNotExist", str "Message not exist.", [], []⟩

/-- Two timeouts, then a delete that is answered with not-found, then successes. -/
def testDeletes : Nat → Bytes → Option Err := fun i _ =>
  if i < 2 then some testTimeout else if i = 2 then some testNotExist else none

/-- The raw URLs of the requests an operation handed to the HTTP client, in order. -/
def rawURLs {α : Type} (ret : Ret α) : List Bytes := ret.sent.map fun r => r.URL.Raw

/-- The retry loop of one poll cycle, run by `serve` without interruption: its moves from
the test of the loop until it has left the loop, where `Receive k` is what the call of
`BatchReceiveMessage2Context` number `k` of the cycle returns.  The result is the number
of calls made and the state reached; at most `fuel` moves are made, which is enough when
`k + fuel` is above the ceiling. -/
def pollCycle (c : Consumer) (Receive : Nat → List Message × Option Err) :
    Nat → Nat → Engine → Nat × Engine
  | 0, k, s => (k, s)
  | fuel + 1, k, s =>
    match step c s (.receive (Receive k).1 (Receive k).2) with
    | some t => if t.servePc = .retry then pollCycle c Receive fuel (k + 1) t else (k + 1, t)
    | none =>
      match step c s .leave with
      | some t => (k, t)
      | none => (k, s)

/-- An error after which the retry loop of `serve` goes on: `timeoutErr(err) ||
mnsMsgNotFound(err)`. -/
def transient (e : Err) : Bool := timeoutErr e || mnsMsgNotFound e

/-- The state in which `serve` is at the head of a poll cycle. -/
def polling : Engine := { Engine.init with started := true, servePc := .retry, workerPc := .range }

/-- Two timeouts, then a failure that is no timeout, then a batch of one. -/
def testReceives : Nat → List Message × Option Err := fun k =>
  if k < 2 then ([], some testTimeout)
  else if k = 2 then ([], some (.external ⟨false, str "connection refused"⟩))
  else ([testMsg "a"], none)

/-- The messages of the batch in hand that `serve` has not sent on `queMsgChan` yet. -/
def unsent (s : Engine) : List Message :=
  match s.servePc with
  | .range rest => rest
  | .send msg rest => msg :: rest
  | _ => []

/-- The state after `Start` and a receive that returned a batch of two. -/
def received : Engine :=
  (run (testConsumer ProcessMessage 2) Engine.init
    [.start, .receive [testMsg "a", testMsg "b"] none]).getD Engine.init

/-- What holds of every state of an engine whose retry ceiling is not positive: `serve`
never gets past the test of the retry loop with a call, so `err` and `msgs` keep their
zero values and `serve` cycles between the loop test, the branch and the empty range. -/
structure Engine.Spinning (s : Engine) : Prop where
  i : s.i = 0
  err : s.err = none
  msgs : s.msgs = []
  servePc : s.servePc = .idle ∨ s.servePc = .retry ∨ s.servePc = .check ∨ s.servePc = .range []
  serveDone : s.serveDone = false
  queClosed : s.queClosed = false
  workerPc : s.workerPc ≠ .exited
  dead : s.dead = false
  stopped : s.stopped = false

/-- A consumer made with `WithTimeoutRetry(0)`. -/
def zeroRetry : Consumer :=
  NewConsumer ProcessMessage [WithTimeoutRetry 0, WithLimitSize 1, WithChanSize 1]

/-- `Start`, then `Stop` is called and the context is canceled, and `serve` runs two
cycles. -/
def spinTrace : List Label :=
  [.start, .kill, .cancel, .leave, .branch, .next, .leave, .branch, .next]

/-- The state after `spinTrace`. -/
def spinning : Engine := (run zeroRetry Engine.init spinTrace).getD Engine.init

/-- Every receive fails with the error of a canceled context. -/
def canceledReceives : Nat → List Message × Option Err := fun _ =>
  ([], some (.external ⟨false, str "context canceled"⟩))

/-- The specification's uncached computation `parse(download(url))`: the certificate is
downloaded and its RSA public key is parsed, without any cache. -/
def uncachedKey (nenv : NotifyEnv) (url : Bytes) : Except Err PublicKey :=
  match downloadCertificate nenv url with
  | .error e => .error (.external e)
  | .ok certBytes => parseRSAPublicKey nenv certBytes

/-- The certificate cache after `getRSAPublicKey` was called for the URLs in turn, from
the empty cache of the start of the program: every entry was stored by
`getRSAPublicKey`. -/
def cacheAfter (nenv : NotifyEnv) (urls : List Bytes) : Cache :=
  urls.foldl (fun cache url => (getRSAPublicKey nenv cache url).cache) []

/-- Every key in the cache is what the uncached computation gives for its URL. -/
def Cache.Sound (nenv : NotifyEnv) (c : Cache) : Prop :=
  ∀ url k, c.lookup url = some (.key k) → uncachedKey nenv url = .ok k

/-- A test double whose decoders of the error payload and of the per-handle entries
accept only a body that starts with the root element of the payload, and fail on every
other body as `encoding/xml` does; in everything else it is `testEnv`. -/
def strictEnv (httpResp : HttpResponse) : Env :=
  { testEnv httpResp with
    DecodeApiError := fun b =>
      if HasPrefix b (str "<Error>") then .ok ⟨0, b, str "message", [], str "host"⟩
      else .error ⟨false, str "expected element type <Error>"⟩
    DecodeDeleteErrors := fun b =>
      if HasPrefix b (str "<Errors>") then .ok [⟨str "MessageNotExist", [], b⟩]
      else .error ⟨false, str "expected element type <Errors>"⟩ }

/-- A response that is no payload of the service: status 502 with a page of a gateway. -/
def gatewayResponse : HttpResponse := ⟨502, [], str "<html>Bad Gateway</html>", none⟩

/-- A response of status 404 whose body could not be read to its end. -/
def unreadableResponse : HttpResponse :=
  ⟨404, [], str "<Errors><Error><ReceiptHandle>", some ⟨false, str "unexpected EOF"⟩⟩

/-! ## The order of the names -/

theorem bytesLess_irrefl (a : Bytes) : bytesLess a a = false := by
  induction a with
  | nil => rfl
  | cons x xs ih => simp [bytesLess, ih]

theorem bytesLess_asymm : ∀ a b : Bytes, bytesLess a b = true → bytesLess b a = false
  | [], [], h => by simp [bytesLess] at h
  | [], _ :: _, _ => by simp [bytesLess]
  | _ :: _, [], h => by simp [bytesLess] at h
  | x :: xs, y :: ys, h => by
    simp only [bytesLess] at h ⊢
    by_cases hxy : x < y
    · have : ¬ y < x := by omega
      simp [this, hxy]
    · by_cases hyx : y < x
      · simp [hxy, hyx] at h
      · simp only [hxy, hyx, if_false] at h ⊢
        exact bytesLess_asymm xs ys h

theorem bytesLess_trans : ∀ a b c : Bytes,
    bytesLess a b = true → bytesLess b c = true → bytesLess a c = true
  | [], _, [], _, h2 => by cases ‹Bytes› <;> simp [bytesLess] at h2
  | [], _, _ :: _, _, _ => by simp [bytesLess]
  | _ :: _, [], _, h1, _ => by simp [bytesLess] at h1
  | _ :: _, _ :: _, [], _, h2 => by simp [bytesLess] at h2
  | x :: xs, y :: ys, z :: zs, h1, h2 => by
    simp only [bytesLess] at h1 h2 ⊢
    by_cases hxy : x < y
    · by_cases hyz : y < z
      · have : x < z := by omega
        simp [this]
      · by_cases hzy : z < y
        · simp [hyz, hzy] at h2
        · have : x < z := by omega
          simp [this]
    · by_cases hyx : y < x
      · simp [hxy, hyx] at h1
      · simp only [hxy, hyx, if_false] at h1
        have hxy2 : x = y := by omega
        subst hxy2
        by_cases hxz : x < z
        · simp [hxz]
        · by_cases hzx : z < x
          · simp [hxz, hzx] at h2
          · simp only [hxz, hzx, if_false] at h2 ⊢
            exact bytesLess_trans xs ys zs h1 h2

theorem bytesLess_total : ∀ a b : Bytes,
    bytesLess a b = false → bytesLess b a = false → a = b
  | [], [], _, _ => rfl
  | [], _ :: _, h, _ => by simp [bytesLess] at h
  | _ :: _, [], _, h => by simp [bytesLess] at h
  | x :: xs, y :: ys, h1, h2 => by
    simp only [bytesLess] at h1 h2
    by_cases hxy : x < y
    · simp [hxy] at h1
    · by_cases hyx : y < x
      · simp [hyx] at h2
      · simp only [hxy, hyx, if_false] at h1 h2
        have hxy2 : x = y := by omega
        rw [hxy2, bytesLess_total xs ys h1 h2]

/-- Not smaller is transitive: the order of the names is total. -/
theorem bytesLess_false_trans (a b c : Bytes)
    (h1 : bytesLess b a = false) (h2 : bytesLess c b = false) : bytesLess c a = false := by
  by_contra hca
  have hca : bytesLess c a = true := by simpa using hca
  by_cases hab : bytesLess a b = true
  · have := bytesLess_trans c a b hca hab
    simp [this] at h2
  · have hab : bytesLess a b = false := by simpa using hab
    have := bytesLess_total a b hab h1
    subst this
    simp [hca] at h2

/-! ## The sort of the service headers -/

theorem insertionStep_perm (x : Bytes × Bytes) (done : canonicalizedMNSHeaders) :
    (insertionStep x done).Perm (x :: done) := by
  induction done with
  | nil => exact List.Perm.refl _
  | cons p ps ih =>
    unfold insertionStep
    split
    · exact (List.Perm.cons p ih).trans (List.Perm.swap x p ps)
    · exact List.Perm.refl _

theorem insertionLoop_perm (p done : canonicalizedMNSHeaders) :
    (insertionLoop p done).Perm (p ++ done) := by
  induction p generalizing done with
  | nil => exact List.Perm.refl _
  | cons x rest ih =>
    unfold insertionLoop
    refine (ih _).trans ?_
    refine (List.Perm.append_left rest (insertionStep_perm x done)).trans ?_
    exact List.perm_middle

theorem sortSort_perm (p : canonicalizedMNSHeaders) : (sortSort p).Perm p := by
  unfold sortSort
  refine (List.reverse_perm _).trans ?_
  simpa using insertionLoop_perm p []

/-- The sorted part, held reversed, stays ordered when an element is inserted. -/
theorem insertionStep_sorted (x : Bytes × Bytes) (done : canonicalizedMNSHeaders)
    (hs : done.Pairwise fun a b => bytesLess a.1 b.1 = false) :
    (insertionStep x done).Pairwise fun a b => bytesLess a.1 b.1 = false := by
  induction done with
  | nil => simp [insertionStep]
  | cons p ps ih =>
    rw [List.pairwise_cons] at hs
    unfold insertionStep
    by_cases hxp : canonicalizedMNSHeaders.Less x p = true
    · rw [if_pos hxp, List.pairwise_cons]
      refine ⟨?_, ih hs.2⟩
      intro y hy
      rcases List.mem_cons.mp ((insertionStep_perm x ps).mem_iff.mp hy) with h | h
      · rw [h]; exact bytesLess_asymm _ _ hxp
      · exact hs.1 y h
    · rw [if_neg hxp]
      have hxp2 : bytesLess x.1 p.1 = false := by
        simpa [canonicalizedMNSHeaders.Less] using hxp
      refine List.pairwise_cons.mpr ⟨?_, List.pairwise_cons.mpr hs⟩
      intro y hy
      rcases List.mem_cons.mp hy with h | h
      · rw [h]; exact hxp2
      · exact bytesLess_false_trans y.1 p.1 x.1 (hs.1 y h) hxp2

theorem insertionLoop_sorted (p done : canonicalizedMNSHeaders)
    (hs : done.Pairwise fun a b => bytesLess a.1 b.1 = false) :
    (insertionLoop p done).Pairwise fun a b => bytesLess a.1 b.1 = false := by
  induction p generalizing done with
  | nil => exact hs
  | cons x rest ih => exact ih _ (insertionStep_sorted x done hs)

/-- The result of the sort is ascending: no element is `Less` than one before it. -/
theorem sortSort_sorted (p : canonicalizedMNSHeaders) :
    (sortSort p).Pairwise fun a b => bytesLess b.1 a.1 = false := by
  unfold sortSort
  rw [List.pairwise_reverse]
  exact insertionLoop_sorted p [] List.Pairwise.nil

/-! ## The string to sign -/

theorem rangeHeader_eq (lower : Bytes → Bytes) (h : Header) (acc : canonicalizedMNSHeaders) :
    rangeHeader lower h acc = acc ++ serviceHeaders lower h := by
  induction h generalizing acc with
  | nil => simp [rangeHeader, serviceHeaders]
  | cons e rest ih =>
    obtain ⟨k, vs⟩ := e
    cases vs with
    | nil =>
      have : serviceHeaders lower ((k, []) :: rest) = serviceHeaders lower rest := by
        simp [serviceHeaders, List.filterMap_cons]
      simp only [rangeHeader]
      rw [ih, this]
    | cons v vs =>
      by_cases hp : HasPrefix (ToLower lower k) (str "x-mns-") = true
      · have : serviceHeaders lower ((k, v :: vs) :: rest) =
            (ToLower lower k, v) :: serviceHeaders lower rest := by
          simp [serviceHeaders, List.filterMap_cons, hp]
        simp only [rangeHeader, hp, if_true]
        rw [ih, this]
        simp
      · have : serviceHeaders lower ((k, v :: vs) :: rest) = serviceHeaders lower rest := by
          simp [serviceHeaders, List.filterMap_cons, hp]
        simp only [rangeHeader, hp]
        rw [this]
        simpa using ih acc

theorem writeHeaders_eq (l : canonicalizedMNSHeaders) (w : Bytes) :
    writeHeaders l w = w ++ (l.map emitHeader).flatten := by
  induction l generalizing w with
  | nil => simp [writeHeaders]
  | cons kv rest ih =>
    obtain ⟨k, v⟩ := kv
    simp [writeHeaders, ih, WriteString, WriteByte, emitHeader]

theorem sortSort_nil : sortSort [] = [] := rfl

/-- What `sign` writes, as one concatenation. -/
theorem signWritten_eq (lower : Bytes → Bytes) (m : Bytes) (h : Header) (r : Bytes) :
    signWritten lower m h r =
      m ++ [10] ++ h.Get (str "Content-Md5") ++ [10] ++ h.Get (str "Content-Type") ++ [10] ++
        h.Get (str "Date") ++ [10] ++ CanonicalizedServiceHeaders lower h ++ r := by
  unfold signWritten CanonicalizedServiceHeaders
  simp only [rangeHeader_eq, List.nil_append, WriteString, WriteByte]
  by_cases hl : (serviceHeaders lower h).length > 0
  · simp only [hl, if_true, writeHeaders_eq]
  · have hnil : serviceHeaders lower h = [] := by
      cases hs : serviceHeaders lower h with
      | nil => rfl
      | cons a l => simp [hs] at hl
    simp [hnil, sortSort_nil]

/-- What `getSignStr` returns is what `sign` writes for the same enumeration. -/
theorem getSignStr_same (lower : Bytes → Bytes) (r : InboundRequest) :
    getSignStr lower r = signWritten lower r.Method r.Header r.RequestURI := rfl

theorem lookup_perm {h1 h2 : Header} (hp : h1.Perm h2) (hwf : h1.WF) (key : Bytes) :
    h1.lookup key = h2.lookup key := by
  induction hp with
  | nil => rfl
  | cons x _ ih =>
    obtain ⟨k, vs⟩ := x
    have hwf2 := (List.nodup_cons.mp hwf).2
    simp only [List.lookup_cons]
    cases key == k <;> simp [ih hwf2]
  | swap x y l =>
    obtain ⟨kx, vx⟩ := x
    obtain ⟨ky, vy⟩ := y
    have hne : ky ≠ kx := by
      intro he
      have := (List.nodup_cons.mp hwf).1
      simp [he] at this
    simp only [List.lookup_cons]
    cases hx : key == kx <;> cases hy : key == ky <;> simp only []
    exact absurd ((beq_iff_eq.mp hy).symm.trans (beq_iff_eq.mp hx)) hne
  | trans hp1 _ ih1 ih2 =>
    have hwf2 : Header.WF _ := (List.Perm.nodup_iff (hp1.map Prod.fst)).mp hwf
    exact (ih1 hwf).trans (ih2 hwf2)

theorem Get_perm {h1 h2 : Header} (hp : h1.Perm h2) (hwf : h1.WF) (key : Bytes) :
    h1.Get key = h2.Get key := by
  unfold Header.Get
  rw [lookup_perm hp hwf key]

/-- Two ascending permutations of service headers with pairwise distinct names are the
same list. -/
theorem sorted_perm_unique (l1 l2 : canonicalizedMNSHeaders) (hp : l1.Perm l2)
    (hd : (l1.map Prod.fst).Nodup)
    (hs1 : l1.Pairwise fun a b => bytesLess b.1 a.1 = false)
    (hs2 : l2.Pairwise fun a b => bytesLess b.1 a.1 = false) : l1 = l2 := by
  have hd2 : (l2.map Prod.fst).Nodup := (List.Perm.nodup_iff (hp.map Prod.fst)).mp hd
  have strict : ∀ l : canonicalizedMNSHeaders, (l.map Prod.fst).Nodup →
      (l.Pairwise fun a b => bytesLess b.1 a.1 = false) →
      l.Pairwise fun a b => bytesLess a.1 b.1 = true := by
    intro l hn hs
    have hne : l.Pairwise fun a b => a.1 ≠ b.1 := List.pairwise_map.mp hn
    refine (hs.and hne).imp ?_
    intro a b hab
    by_contra hlt
    have hlt : bytesLess a.1 b.1 = false := by simpa using hlt
    exact hab.2 (bytesLess_total a.1 b.1 hlt hab.1)
  haveI : IsAntisymm (Bytes × Bytes) (fun a b => bytesLess a.1 b.1 = true) :=
    ⟨fun a b hab hba => by simp [bytesLess_asymm _ _ hab] at hba⟩
  exact List.eq_of_perm_of_sorted hp (strict l1 hd hs1) (strict l2 hd2 hs2)

theorem sortSort_perm_invariant (l1 l2 : canonicalizedMNSHeaders) (hp : l1.Perm l2)
    (hd : (l1.map Prod.fst).Nodup) : sortSort l1 = sortSort l2 := by
  apply sorted_perm_unique
  · exact (sortSort_perm l1).trans (hp.trans (sortSort_perm l2).symm)
  · exact (List.Perm.nodup_iff ((sortSort_perm l1).map Prod.fst)).mpr hd
  · exact sortSort_sorted l1
  · exact sortSort_sorted l2

/-- Two enumerations of one header set in which no two service headers have the same
lower-cased name are written alike. -/
theorem signWritten_perm (lower : Bytes → Bytes) (m r : Bytes) (h1 h2 : Header) (hwf : h1.WF)
    (hp : h1.Perm h2) (hd : ((serviceHeaders lower h1).map Prod.fst).Nodup) :
    signWritten lower m h1 r = signWritten lower m h2 r := by
  rw [signWritten_eq, signWritten_eq, Get_perm hp hwf, Get_perm hp hwf, Get_perm hp hwf]
  have hsp : (serviceHeaders lower h1).Perm (serviceHeaders lower h2) := hp.filterMap _
  unfold CanonicalizedServiceHeaders
  rw [sortSort_perm_invariant _ _ hsp hd]

/-- C1: for every method, header set, canonicalized resource and secret, `sign` is the
base64 encoding of the HMAC-SHA1, keyed with the secret, of the method, the Content-Md5,
Content-Type and Date headers, each followed by a line feed, then the canonicalized
service headers and the resource; a header that is absent contributes the empty string
and its line feed is still written.  The lower-casing is `strings.ToLower`, whatever the
Unicode tables are. -/
theorem sign_contract (lower : Bytes → Bytes) (m : Bytes) (h : Header) (r s : Bytes) :
    sign lower m h r s =
        StdEncoding.Encode (hmacSHA1 s
          (m ++ [10] ++ h.Get (str "Content-Md5") ++ [10] ++ h.Get (str "Content-Type") ++ [10] ++
            h.Get (str "Date") ++ [10] ++ CanonicalizedServiceHeaders lower h ++ r)) ∧
      ∀ key, h.lookup key = none → h.Get key = [] := by
  refine ⟨?_, ?_⟩
  · unfold sign
    rw [signWritten_eq]
  · intro key hk
    simp [Header.Get, hk]

/-- Witness of C1: a GET without Content-Md5 and Content-Type and with two service
headers; the signature is `rngyfXEMIym1wsSuBJIwFQ4ABqE=`. -/
theorem sign_contract_witness :
    sign testMapToLower (str "GET")
          [(str "Date", [str "d"]), (str "X-Mns-Version", [str "2015-06-06"]),
            (str "X-Mns-Abc", [str "v"])]
          (str "/queues/q/messages") (str "secret") = str "rngyfXEMIym1wsSuBJIwFQ4ABqE=" ∧
      StdEncoding.Encode (hmacSHA1 (str "secret")
          (str "GET\n\n\nd\nx-mns-abc:v\nx-mns-version:2015-06-06\n/queues/q/messages")) =
        str "rngyfXEMIym1wsSuBJIwFQ4ABqE=" ∧
      Header.Get [(str "Date", [str "d"]), (str "X-Mns-Version", [str "2015-06-06"]),
          (str "X-Mns-Abc", [str "v"])] (str "Content-Md5") = [] :=
  ⟨(sign_contract testMapToLower (str "GET")
      [(str "Date", [str "d"]), (str "X-Mns-Version", [str "2015-06-06"]),
        (str "X-Mns-Abc", [str "v"])]
      (str "/queues/q/messages") (str "secret")).1.trans (by decide),
    by decide,
    (sign_contract testMapToLower (str "GET")
      [(str "Date", [str "d"]), (str "X-Mns-Version", [str "2015-06-06"]),
        (str "X-Mns-Abc", [str "v"])]
      (str "/queues/q/messages") (str "secret")).2 (str "Content-Md5") (by decide)⟩

/-- C2: the service-header part that `sign` writes is the concatenation of `name:value\n`
over a list that is a permutation of the service headers (the entries with a value whose
lower-cased name starts with `x-mns-`, as lower-cased name and first value) and ascending
by name; an entry is a service header only if its lower-cased name has the prefix, and
with no service header the part is empty.  The lower-casing is `strings.ToLower`,
whatever the Unicode tables are. -/
theorem canonicalized_headers_contract (lower : Bytes → Bytes) (m : Bytes) (h : Header)
    (r : Bytes) :
    signWritten lower m h r =
        m ++ [10] ++ h.Get (str "Content-Md5") ++ [10] ++ h.Get (str "Content-Type") ++ [10] ++
          h.Get (str "Date") ++ [10] ++
          ((sortSort (serviceHeaders lower h)).map
            fun kv => kv.1 ++ [58] ++ kv.2 ++ [10]).flatten ++ r ∧
      (sortSort (serviceHeaders lower h)).Perm (serviceHeaders lower h) ∧
      (sortSort (serviceHeaders lower h)).Pairwise (fun a b => bytesLess b.1 a.1 = false) ∧
      (∀ kv, kv ∈ serviceHeaders lower h ↔
        ∃ k v vs, (k, v :: vs) ∈ h ∧ HasPrefix (ToLower lower k) (str "x-mns-") = true ∧
          kv = (ToLower lower k, v)) ∧
      (∀ k, (∀ c ∈ k, c < 128) → ToLower lower k = k.map toLowerByte) ∧
      (serviceHeaders lower h = [] → signWritten lower m h r =
        m ++ [10] ++ h.Get (str "Content-Md5") ++ [10] ++ h.Get (str "Content-Type") ++ [10] ++
          h.Get (str "Date") ++ [10] ++ r) := by
  refine ⟨?_, sortSort_perm _, sortSort_sorted _, ?_, ?_, ?_⟩
  · rw [signWritten_eq]; rfl
  · intro kv
    unfold serviceHeaders
    rw [List.mem_filterMap]
    constructor
    · rintro ⟨⟨k, vs⟩, hmem, hkv⟩
      cases vs with
      | nil => simp at hkv
      | cons v vs =>
        by_cases hp : HasPrefix (ToLower lower k) (str "x-mns-") = true
        · refine ⟨k, v, vs, hmem, hp, ?_⟩
          simpa [hp] using hkv.symm
        · simp [hp] at hkv
    · rintro ⟨k, v, vs, hmem, hp, rfl⟩
      exact ⟨(k, v :: vs), hmem, by simp [hp]⟩
  · intro k hk
    have : k.all (fun c => c < 128) = true := by simpa using hk
    simp [ToLower, this]
  · intro hnil
    rw [signWritten_eq]
    simp [CanonicalizedServiceHeaders, hnil, sortSort_nil]

/-- Witness of C2: two service headers in mixed case, enumerated in descending order
among an entry without value and a header of another kind, are written lower-cased in
ascending order with their first values; a name with the Kelvin sign is written as the
tables lower-case it; and without any service header nothing is written between Date and
the resource. -/
theorem canonicalized_headers_contract_witness :
    signWritten testMapToLower (str "GET")
        [(str "Date", [str "d"]), (str "X-Mns-B", [str "2"]), (str "X-Other", [str "v"]),
          (str "X-MNS-A", [str "1", str "9"]), (str "X-Mns-Empty", [])] (str "/") =
      str "GET\n\n\nd\nx-mns-a:1\nx-mns-b:2\n/" ∧
    signWritten testMapToLower (str "GET")
        [(str "X-Mns-" ++ [226, 132, 170], [str "1"])] (str "/") =
      str "GET\n\n\n\nx-mns-k:1\n/" ∧
    signWritten testMapToLower (str "GET")
        [(str "Date", [str "d"]), (str "X-Other", [str "v"])] (str "/") =
      str "GET" ++ [10] ++ [] ++ [10] ++ [] ++ [10] ++ str "d" ++ [10] ++ str "/" :=
  ⟨(canonicalized_headers_contract testMapToLower (str "GET")
      [(str "Date", [str "d"]), (str "X-Mns-B", [str "2"]), (str "X-Other", [str "v"]),
        (str "X-MNS-A", [str "1", str "9"]), (str "X-Mns-Empty", [])] (str "/")).1.trans
      (by decide),
    (canonicalized_headers_contract testMapToLower (str "GET")
      [(str "X-Mns-" ++ [226, 132, 170], [str "1"])] (str "/")).1.trans (by decide),
    (canonicalized_headers_contract testMapToLower (str "GET")
      [(str "Date", [str "d"]), (str "X-Other", [str "v"])] (str "/")).2.2.2.2.2 (by decide)⟩

/-- C3 fails as stated: two names that lower-case to the same service name are kept in
the order of enumeration, so the two enumerations of one header set are signed
differently. -/
theorem sign_enumeration_counterexample :
    Header.WF [(str "X-Mns-A", [str "1"]), (str "x-mns-a", [str "2"])] ∧
      List.Perm [(str "X-Mns-A", [str "1"]), (str "x-mns-a", [str "2"])]
        [(str "x-mns-a", [str "2"]), (str "X-Mns-A", [str "1"])] ∧
      sign testMapToLower (str "GET") [(str "X-Mns-A", [str "1"]), (str "x-mns-a", [str "2"])]
          (str "/") (str "k") = str "xxwZBUeM+SC9tYA8JxmRyHMvO7w=" ∧
      sign testMapToLower (str "GET") [(str "x-mns-a", [str "2"]), (str "X-Mns-A", [str "1"])]
          (str "/") (str "k") = str "/pd4s7CycqM0yUUZJyuo9vHiDpw=" ∧
      sign testMapToLower (str "GET") [(str "X-Mns-A", [str "1"]), (str "x-mns-a", [str "2"])]
          (str "/") (str "k") ≠
        sign testMapToLower (str "GET") [(str "x-mns-a", [str "2"]), (str "X-Mns-A", [str "1"])]
          (str "/") (str "k") := by
  refine ⟨by decide, List.Perm.swap _ _ _, ?_, ?_, ?_⟩ <;> decide

/-- C3 as amended: for header sets in which no two service headers have the same
lower-cased name (lower-cased by `strings.ToLower`, whatever the Unicode tables are),
`sign` returns the same signature for every enumeration of the entries. -/
theorem sign_perm_invariant (lower : Bytes → Bytes) (m r s : Bytes) (h1 h2 : Header)
    (hwf : h1.WF) (hp : h1.Perm h2) (hd : ((serviceHeaders lower h1).map Prod.fst).Nodup) :
    sign lower m h1 r s = sign lower m h2 r s := by
  unfold sign
  rw [signWritten_perm lower m r h1 h2 hwf hp hd]

/-- Witness of the amended C3: three entries in two orders have the signature
`ICbBJr1B3d0TasgI/HJfNWm+XGs=`; the names `X-Mns-K` and `X-Mns-` with the Kelvin sign,
which lower-case alike, do not satisfy the condition. -/
theorem sign_perm_invariant_witness :
    sign testMapToLower (str "GET")
        [(str "X-Mns-B", [str "2"]), (str "Date", [str "d"]), (str "X-Mns-A", [str "1"])]
        (str "/") (str "k") =
      sign testMapToLower (str "GET")
        [(str "Date", [str "d"]), (str "X-Mns-A", [str "1"]), (str "X-Mns-B", [str "2"])]
        (str "/") (str "k") ∧
    sign testMapToLower (str "GET")
        [(str "Date", [str "d"]), (str "X-Mns-A", [str "1"]), (str "X-Mns-B", [str "2"])]
        (str "/") (str "k") = str "ICbBJr1B3d0TasgI/HJfNWm+XGs=" ∧
    ¬ ((serviceHeaders testMapToLower
        [(str "X-Mns-K", [str "1"]), (str "X-Mns-" ++ [226, 132, 170], [str "2"])]).map
        Prod.fst).Nodup :=
  ⟨sign_perm_invariant testMapToLower (str "GET") (str "/") (str "k")
    [(str "X-Mns-B", [str "2"]), (str "Date", [str "d"]), (str "X-Mns-A", [str "1"])]
    [(str "Date", [str "d"]), (str "X-Mns-A", [str "1"]), (str "X-Mns-B", [str "2"])]
    (by decide) (by decide) (by decide), by decide, by decide⟩

/-- C4 fails as stated: `getSignStr` and `sign` each range over the header map in an order
of their own; when two names lower-case to the same service name and the two orders
differ, `getSignStr` returns other bytes than `sign` feeds to the HMAC. -/
theorem sign_string_counterexample :
    ¬ ∀ (lower : Bytes → Bytes) (r : InboundRequest) (h : Header), r.Header.WF →
        r.Header.Perm h → getSignStr lower r = signWritten lower r.Method h r.RequestURI := by
  intro hall
  have := hall testMapToLower
    ⟨str "POST", [(str "X-Mns-A", [str "1"]), (str "x-mns-a", [str "2"])], str "/notify"⟩
    [(str "x-mns-a", [str "2"]), (str "X-Mns-A", [str "1"])] (by decide)
    (List.Perm.swap _ _ _)
  revert this
  decide

/-- C4 as amended: for every inbound request in whose header no two service headers have
the same lower-cased name, `getSignStr` returns the very bytes that `sign` feeds to the
HMAC for the method, header and request URI of the request, whatever the secret and in
whatever order each of the two enumerates the header. -/
theorem getSignStr_eq_signWritten (lower : Bytes → Bytes) (r : InboundRequest) (h : Header)
    (s : Bytes) (hwf : r.Header.WF) (hp : r.Header.Perm h)
    (hd : ((serviceHeaders lower r.Header).map Prod.fst).Nodup) :
    getSignStr lower r = signWritten lower r.Method h r.RequestURI ∧
      sign lower r.Method h r.RequestURI s =
        StdEncoding.Encode (hmacSHA1 s (getSignStr lower r)) := by
  have h1 : getSignStr lower r = signWritten lower r.Method h r.RequestURI := by
    rw [getSignStr_same]
    exact signWritten_perm lower r.Method r.RequestURI r.Header h hwf hp hd
  exact ⟨h1, by rw [h1]; rfl⟩

/-- Witness of the amended C4: a notification with two service headers, enumerated in
one order by `getSignStr` and in the other by `sign`. -/
theorem getSignStr_eq_signWritten_witness :
    getSignStr testMapToLower
        ⟨str "POST", [(str "X-Mns-B", [str "2"]), (str "Date", [str "d"]),
          (str "X-Mns-A", [str "1"])], str "/notify"⟩ =
      str "POST\n\n\nd\nx-mns-a:1\nx-mns-b:2\n/notify" ∧
    (getSignStr testMapToLower
        ⟨str "POST", [(str "X-Mns-B", [str "2"]), (str "Date", [str "d"]),
          (str "X-Mns-A", [str "1"])], str "/notify"⟩ =
      signWritten testMapToLower (str "POST")
        [(str "X-Mns-A", [str "1"]), (str "Date", [str "d"]), (str "X-Mns-B", [str "2"])]
        (str "/notify") ∧
    sign testMapToLower (str "POST")
        [(str "X-Mns-A", [str "1"]), (str "Date", [str "d"]), (str "X-Mns-B", [str "2"])]
        (str "/notify") (str "k") =
      StdEncoding.Encode (hmacSHA1 (str "k") (getSignStr testMapToLower
        ⟨str "POST", [(str "X-Mns-B", [str "2"]), (str "Date", [str "d"]),
          (str "X-Mns-A", [str "1"])], str "/notify"⟩))) :=
  ⟨by decide,
    getSignStr_eq_signWritten testMapToLower
      ⟨str "POST", [(str "X-Mns-B", [str "2"]), (str "Date", [str "d"]),
        (str "X-Mns-A", [str "1"])], str "/notify"⟩
      [(str "X-Mns-A", [str "1"]), (str "Date", [str "d"]), (str "X-Mns-B", [str "2"])]
      (str "k") (by decide) (by decide) (by decide)⟩

/-! ## base64 -/

theorem decodeMap_encodeChar (v : Nat) (hv : v < 64) :
    StdEncoding.decodeMap (StdEncoding.encodeChar v) = v := by
  have h : ∀ v : Fin 64, StdEncoding.decodeMap (StdEncoding.encodeChar v.val) = v.val := by decide
  exact h ⟨v, hv⟩

theorem decodeLoop_quantum (total : Nat) (v0 v1 v2 v3 : Nat) (h0 : v0 < 64) (h1 : v1 < 64)
    (h2 : v2 < 64) (h3 : v3 < 64) (rest : Bytes) (si : Nat) (out : Bytes) :
    StdEncoding.decodeLoop total
        (StdEncoding.encodeChar v0 :: StdEncoding.encodeChar v1 :: StdEncoding.encodeChar v2 ::
          StdEncoding.encodeChar v3 :: rest) si [] out =
      StdEncoding.decodeLoop total rest (si + 4) [] (out ++ StdEncoding.quantumBytes [v0, v1, v2, v3]) := by
  have e0 := decodeMap_encodeChar v0 h0
  have e1 := decodeMap_encodeChar v1 h1
  have e2 := decodeMap_encodeChar v2 h2
  have e3 := decodeMap_encodeChar v3 h3
  have n0 : v0 ≠ 255 := by omega
  have n1 : v1 ≠ 255 := by omega
  have n2 : v2 ≠ 255 := by omega
  have n3 : v3 ≠ 255 := by omega
  simp [StdEncoding.decodeLoop, e0, e1, e2, e3, n0, n1, n2, n3]

theorem quantumBytes_three (a b c : Nat) (ha : a < 256) (hb : b < 256) (hc : c < 256) :
    StdEncoding.quantumBytes [a / 4, a % 4 * 16 + b / 16, b % 16 * 4 + c / 64, c % 64] = [a, b, c] := by
  simp only [StdEncoding.quantumBytes, List.getD_cons_zero, List.getD_cons_succ, List.length_cons,
    List.length_nil]
  have hval : a / 4 * 262144 + (a % 4 * 16 + b / 16) * 4096 + (b % 16 * 4 + c / 64) * 64 + c % 64 =
      a * 65536 + b * 256 + c := by omega
  rw [hval]
  have e1 : (a * 65536 + b * 256 + c) / 65536 % 256 = a := by omega
  have e2 : (a * 65536 + b * 256 + c) / 256 % 256 = b := by omega
  have e3 : (a * 65536 + b * 256 + c) % 256 = c := by omega
  simp [e1, e2, e3]

theorem quantumBytes_two (a b : Nat) (ha : a < 256) (hb : b < 256) :
    StdEncoding.quantumBytes [a / 4, a % 4 * 16 + b / 16, b % 16 * 4] = [a, b] := by
  simp only [StdEncoding.quantumBytes, List.getD_cons_zero, List.getD_cons_succ, List.length_cons,
    List.length_nil, List.getD_nil]
  have hval : a / 4 * 262144 + (a % 4 * 16 + b / 16) * 4096 + b % 16 * 4 * 64 + 0 =
      a * 65536 + b * 256 := by omega
  rw [hval]
  have e1 : (a * 65536 + b * 256) / 65536 % 256 = a := by omega
  have e2 : (a * 65536 + b * 256) / 256 % 256 = b := by omega
  simp [e1, e2]

theorem quantumBytes_one (a : Nat) (ha : a < 256) :
    StdEncoding.quantumBytes [a / 4, a % 4 * 16] = [a] := by
  simp only [StdEncoding.quantumBytes, List.getD_cons_zero, List.getD_cons_succ, List.length_cons,
    List.length_nil, List.getD_nil]
  have hval : a / 4 * 262144 + a % 4 * 16 * 4096 + 0 * 64 + 0 = a * 65536 := by omega
  rw [hval]
  have e1 : a * 65536 / 65536 % 256 = a := by omega
  simp [e1, ha]

/-- Decoding what `Encode` produced gives the bytes back, from any offset and after any
output. -/
theorem decodeLoop_Encode (total : Nat) (B : Bytes) (hB : IsBytes B) (si : Nat) (out : Bytes) :
    StdEncoding.decodeLoop total (StdEncoding.Encode B) si [] out = .ok (out ++ B) := by
  induction B using StdEncoding.Encode.induct generalizing si out with
  | case1 => simp [StdEncoding.Encode, StdEncoding.decodeLoop]
  | case2 a =>
    have ha : a < 256 := hB a (by simp)
    have e0 := decodeMap_encodeChar (a / 4) (by omega)
    have e1 := decodeMap_encodeChar (a % 4 * 16) (by omega)
    have n0 : a / 4 ≠ 255 := by omega
    have n1 : a % 4 * 16 ≠ 255 := by omega
    have hq := quantumBytes_one a ha
    have hpad : StdEncoding.decodeMap 61 = 255 := by decide
    simp [StdEncoding.Encode, StdEncoding.decodeLoop, StdEncoding.skipNewlines,
      StdEncoding.afterPadding, hpad, e0, e1, n0, n1, hq]
  | case3 a b =>
    have ha : a < 256 := hB a (by simp)
    have hb : b < 256 := hB b (by simp)
    have e0 := decodeMap_encodeChar (a / 4) (by omega)
    have e1 := decodeMap_encodeChar (a % 4 * 16 + b / 16) (by omega)
    have e2 := decodeMap_encodeChar (b % 16 * 4) (by omega)
    have n0 : a / 4 ≠ 255 := by omega
    have n1 : a % 4 * 16 + b / 16 ≠ 255 := by omega
    have n2 : b % 16 * 4 ≠ 255 := by omega
    have hq := quantumBytes_two a b ha hb
    have hpad : StdEncoding.decodeMap 61 = 255 := by decide
    simp [StdEncoding.Encode, StdEncoding.decodeLoop, StdEncoding.skipNewlines,
      StdEncoding.afterPadding, hpad, e0, e1, e2, n0, n1, n2, hq]
  | case4 a b c rest ih =>
    have ha : a < 256 := hB a (by simp)
    have hb : b < 256 := hB b (by simp)
    have hc : c < 256 := hB c (by simp)
    have hrest : IsBytes rest := fun x hx => hB x (by simp [hx])
    rw [StdEncoding.Encode, decodeLoop_quantum total _ _ _ _ (by omega) (by omega) (by omega)
      (by omega), quantumBytes_three a b c ha hb hc, ih hrest]
    simp

theorem Decode_Encode (B : Bytes) (hB : IsBytes B) :
    StdEncoding.Decode (StdEncoding.Encode B) = .ok B := by
  unfold StdEncoding.Decode
  rw [decodeLoop_Encode _ B hB]
  simp

/-! ## The operations: digests -/

theorem testEnv_answers (httpResp : HttpResponse) : (testEnv httpResp).Answers httpResp :=
  ⟨⟨fun _ => str "mns.example", fun raw => raw, fun _ => rfl⟩, ⟨_, fun _ => rfl⟩, ⟨_, fun _ => rfl⟩,
    ⟨_, fun _ => rfl⟩, ⟨_, fun _ => rfl⟩, fun _ => rfl⟩

theorem toUpperByte_idem (x : Nat) : toUpperByte (toUpperByte x) = toUpperByte x := by
  unfold toUpperByte
  split_ifs <;> omega

theorem ToUpper_idem (s : Bytes) : ToUpper (ToUpper s) = ToUpper s := by
  simp [ToUpper, toUpperByte_idem]

/-- The local digest is in upper case already. -/
theorem ToUpper_messageBodyMD5 (b : Bytes) : ToUpper (messageBodyMD5 b) = messageBodyMD5 b := by
  unfold messageBodyMD5
  exact ToUpper_idem _

theorem is2xx_iff (httpResp : HttpResponse) :
    is2xx httpResp = true ↔ 200 ≤ httpResp.StatusCode ∧ httpResp.StatusCode ≤ 299 := by
  unfold is2xx
  rw [beq_iff_eq]
  rcases Int.lt_or_le httpResp.StatusCode 0 with hneg | hpos
  · have h0 : Int.tdiv httpResp.StatusCode 100 = -Int.tdiv (-httpResp.StatusCode) 100 := by
      rw [Int.neg_tdiv, Int.neg_neg]
    have h1 : Int.tdiv httpResp.StatusCode 100 ≤ 0 := by
      rw [h0, Int.tdiv_eq_ediv (by omega) (by decide)]
      omega
    constructor
    · intro h; omega
    · intro h; omega
  · rw [Int.tdiv_eq_ediv hpos (by decide)]
    omega

theorem SendMessage2_digest (env : Env) (clt : QueueClient) (msg : Option MessageToSend)
    (b : Bool) (h : (clt.SendMessage2 env msg b).2.err = none) :
    ∃ m httpReq httpResp result, msg = some m ∧
      (clt.SendMessage2 env msg b).1 = some { m with MessageBody := encodeBody b m.MessageBody } ∧
      (clt.SendMessage2 env msg b).2.sent = [httpReq] ∧
      env.Do httpReq = .ok httpResp ∧
      xmlDecode env.DecodeSendResult httpResp = .ok result ∧
      ToUpper result.MessageBodyMD5 = messageBodyMD5 (encodeBody b m.MessageBody) := by
  generalize hret : clt.SendMessage2 env msg b = ret at h ⊢
  simp only [QueueClient.SendMessage2] at hret
  repeat' split at hret
  all_goals subst hret
  all_goals first
    | (simp at h; done)
    | skip
  rename_i hdo _ _ _ hdec hmd5
  exact ⟨_, _, _, _, rfl, rfl, rfl, hdo, hdec, by simpa using hmd5⟩

theorem PublishMessage2_digest (env : Env) (clt : TopicClient) (msg : Option MessageToPublish)
    (b : Bool) (h : (clt.PublishMessage2 env msg b).2.err = none) :
    ∃ m httpReq httpResp result, msg = some m ∧
      (clt.PublishMessage2 env msg b).1 = some { m with MessageBody := encodeBody b m.MessageBody } ∧
      (clt.PublishMessage2 env msg b).2.sent = [httpReq] ∧
      env.Do httpReq = .ok httpResp ∧
      xmlDecode env.DecodeSendResult httpResp = .ok result ∧
      ToUpper result.MessageBodyMD5 = messageBodyMD5 (encodeBody b m.MessageBody) := by
  generalize hret : clt.PublishMessage2 env msg b = ret at h ⊢
  simp only [TopicClient.PublishMessage2] at hret
  repeat' split at hret
  all_goals subst hret
  all_goals first
    | (simp at h; done)
    | skip
  rename_i hdo _ _ _ hdec hmd5
  exact ⟨_, _, _, _, rfl, rfl, rfl, hdo, hdec, by simpa using hmd5⟩

theorem checkSendDigests_none (i : Nat) (ms : List MessageToSend)
    (rs : List BatchSendMessageResponseItem) (h : checkSendDigests i ms rs = none) :
    ∀ p ∈ List.zip ms rs, p.2.ErrorCode = [] →
      ToUpper p.2.MessageBodyMD5 = messageBodyMD5 p.1.MessageBody := by
  induction ms generalizing i rs with
  | nil => simp
  | cons m ms ih =>
    cases rs with
    | nil => simp
    | cons r rs =>
      intro p hp hcode
      simp only [checkSendDigests] at h
      rcases List.mem_cons.mp (by simpa using hp) with hhead | htail
      · subst hhead
        dsimp only at hcode ⊢
        by_contra hne
        simp [hcode, hne] at h
      · by_cases hc : r.ErrorCode = []
        · by_cases hd : ToUpper r.MessageBodyMD5 = messageBodyMD5 m.MessageBody
          · simp only [hc, hd, ne_eq, not_true_eq_false, if_false] at h
            exact ih (i + 1) rs h p htail hcode
          · simp [hc, hd] at h
        · simp only [ne_eq, hc, not_false_eq_true, if_true] at h
          exact ih (i + 1) rs h p htail hcode

theorem BatchSendMessage2_digest (env : Env) (clt : QueueClient) (msgs : List MessageToSend)
    (b : Bool) (h : (clt.BatchSendMessage2 env msgs b).2.err = none) :
    ∃ httpReq httpResp items,
      (clt.BatchSendMessage2 env msgs b).2.sent = [httpReq] ∧
      env.Do httpReq = .ok httpResp ∧
      xmlDecode env.DecodeBatchSendResult httpResp = .ok items ∧
      (clt.BatchSendMessage2 env msgs b).2.val = items ∧
      (clt.BatchSendMessage2 env msgs b).1 =
        msgs.map (fun m => { m with MessageBody := encodeBody b m.MessageBody }) ∧
      items.length = msgs.length ∧
      ∀ p ∈ List.zip (clt.BatchSendMessage2 env msgs b).1 items, p.2.ErrorCode = [] →
        ToUpper p.2.MessageBodyMD5 = messageBodyMD5 p.1.MessageBody := by
  generalize hret : clt.BatchSendMessage2 env msgs b = ret at h ⊢
  simp only [QueueClient.BatchSendMessage2] at hret
  repeat' split at hret
  all_goals subst hret
  all_goals first
    | (simp at h; done)
    | skip
  rename_i hdo _ _ _ hdec hlen _ hchk
  refine ⟨_, _, _, rfl, hdo, hdec, rfl, rfl, ?_, ?_⟩
  · simpa using (not_not.mp hlen).symm
  · exact checkSendDigests_none 0 _ _ hchk

theorem checkDigests_none_iff (i : Nat) (ms : List Message) :
    checkDigests i ms = none ↔
      ∀ m ∈ ms, ToUpper m.MessageBodyMD5 = messageBodyMD5 m.MessageBody := by
  induction ms generalizing i with
  | nil => simp [checkDigests]
  | cons m ms ih =>
    simp only [checkDigests, List.mem_cons, forall_eq_or_imp]
    by_cases hd : ToUpper m.MessageBodyMD5 = messageBodyMD5 m.MessageBody
    · simp [hd, ih]
    · simp [hd]

theorem checkPeekDigests_none_iff (i : Nat) (ms : List MessageFromPeek) :
    checkPeekDigests i ms = none ↔
      ∀ m ∈ ms, ToUpper m.MessageBodyMD5 = messageBodyMD5 m.MessageBody := by
  induction ms generalizing i with
  | nil => simp [checkPeekDigests]
  | cons m ms ih =>
    simp only [checkPeekDigests, List.mem_cons, forall_eq_or_imp]
    by_cases hd : ToUpper m.MessageBodyMD5 = messageBodyMD5 m.MessageBody
    · simp [hd, ih]
    · simp [hd]

theorem ReceiveMessage2Context_digest (env : Env) (clt : QueueClient) (w : Int) (b : Bool)
    (ret : Ret (Option Message)) (h : clt.ReceiveMessage2Context env w b = .returned ret)
    (herr : ret.err = none) :
    ∃ httpReq httpResp result, ret.sent = [httpReq] ∧ env.Do httpReq = .ok httpResp ∧
      xmlDecode env.DecodeMessage httpResp = .ok result ∧
      ToUpper result.MessageBodyMD5 = messageBodyMD5 result.MessageBody := by
  simp only [QueueClient.ReceiveMessage2Context] at h
  repeat' split at h
  all_goals cases h
  all_goals first
    | (simp at herr; done)
    | skip
  all_goals
    refine ⟨_, _, _, rfl, by assumption, by assumption, ?_⟩
    exact not_not.mp (by assumption)

theorem PeekMessage2Context_digest (env : Env) (clt : QueueClient) (b : Bool)
    (ret : Ret (Option MessageFromPeek)) (h : clt.PeekMessage2Context env b = .returned ret)
    (herr : ret.err = none) :
    ∃ httpReq httpResp result, ret.sent = [httpReq] ∧ env.Do httpReq = .ok httpResp ∧
      xmlDecode env.DecodeMessageFromPeek httpResp = .ok result ∧
      ToUpper result.MessageBodyMD5 = messageBodyMD5 result.MessageBody := by
  simp only [QueueClient.PeekMessage2Context] at h
  repeat' split at h
  all_goals cases h
  all_goals first
    | (simp at herr; done)
    | skip
  all_goals
    refine ⟨_, _, _, rfl, by assumption, by assumption, ?_⟩
    exact not_not.mp (by assumption)

theorem BatchReceiveMessage2Context_digest (env : Env) (clt : QueueClient) (n w : Int) (b : Bool)
    (herr : (clt.BatchReceiveMessage2Context env n w b).err = none) :
    ∃ httpReq httpResp results,
      (clt.BatchReceiveMessage2Context env n w b).sent = [httpReq] ∧
      env.Do httpReq = .ok httpResp ∧
      xmlDecode env.DecodeMessages httpResp = .ok results ∧
      ∀ m ∈ results, ToUpper m.MessageBodyMD5 = messageBodyMD5 m.MessageBody := by
  generalize hret : clt.BatchReceiveMessage2Context env n w b = ret at herr ⊢
  simp only [QueueClient.BatchReceiveMessage2Context] at hret
  repeat' split at hret
  all_goals subst hret
  all_goals first
    | (simp at herr; done)
    | skip
  all_goals
    refine ⟨_, _, _, rfl, by assumption, by assumption, ?_⟩
    exact (checkDigests_none_iff 0 _).mp (by assumption)

theorem BatchPeekMessage2Context_digest (env : Env) (clt : QueueClient) (n : Int) (b : Bool)
    (herr : (clt.BatchPeekMessage2Context env n b).err = none) :
    ∃ httpReq httpResp results,
      (clt.BatchPeekMessage2Context env n b).sent = [httpReq] ∧
      env.Do httpReq = .ok httpResp ∧
      xmlDecode env.DecodeMessagesFromPeek httpResp = .ok results ∧
      ∀ m ∈ results, ToUpper m.MessageBodyMD5 = messageBodyMD5 m.MessageBody := by
  generalize hret : clt.BatchPeekMessage2Context env n b = ret at herr ⊢
  simp only [QueueClient.BatchPeekMessage2Context] at hret
  repeat' split at hret
  all_goals subst hret
  all_goals first
    | (simp at herr; done)
    | skip
  all_goals
    refine ⟨_, _, _, rfl, by assumption, by assumption, ?_⟩
    exact (checkPeekDigests_none_iff 0 _).mp (by assumption)

/-- A digest that differs other than by letter case fails the check of the code. -/
theorem digest_differs (reported body : Bytes)
    (h : ToUpper reported ≠ ToUpper (messageBodyMD5 body)) :
    ToUpper reported ≠ messageBodyMD5 body := by
  rwa [ToUpper_messageBodyMD5] at h

theorem ReceiveMessage2Context_mismatch (env : Env) (clt : QueueClient) (w : Int) (b : Bool)
    (httpResp : HttpResponse) (m : Message) (hA : env.Answers httpResp)
    (h2 : is2xx httpResp = true) (hdec : xmlDecode env.DecodeMessage httpResp = .ok m)
    (hne : ToUpper m.MessageBodyMD5 ≠ ToUpper (messageBodyMD5 m.MessageBody)) :
    ∃ ret, clt.ReceiveMessage2Context env w b = .returned ret ∧
      ret.err = some (md5Mismatch m.MessageBodyMD5 (messageBodyMD5 m.MessageBody)) ∧
      ret.val = none := by
  obtain ⟨host, uri, hp⟩ := hA.parse
  have hne2 := digest_differs _ _ hne
  simp [QueueClient.ReceiveMessage2Context, ParseRequestURI, hp, hA.roundTrip, h2, hdec, hne2]

theorem PeekMessage2Context_mismatch (env : Env) (clt : QueueClient) (b : Bool)
    (httpResp : HttpResponse) (m : MessageFromPeek) (hA : env.Answers httpResp)
    (h2 : is2xx httpResp = true) (hdec : xmlDecode env.DecodeMessageFromPeek httpResp = .ok m)
    (hne : ToUpper m.MessageBodyMD5 ≠ ToUpper (messageBodyMD5 m.MessageBody)) :
    ∃ ret, clt.PeekMessage2Context env b = .returned ret ∧
      ret.err = some (md5Mismatch m.MessageBodyMD5 (messageBodyMD5 m.MessageBody)) ∧
      ret.val = none := by
  obtain ⟨host, uri, hp⟩ := hA.parse
  have hne2 := digest_differs _ _ hne
  simp [QueueClient.PeekMessage2Context, ParseRequestURI, hp, hA.roundTrip, h2, hdec, hne2]

theorem BatchReceiveMessage2Context_mismatch (env : Env) (clt : QueueClient) (n w : Int)
    (b : Bool) (httpResp : HttpResponse) (ms : List Message) (m : Message)
    (hA : env.Answers httpResp) (h2 : is2xx httpResp = true)
    (hdec : xmlDecode env.DecodeMessages httpResp = .ok ms) (hm : m ∈ ms)
    (hne : ToUpper m.MessageBodyMD5 ≠ ToUpper (messageBodyMD5 m.MessageBody)) :
    (clt.BatchReceiveMessage2Context env n w b).err ≠ none ∧
      (clt.BatchReceiveMessage2Context env n w b).val = [] := by
  obtain ⟨host, uri, hp⟩ := hA.parse
  have hne2 := digest_differs _ _ hne
  have hchk : checkDigests 0 ms ≠ none := fun hnone =>
    hne2 ((checkDigests_none_iff 0 ms).mp hnone m hm)
  cases hc : checkDigests 0 ms with
  | none => exact absurd hc hchk
  | some e =>
    simp [QueueClient.BatchReceiveMessage2Context, ParseRequestURI, hp, hA.roundTrip, h2, hdec, hc]

theorem BatchPeekMessage2Context_mismatch (env : Env) (clt : QueueClient) (n : Int)
    (b : Bool) (httpResp : HttpResponse) (ms : List MessageFromPeek) (m : MessageFromPeek)
    (hA : env.Answers httpResp) (h2 : is2xx httpResp = true)
    (hdec : xmlDecode env.DecodeMessagesFromPeek httpResp = .ok ms) (hm : m ∈ ms)
    (hne : ToUpper m.MessageBodyMD5 ≠ ToUpper (messageBodyMD5 m.MessageBody)) :
    (clt.BatchPeekMessage2Context env n b).err ≠ none ∧
      (clt.BatchPeekMessage2Context env n b).val = [] := by
  obtain ⟨host, uri, hp⟩ := hA.parse
  have hne2 := digest_differs _ _ hne
  have hchk : checkPeekDigests 0 ms ≠ none := fun hnone =>
    hne2 ((checkPeekDigests_none_iff 0 ms).mp hnone m hm)
  cases hc : checkPeekDigests 0 ms with
  | none => exact absurd hc hchk
  | some e =>
    simp [QueueClient.BatchPeekMessage2Context, ParseRequestURI, hp, hA.roundTrip, h2, hdec, hc]

/-- C5: every send, publish, receive and peek, single or batch, that returns without error
has checked the digest law: the digest reported by the server, upper-cased, is
`messageBodyMD5` of the body on the wire (after the base64 encoding of a send, before the
base64 decoding of a receive), for every message the server accepted. Conversely, when a
message of a 2xx receive or peek response carries a digest that differs other than by
letter case, the call returns an error and no message. -/
theorem digest_law (env : Env) :
    (∀ (clt : QueueClient) (msg : Option MessageToSend) (b : Bool),
      (clt.SendMessage2 env msg b).2.err = none →
      ∃ m httpReq httpResp result, msg = some m ∧
        (clt.SendMessage2 env msg b).1 = some { m with MessageBody := encodeBody b m.MessageBody } ∧
        (clt.SendMessage2 env msg b).2.sent = [httpReq] ∧
        env.Do httpReq = .ok httpResp ∧
        xmlDecode env.DecodeSendResult httpResp = .ok result ∧
        ToUpper result.MessageBodyMD5 = messageBodyMD5 (encodeBody b m.MessageBody)) ∧
    (∀ (clt : TopicClient) (msg : Option MessageToPublish) (b : Bool),
      (clt.PublishMessage2 env msg b).2.err = none →
      ∃ m httpReq httpResp result, msg = some m ∧
        (clt.PublishMessage2 env msg b).1 =
          some { m with MessageBody := encodeBody b m.MessageBody } ∧
        (clt.PublishMessage2 env msg b).2.sent = [httpReq] ∧
        env.Do httpReq = .ok httpResp ∧
        xmlDecode env.DecodeSendResult httpResp = .ok result ∧
        ToUpper result.MessageBodyMD5 = messageBodyMD5 (encodeBody b m.MessageBody)) ∧
    (∀ (clt : QueueClient) (msgs : List MessageToSend) (b : Bool),
      (clt.BatchSendMessage2 env msgs b).2.err = none →
      ∃ httpReq httpResp items,
        (clt.BatchSendMessage2 env msgs b).2.sent = [httpReq] ∧
        env.Do httpReq = .ok httpResp ∧
        xmlDecode env.DecodeBatchSendResult httpResp = .ok items ∧
        (clt.BatchSendMessage2 env msgs b).2.val = items ∧
        (clt.BatchSendMessage2 env msgs b).1 =
          msgs.map (fun m => { m with MessageBody := encodeBody b m.MessageBody }) ∧
        items.length = msgs.length ∧
        ∀ p ∈ List.zip (clt.BatchSendMessage2 env msgs b).1 items, p.2.ErrorCode = [] →
          ToUpper p.2.MessageBodyMD5 = messageBodyMD5 p.1.MessageBody) ∧
    (∀ (clt : QueueClient) (w : Int) (b : Bool) (ret : Ret (Option Message)),
      clt.ReceiveMessage2Context env w b = .returned ret → ret.err = none →
      ∃ httpReq httpResp result, ret.sent = [httpReq] ∧ env.Do httpReq = .ok httpResp ∧
        xmlDecode env.DecodeMessage httpResp = .ok result ∧
        ToUpper result.MessageBodyMD5 = messageBodyMD5 result.MessageBody) ∧
    (∀ (clt : QueueClient) (n w : Int) (b : Bool),
      (clt.BatchReceiveMessage2Context env n w b).err = none →
      ∃ httpReq httpResp results,
        (clt.BatchReceiveMessage2Context env n w b).sent = [httpReq] ∧
        env.Do httpReq = .ok httpResp ∧
        xmlDecode env.DecodeMessages httpResp = .ok results ∧
        ∀ m ∈ results, ToUpper m.MessageBodyMD5 = messageBodyMD5 m.MessageBody) ∧
    (∀ (clt : QueueClient) (b : Bool) (ret : Ret (Option MessageFromPeek)),
      clt.PeekMessage2Context env b = .returned ret → ret.err = none →
      ∃ httpReq httpResp result, ret.sent = [httpReq] ∧ env.Do httpReq = .ok httpResp ∧
        xmlDecode env.DecodeMessageFromPeek httpResp = .ok result ∧
        ToUpper result.MessageBodyMD5 = messageBodyMD5 result.MessageBody) ∧
    (∀ (clt : QueueClient) (n : Int) (b : Bool),
      (clt.BatchPeekMessage2Context env n b).err = none →
      ∃ httpReq httpResp results,
        (clt.BatchPeekMessage2Context env n b).sent = [httpReq] ∧
        env.Do httpReq = .ok httpResp ∧
        xmlDecode env.DecodeMessagesFromPeek httpResp = .ok results ∧
        ∀ m ∈ results, ToUpper m.MessageBodyMD5 = messageBodyMD5 m.MessageBody) ∧
    (∀ (httpResp : HttpResponse), env.Answers httpResp → is2xx httpResp = true →
      (∀ (clt : QueueClient) (w : Int) (b : Bool) (m : Message),
        xmlDecode env.DecodeMessage httpResp = .ok m →
        ToUpper m.MessageBodyMD5 ≠ ToUpper (messageBodyMD5 m.MessageBody) →
        ∃ ret, clt.ReceiveMessage2Context env w b = .returned ret ∧
          ret.err = some (md5Mismatch m.MessageBodyMD5 (messageBodyMD5 m.MessageBody)) ∧
          ret.val = none) ∧
      (∀ (clt : QueueClient) (b : Bool) (m : MessageFromPeek),
        xmlDecode env.DecodeMessageFromPeek httpResp = .ok m →
        ToUpper m.MessageBodyMD5 ≠ ToUpper (messageBodyMD5 m.MessageBody) →
        ∃ ret, clt.PeekMessage2Context env b = .returned ret ∧
          ret.err = some (md5Mismatch m.MessageBodyMD5 (messageBodyMD5 m.MessageBody)) ∧
          ret.val = none) ∧
      (∀ (clt : QueueClient) (n w : Int) (b : Bool) (ms : List Message) (m : Message),
        xmlDecode env.DecodeMessages httpResp = .ok ms → m ∈ ms →
        ToUpper m.MessageBodyMD5 ≠ ToUpper (messageBodyMD5 m.MessageBody) →
        (clt.BatchReceiveMessage2Context env n w b).err ≠ none ∧
          (clt.BatchReceiveMessage2Context env n w b).val = []) ∧
      (∀ (clt : QueueClient) (n : Int) (b : Bool) (ms : List MessageFromPeek)
          (m : MessageFromPeek),
        xmlDecode env.DecodeMessagesFromPeek httpResp = .ok ms → m ∈ ms →
        ToUpper m.MessageBodyMD5 ≠ ToUpper (messageBodyMD5 m.MessageBody) →
        (clt.BatchPeekMessage2Context env n b).err ≠ none ∧
          (clt.BatchPeekMessage2Context env n b).val = [])) := by
  refine ⟨?_, ?_, ?_, ?_, ?_, ?_, ?_, ?_⟩
  · exact fun clt msg b h => SendMessage2_digest env clt msg b h
  · exact fun clt msg b h => PublishMessage2_digest env clt msg b h
  · exact fun clt msgs b h => BatchSendMessage2_digest env clt msgs b h
  · exact fun clt w b ret h herr => ReceiveMessage2Context_digest env clt w b ret h herr
  · exact fun clt n w b h => BatchReceiveMessage2Context_digest env clt n w b h
  · exact fun clt b ret h herr => PeekMessage2Context_digest env clt b ret h herr
  · exact fun clt n b h => BatchPeekMessage2Context_digest env clt n b h
  · intro httpResp hA h2
    refine ⟨?_, ?_, ?_, ?_⟩
    · exact fun clt w b m hdec hne =>
        ReceiveMessage2Context_mismatch env clt w b httpResp m hA h2 hdec hne
    · exact fun clt b m hdec hne =>
        PeekMessage2Context_mismatch env clt b httpResp m hA h2 hdec hne
    · exact fun clt n w b ms m hdec hm hne =>
        BatchReceiveMessage2Context_mismatch env clt n w b httpResp ms m hA h2 hdec hm hne
    · exact fun clt n b ms m hdec hm hne =>
        BatchPeekMessage2Context_mismatch env clt n b httpResp ms m hA h2 hdec hm hne

/-- Witness of C5: a send of `hello` that the test double accepts under the lower-case
digest of `hello`, and a receive of `hello` under a foreign digest, which fails. -/
theorem digest_law_witness :
    (∃ m httpReq httpResp result, some (⟨str "hello", 0, 8⟩ : MessageToSend) = some m ∧
      (testQueue.SendMessage2 (testEnv sendResponse) (some ⟨str "hello", 0, 8⟩) false).1 =
        some { m with MessageBody := encodeBody false m.MessageBody } ∧
      (testQueue.SendMessage2 (testEnv sendResponse) (some ⟨str "hello", 0, 8⟩) false).2.sent =
        [httpReq] ∧
      (testEnv sendResponse).Do httpReq = .ok httpResp ∧
      xmlDecode (testEnv sendResponse).DecodeSendResult httpResp = .ok result ∧
      ToUpper result.MessageBodyMD5 = messageBodyMD5 (encodeBody false m.MessageBody)) ∧
    ∃ ret, testQueue.ReceiveMessage2Context (testEnv mismatchResponse) 0 false = .returned ret ∧
      ret.err = some (md5Mismatch (framedMessage mismatchResponse.Body).MessageBodyMD5
        (messageBodyMD5 (framedMessage mismatchResponse.Body).MessageBody)) ∧
      ret.val = none :=
  ⟨(digest_law (testEnv sendResponse)).1 testQueue (some ⟨str "hello", 0, 8⟩) false (by decide),
    ((digest_law (testEnv mismatchResponse)).2.2.2.2.2.2.2 mismatchResponse
      (testEnv_answers mismatchResponse) (by decide)).1 testQueue 0 false
      (framedMessage mismatchResponse.Body) rfl (by decide)⟩

/-! ## The operations: batch bounds -/

theorem md5MismatchAt_ne_errMsgsLength (i : Nat) (x y : Bytes) :
    md5MismatchAt i x y ≠ errMsgsLength := by
  intro h
  have hlen := congrArg (fun e => match e with
    | Err.errorString s => s.length
    | _ => 0) h
  have h1 : (str "The ").length = 4 := by decide
  have h2 : (str "th MessageBodyMD5 mismatch, have ").length = 33 := by decide
  have h3 : (str "The length of msgs is invalid").length = 29 := by decide
  simp only [md5MismatchAt, errMsgsLength, List.length_append, h1, h2, h3,
    List.length_singleton] at hlen
  omega

theorem checkSendDigests_ne_errMsgsLength (i : Nat) (ms : List MessageToSend)
    (rs : List BatchSendMessageResponseItem) :
    checkSendDigests i ms rs ≠ some errMsgsLength := by
  induction ms generalizing i rs with
  | nil => simp [checkSendDigests]
  | cons m ms ih =>
    cases rs with
    | nil => simp [checkSendDigests]
    | cons r rs =>
      simp only [checkSendDigests]
      split_ifs
      · exact ih _ _
      · intro h
        exact md5MismatchAt_ne_errMsgsLength _ _ _ (Option.some.inj h)
      · exact ih _ _

theorem defaultBranch_ne_errorString (env : Env) (httpResp : HttpResponse) (rid s : Bytes) :
    defaultBranch env httpResp rid ≠ .errorString s := by
  unfold defaultBranch
  split <;> simp

theorem countMismatch_ne_errMsgsLength (x y : Bytes) :
    Err.errorString (str "result message count mismatch, have " ++ x ++ str ", want " ++ y) ≠
      errMsgsLength := by
  intro h
  have hlen := congrArg (fun e => match e with
    | Err.errorString s => s.length
    | _ => 0) h
  have h1 : (str "result message count mismatch, have ").length = 36 := by decide
  have h3 : (str "The length of msgs is invalid").length = 29 := by decide
  simp only [errMsgsLength, List.length_append, h1, h3] at hlen
  omega

theorem BatchSendMessage2_length_ok (env : Env) (clt : QueueClient) (msgs : List MessageToSend)
    (b : Bool) (h1 : 1 ≤ msgs.length) (h16 : msgs.length ≤ 16) :
    (clt.BatchSendMessage2 env msgs b).2.err ≠ some errMsgsLength := by
  generalize hret : clt.BatchSendMessage2 env msgs b = ret
  simp only [QueueClient.BatchSendMessage2] at hret
  repeat' split at hret
  all_goals subst hret
  all_goals dsimp only
  all_goals first
    | (exfalso; omega)
    | decide
    | (simp [errMsgsLength]; done)
    | (intro h; exact defaultBranch_ne_errorString _ _ _ _ (Option.some.inj h))
    | (intro h; exact countMismatch_ne_errMsgsLength _ _ (Option.some.inj h))
    | (intro h; rename_i hc; exact checkSendDigests_ne_errMsgsLength _ _ _ (hc.trans h))

theorem BatchDeleteMessage_length_ok (env : Env) (clt : QueueClient) (hs : List Bytes)
    (h1 : 1 ≤ hs.length) (h16 : hs.length ≤ 16) :
    (clt.BatchDeleteMessage env hs).err ≠ some errHandlesLength := by
  generalize hret : clt.BatchDeleteMessage env hs = ret
  simp only [QueueClient.BatchDeleteMessage] at hret
  repeat' split at hret
  all_goals subst hret
  all_goals dsimp only
  all_goals first
    | (exfalso; omega)
    | decide
    | (simp [errHandlesLength]; done)
    | (intro h; exact defaultBranch_ne_errorString _ _ _ _ (Option.some.inj h))

/-- C6: `BatchSendMessage2` and `BatchDeleteMessage` called with no item or with more than
16 return their length error whatever the environment is, without a request having been
built or sent; with 1 to 16 items the length error is not what they return. -/
theorem batch_length_check (env : Env) (clt : QueueClient) :
    (∀ (msgs : List MessageToSend) (b : Bool), msgs.length = 0 ∨ msgs.length > 16 →
      clt.BatchSendMessage2 env msgs b = (msgs, ⟨[], [], some errMsgsLength, []⟩)) ∧
    (∀ (hs : List Bytes), hs.length = 0 ∨ hs.length > 16 →
      clt.BatchDeleteMessage env hs = ⟨[], [], some errHandlesLength, []⟩) ∧
    (∀ (msgs : List MessageToSend) (b : Bool), 1 ≤ msgs.length → msgs.length ≤ 16 →
      (clt.BatchSendMessage2 env msgs b).2.err ≠ some errMsgsLength) ∧
    (∀ (hs : List Bytes), 1 ≤ hs.length → hs.length ≤ 16 →
      (clt.BatchDeleteMessage env hs).err ≠ some errHandlesLength) := by
  refine ⟨?_, ?_, ?_, ?_⟩
  · intro msgs b h
    have h2 : msgs.length < 1 ∨ msgs.length > 16 := by omega
    simp only [QueueClient.BatchSendMessage2, h2, if_true]
  · intro hs h
    have h2 : hs.length < 1 ∨ hs.length > 16 := by omega
    simp only [QueueClient.BatchDeleteMessage, h2, if_true]
  · exact fun msgs b h1 h16 => BatchSendMessage2_length_ok env clt msgs b h1 h16
  · exact fun hs h1 h16 => BatchDeleteMessage_length_ok env clt hs h1 h16

/-- Witness of C6: no message and seventeen receipt handles are rejected, one message is
not rejected for its count. -/
theorem batch_length_check_witness :
    testQueue.BatchSendMessage2 (testEnv sendResponse) [] true =
        ([], ⟨[], [], some errMsgsLength, []⟩) ∧
      testQueue.BatchDeleteMessage (testEnv sendResponse) (List.replicate 17 (str "h")) =
        ⟨[], [], some errHandlesLength, []⟩ ∧
      (testQueue.BatchSendMessage2 (testEnv sendResponse) [⟨str "hello", 0, 8⟩] false).2.err ≠
        some errMsgsLength :=
  ⟨(batch_length_check (testEnv sendResponse) testQueue).1 [] true (by decide),
    (batch_length_check (testEnv sendResponse) testQueue).2.1 (List.replicate 17 (str "h"))
      (by decide),
    (batch_length_check (testEnv sendResponse) testQueue).2.2.1 [⟨str "hello", 0, 8⟩] false
      (by decide) (by decide)⟩

/-- C7 fails as stated: batch receive called for 0 messages and batch peek called for 17
do not fail locally; each sends one request, for 16 messages, and returns what the server
answered. -/
theorem batch_count_counterexample :
    (testQueue.BatchReceiveMessage2Context (testEnv receiveResponse) 0 0 false).err = none ∧
      (testQueue.BatchReceiveMessage2Context (testEnv receiveResponse) 0 0 false).val =
        [framedMessage receiveResponse.Body] ∧
      (testQueue.BatchReceiveMessage2Context (testEnv receiveResponse) 0 0 false).sent.map
          (fun r => r.URL.Raw) =
        [str "http://mns.example/queues/q/messages?numOfMessages=16"] ∧
      (testQueue.BatchPeekMessage2Context (testEnv receiveResponse) 17 false).err = none ∧
      (testQueue.BatchPeekMessage2Context (testEnv receiveResponse) 17 false).val =
        [framedPeek receiveResponse.Body] ∧
      (testQueue.BatchPeekMessage2Context (testEnv receiveResponse) 17 false).sent.map
          (fun r => r.URL.Raw) =
        [str "http://mns.example/queues/q/messages?peekonly=true&numOfMessages=16"] := by
  refine ⟨?_, ?_, ?_, ?_, ?_, ?_⟩ <;> decide

/-- C7 as amended: a requested count below 1 or above 16 is replaced by 16; batch receive
and batch peek then do exactly what they do for 16, and when the environment answers they
send one request whose URL asks for 16 messages. -/
theorem batch_count_clamped (env : Env) (clt : QueueClient) (n w : Int) (b : Bool)
    (h : n < 1 ∨ n > 16) :
    clt.BatchReceiveMessage2Context env n w b = clt.BatchReceiveMessage2Context env 16 w b ∧
      clt.BatchPeekMessage2Context env n b = clt.BatchPeekMessage2Context env 16 b ∧
      ∀ httpResp, env.Answers httpResp →
        (clt.BatchReceiveMessage2Context env n w b).sent.map (fun r => r.URL.Raw) =
            [clt.QueueURL ++ str "/messages?numOfMessages=" ++ str "16" ++
              if clampWaitSeconds w > 0 then str "&waitseconds=" ++ Itoa (clampWaitSeconds w)
              else []] ∧
          (clt.BatchPeekMessage2Context env n b).sent.map (fun r => r.URL.Raw) =
            [clt.QueueURL ++ str "/messages?peekonly=true&numOfMessages=" ++ str "16"] := by
  have hc : clampNumOfMessages n = 16 := by simp [clampNumOfMessages, h]
  have hc16 : clampNumOfMessages 16 = 16 := by decide
  have h16 : Itoa 16 = str "16" := by decide
  refine ⟨?_, ?_, ?_⟩
  · simp only [QueueClient.BatchReceiveMessage2Context, hc, hc16]
  · simp only [QueueClient.BatchPeekMessage2Context, hc, hc16]
  · intro httpResp hA
    obtain ⟨host, uri, hp⟩ := hA.parse
    constructor
    · simp only [QueueClient.BatchReceiveMessage2Context, hc, ParseRequestURI, hp, hA.roundTrip,
        h16]
      by_cases hw : clampWaitSeconds w > 0
      · simp only [hw, if_true]
        repeat' split
        all_goals simp [plainRequest]
      · simp only [hw, if_false]
        repeat' split
        all_goals simp [plainRequest]
    · simp only [QueueClient.BatchPeekMessage2Context, hc, ParseRequestURI, hp, hA.roundTrip, h16]
      repeat' split
      all_goals simp [plainRequest]

/-- Witness of the amended C7. -/
theorem batch_count_clamped_witness :
    testQueue.BatchReceiveMessage2Context (testEnv receiveResponse) 0 0 false =
        testQueue.BatchReceiveMessage2Context (testEnv receiveResponse) 16 0 false ∧
      testQueue.BatchPeekMessage2Context (testEnv receiveResponse) 0 false =
        testQueue.BatchPeekMessage2Context (testEnv receiveResponse) 16 false :=
  ⟨(batch_count_clamped (testEnv receiveResponse) testQueue 0 0 false (by decide)).1,
    (batch_count_clamped (testEnv receiveResponse) testQueue 0 0 false (by decide)).2.1⟩

/-- A receive with `base64Decode` set panics on every 2xx response whose message has a
matching digest and a body that is not empty and not base64. -/
theorem ReceiveMessage2Context_panics (env : Env) (clt : QueueClient) (w : Int)
    (httpResp : HttpResponse) (m : Message) (offset : Nat) (hA : env.Answers httpResp)
    (h2 : is2xx httpResp = true) (hdec : xmlDecode env.DecodeMessage httpResp = .ok m)
    (hmd5 : ToUpper m.MessageBodyMD5 = messageBodyMD5 m.MessageBody)
    (hne : m.MessageBody ≠ []) (hbad : StdEncoding.Decode m.MessageBody = .error offset) :
    clt.ReceiveMessage2Context env w true =
      .panicked (str "runtime error: invalid memory address or nil pointer dereference") := by
  obtain ⟨host, uri, hp⟩ := hA.parse
  simp [QueueClient.ReceiveMessage2Context, ParseRequestURI, hp, hA.roundTrip, h2, hdec, hmd5,
    hne, hbad]

/-- A peek with `base64Decode` set panics in the same way. -/
theorem PeekMessage2Context_panics (env : Env) (clt : QueueClient)
    (httpResp : HttpResponse) (m : MessageFromPeek) (offset : Nat) (hA : env.Answers httpResp)
    (h2 : is2xx httpResp = true) (hdec : xmlDecode env.DecodeMessageFromPeek httpResp = .ok m)
    (hmd5 : ToUpper m.MessageBodyMD5 = messageBodyMD5 m.MessageBody)
    (hne : m.MessageBody ≠ []) (hbad : StdEncoding.Decode m.MessageBody = .error offset) :
    clt.PeekMessage2Context env true =
      .panicked (str "runtime error: invalid memory address or nil pointer dereference") := by
  obtain ⟨host, uri, hp⟩ := hA.parse
  simp [QueueClient.PeekMessage2Context, ParseRequestURI, hp, hA.roundTrip, h2, hdec, hmd5,
    hne, hbad]

/-- C8, the code at the failing input: a 200 response carrying the body `!` under its own
digest. `ReceiveMessage2Context` and `PeekMessage2Context` with `base64Decode` set panic
(the error message is built from the nil result `err`), where the batch variants return
the decoding error and no message. -/
theorem receive_undecodable_panics :
    testQueue.ReceiveMessage2Context (testEnv undecodableResponse) 0 true =
        .panicked (str "runtime error: invalid memory address or nil pointer dereference") ∧
      testQueue.PeekMessage2Context (testEnv undecodableResponse) true =
        .panicked (str "runtime error: invalid memory address or nil pointer dereference") ∧
      (testQueue.BatchReceiveMessage2Context (testEnv undecodableResponse) 1 0 true).err =
        some (base64FailedAt 0 0) ∧
      (testQueue.BatchReceiveMessage2Context (testEnv undecodableResponse) 1 0 true).val = [] ∧
      (testQueue.BatchPeekMessage2Context (testEnv undecodableResponse) 1 true).err =
        some (base64FailedAt 0 0) ∧
      (testQueue.BatchPeekMessage2Context (testEnv undecodableResponse) 1 true).val = [] := by
  refine ⟨?_, ?_, ?_, ?_, ?_, ?_⟩ <;> decide

/-! ## The operations: payload transform -/

theorem Encode_ne_nil (B : Bytes) (hne : B ≠ []) : StdEncoding.Encode B ≠ [] := by
  match B, hne with
  | [_], _ => simp [StdEncoding.Encode]
  | [_, _], _ => simp [StdEncoding.Encode]
  | _ :: _ :: _ :: _, _ => simp [StdEncoding.Encode]

/-- The decoding loop of the batch receive gives back every body that was encoded. -/
theorem decodeBodies_encoded (i : Nat) (ms : List Message)
    (hb : ∀ m ∈ ms, IsBytes m.MessageBody) :
    decodeBodies i (ms.map fun m => { m with MessageBody := encodeBody true m.MessageBody }) =
      .ok ms := by
  induction ms generalizing i with
  | nil => simp [decodeBodies]
  | cons m ms ih =>
    have hm : IsBytes m.MessageBody := hb m (by simp)
    have hrest := ih (i + 1) (fun x hx => hb x (by simp [hx]))
    simp only [List.map_cons, decodeBodies, encodeBody, if_true]
    by_cases he : m.MessageBody = []
    · simp only [he, StdEncoding.Encode, List.length_nil, if_true]
      simp only [encodeBody, if_true] at hrest
      rw [hrest]
      cases m
      simp_all
    · have hlen : (StdEncoding.Encode m.MessageBody).length ≠ 0 := by
        simpa using Encode_ne_nil _ he
      simp only [hlen, if_false, Decode_Encode _ hm]
      simp only [encodeBody, if_true] at hrest
      rw [hrest]

/-- C9: the payload transform is a round trip. For bytes `B`, not empty, the receive-side
decoding of the send-side encoding is `B`, and without encoding the body stays as it is;
a receive with `base64Decode` set of a message whose wire body is the encoding of `B`
returns the message with body `B`; a batch receive of messages whose wire bodies are
encodings returns the messages with the bodies that were encoded; a receive without
`base64Decode` returns the wire body unchanged. -/
theorem base64_round_trip :
    (∀ B : Bytes, IsBytes B → B ≠ [] →
      StdEncoding.Decode (encodeBody true B) = .ok B ∧ encodeBody false B = B) ∧
    (∀ (env : Env) (clt : QueueClient) (w : Int) (httpResp : HttpResponse) (m : Message),
      env.Answers httpResp → is2xx httpResp = true →
      IsBytes m.MessageBody → m.MessageBody ≠ [] →
      xmlDecode env.DecodeMessage httpResp =
        .ok { m with MessageBody := encodeBody true m.MessageBody } →
      ToUpper m.MessageBodyMD5 = messageBodyMD5 (encodeBody true m.MessageBody) →
      ∃ ret, clt.ReceiveMessage2Context env w true = .returned ret ∧
        ret.err = none ∧ ret.val = some m) ∧
    (∀ (env : Env) (clt : QueueClient) (n w : Int) (httpResp : HttpResponse) (ms : List Message),
      env.Answers httpResp → is2xx httpResp = true →
      (∀ m ∈ ms, IsBytes m.MessageBody) →
      xmlDecode env.DecodeMessages httpResp =
        .ok (ms.map fun m => { m with MessageBody := encodeBody true m.MessageBody }) →
      (∀ m ∈ ms, ToUpper m.MessageBodyMD5 = messageBodyMD5 (encodeBody true m.MessageBody)) →
      (clt.BatchReceiveMessage2Context env n w true).err = none ∧
        (clt.BatchReceiveMessage2Context env n w true).val = ms) ∧
    (∀ (env : Env) (clt : QueueClient) (w : Int) (httpResp : HttpResponse) (m : Message),
      env.Answers httpResp → is2xx httpResp = true →
      xmlDecode env.DecodeMessage httpResp = .ok m →
      ToUpper m.MessageBodyMD5 = messageBodyMD5 m.MessageBody →
      ∃ ret, clt.ReceiveMessage2Context env w false = .returned ret ∧
        ret.err = none ∧ ret.val = some m) ∧
    (∀ (env : Env) (clt : QueueClient) (n w : Int) (httpResp : HttpResponse) (ms : List Message),
      env.Answers httpResp → is2xx httpResp = true →
      xmlDecode env.DecodeMessages httpResp = .ok ms →
      (∀ m ∈ ms, ToUpper m.MessageBodyMD5 = messageBodyMD5 m.MessageBody) →
      (clt.BatchReceiveMessage2Context env n w false).err = none ∧
        (clt.BatchReceiveMessage2Context env n w false).val = ms) := by
  refine ⟨?_, ?_, ?_, ?_, ?_⟩
  · intro B hB _
    exact ⟨by simpa [encodeBody] using Decode_Encode B hB, by simp [encodeBody]⟩
  · intro env clt w httpResp m hA h2 hB hne hdec hmd5
    obtain ⟨host, uri, hp⟩ := hA.parse
    have hlen : 0 < (StdEncoding.Encode m.MessageBody).length :=
      List.length_pos.mpr (Encode_ne_nil _ hne)
    have hd := Decode_Encode _ hB
    simp only [encodeBody, if_true] at hdec hmd5
    simp [QueueClient.ReceiveMessage2Context, ParseRequestURI, hp, hA.roundTrip, h2, hdec, hmd5,
      hlen, hd]
  · intro env clt n w httpResp ms hA h2 hB hdec hmd5
    obtain ⟨host, uri, hp⟩ := hA.parse
    have hchk : checkDigests 0
        (ms.map fun m => { m with MessageBody := encodeBody true m.MessageBody }) = none := by
      rw [checkDigests_none_iff]
      intro x hx
      obtain ⟨m, hm, rfl⟩ := List.mem_map.mp hx
      exact hmd5 m hm
    have hd := decodeBodies_encoded 0 ms hB
    simp [QueueClient.BatchReceiveMessage2Context, ParseRequestURI, hp, hA.roundTrip, h2, hdec,
      hchk, hd]
  · intro env clt w httpResp m hA h2 hdec hmd5
    obtain ⟨host, uri, hp⟩ := hA.parse
    simp [QueueClient.ReceiveMessage2Context, ParseRequestURI, hp, hA.roundTrip, h2, hdec, hmd5]
  · intro env clt n w httpResp ms hA h2 hdec hmd5
    obtain ⟨host, uri, hp⟩ := hA.parse
    have hchk : checkDigests 0 ms = none := (checkDigests_none_iff 0 ms).mpr hmd5
    simp [QueueClient.BatchReceiveMessage2Context, ParseRequestURI, hp, hA.roundTrip, h2, hdec,
      hchk]

/-- Witness of C9: the body `hello` through encoding and decoding, and a receive of its
encoding from the test double. -/
theorem base64_round_trip_witness :
    (StdEncoding.Decode (encodeBody true (str "hello")) = .ok (str "hello") ∧
      encodeBody false (str "hello") = str "hello") ∧
    ∃ ret, testQueue.ReceiveMessage2Context (testEnv encodedResponse) 0 true = .returned ret ∧
      ret.err = none ∧
      ret.val = some ⟨str "id", str "handle", str "hello",
        str "0733351879B2FA9BD05C7CA3061529C0", 0, 0, 0, 1, 8⟩ :=
  ⟨base64_round_trip.1 (str "hello") (by decide) (by decide),
    base64_round_trip.2.1 (testEnv encodedResponse) testQueue 0 encodedResponse
      ⟨str "id", str "handle", str "hello", str "0733351879B2FA9BD05C7CA3061529C0", 0, 0, 0, 1, 8⟩
      (testEnv_answers encodedResponse) (by decide) (by decide) (by decide) (by rfl)
      (by decide)⟩

/-! ## The operations: service errors -/

theorem is2xx_false (httpResp : HttpResponse)
    (h : ¬ (200 ≤ httpResp.StatusCode ∧ httpResp.StatusCode ≤ 299)) : is2xx httpResp = false := by
  cases hb : is2xx httpResp with
  | false => rfl
  | true => exact absurd ((is2xx_iff httpResp).mp hb) h

theorem defaultBranch_decoded (env : Env) (httpResp : HttpResponse) (payload : ApiError)
    (hdec : xmlDecode env.DecodeApiError httpResp = .ok payload) :
    defaultBranch env httpResp (httpResp.Header.Get (str "X-Mns-Request-Id")) =
      .apiError (surfacedApiError httpResp payload) := by
  unfold defaultBranch surfacedApiError
  rw [hdec]
  by_cases hr : payload.RequestId = []
  · simp [hr]
  · simp [hr]

/-- C10: when the response is not 2xx and its body decodes as a service-error payload,
`SendMessage2`, `ReceiveMessage2Context`, `BatchReceiveMessage2Context`,
`PeekMessage2Context`, `BatchPeekMessage2Context`, `DeleteMessage`,
`ChangeMessageVisibility` and `PublishMessage2` return the `*ApiError` that has the HTTP
status of the response, the code, message and host id of the payload and the request id
of the payload, or that of the header `X-Mns-Request-Id` when the payload has none; no
message or result is returned. -/
theorem api_error_contract (env : Env) (httpResp : HttpResponse) (payload : ApiError)
    (hA : env.Answers httpResp)
    (h2 : ¬ (200 ≤ httpResp.StatusCode ∧ httpResp.StatusCode ≤ 299))
    (hdec : xmlDecode env.DecodeApiError httpResp = .ok payload) :
    (∀ (clt : QueueClient) (m : MessageToSend) (b : Bool), m.MessageBody ≠ [] →
      (clt.SendMessage2 env (some m) b).2.err =
          some (.apiError (surfacedApiError httpResp payload)) ∧
        (clt.SendMessage2 env (some m) b).2.val = []) ∧
    (∀ (clt : QueueClient) (w : Int) (b : Bool),
      ∃ ret, clt.ReceiveMessage2Context env w b = .returned ret ∧
        ret.err = some (.apiError (surfacedApiError httpResp payload)) ∧ ret.val = none) ∧
    (∀ (clt : QueueClient) (n w : Int) (b : Bool),
      (clt.BatchReceiveMessage2Context env n w b).err =
          some (.apiError (surfacedApiError httpResp payload)) ∧
        (clt.BatchReceiveMessage2Context env n w b).val = []) ∧
    (∀ (clt : QueueClient) (b : Bool),
      ∃ ret, clt.PeekMessage2Context env b = .returned ret ∧
        ret.err = some (.apiError (surfacedApiError httpResp payload)) ∧ ret.val = none) ∧
    (∀ (clt : QueueClient) (n : Int) (b : Bool),
      (clt.BatchPeekMessage2Context env n b).err =
          some (.apiError (surfacedApiError httpResp payload)) ∧
        (clt.BatchPeekMessage2Context env n b).val = []) ∧
    (∀ (clt : QueueClient) (receiptHandle : Bytes),
      (clt.DeleteMessage env receiptHandle).err =
        some (.apiError (surfacedApiError httpResp payload))) ∧
    (∀ (clt : QueueClient) (receiptHandle : Bytes) (visibilityTimeout : Int),
      (clt.ChangeMessageVisibility env receiptHandle visibilityTimeout).err =
          some (.apiError (surfacedApiError httpResp payload)) ∧
        (clt.ChangeMessageVisibility env receiptHandle visibilityTimeout).val = none) ∧
    (∀ (clt : TopicClient) (m : MessageToPublish) (b : Bool), m.MessageBody ≠ [] →
      (clt.PublishMessage2 env (some m) b).2.err =
          some (.apiError (surfacedApiError httpResp payload)) ∧
        (clt.PublishMessage2 env (some m) b).2.val = []) := by
  obtain ⟨host, uri, hp⟩ := hA.parse
  obtain ⟨fm, hfm⟩ := hA.marshalMessage
  obtain ⟨fp, hfp⟩ := hA.marshalPublish
  have hx := is2xx_false httpResp h2
  have hd := defaultBranch_decoded env httpResp payload hdec
  refine ⟨?_, ?_, ?_, ?_, ?_, ?_, ?_, ?_⟩
  · intro clt m b hne
    simp [QueueClient.SendMessage2, ParseRequestURI, hp, hfm, hA.roundTrip, hx, hd, hne]
  · intro clt w b
    simp [QueueClient.ReceiveMessage2Context, ParseRequestURI, hp, hA.roundTrip, hx, hd]
  · intro clt n w b
    simp [QueueClient.BatchReceiveMessage2Context, ParseRequestURI, hp, hA.roundTrip, hx, hd]
  · intro clt b
    simp [QueueClient.PeekMessage2Context, ParseRequestURI, hp, hA.roundTrip, hx, hd]
  · intro clt n b
    simp [QueueClient.BatchPeekMessage2Context, ParseRequestURI, hp, hA.roundTrip, hx, hd]
  · intro clt receiptHandle
    simp [QueueClient.DeleteMessage, ParseRequestURI, hp, hA.roundTrip, hx, hd]
  · intro clt receiptHandle visibilityTimeout
    simp [QueueClient.ChangeMessageVisibility, ParseRequestURI, hp, hA.roundTrip, hx, hd]
  · intro clt m b hne
    simp [TopicClient.PublishMessage2, ParseRequestURI, hp, hfp, hA.roundTrip, hx, hd, hne]

/-- Witness of C10: the test double answers 404 with the code `MessageNotExist` and no
request id in the payload; the request id of the error is that of the header. -/
theorem api_error_contract_witness :
    (testQueue.DeleteMessage (testEnv notFoundResponse) (str "handle")).err =
        some (.apiError ⟨404, str "MessageNotExist", str "message", str "r1", str "host"⟩) ∧
      (testQueue.BatchReceiveMessage2Context (testEnv notFoundResponse) 16 20 false).err =
        some (.apiError ⟨404, str "MessageNotExist", str "message", str "r1", str "host"⟩) ∧
      (testQueue.BatchReceiveMessage2Context (testEnv notFoundResponse) 16 20 false).val = [] :=
  ⟨(api_error_contract (testEnv notFoundResponse) notFoundResponse
      ⟨0, str "MessageNotExist", str "message", [], str "host"⟩
      (testEnv_answers notFoundResponse) (by decide) rfl).2.2.2.2.2.1 testQueue (str "handle"),
    (api_error_contract (testEnv notFoundResponse) notFoundResponse
      ⟨0, str "MessageNotExist", str "message", [], str "host"⟩
      (testEnv_answers notFoundResponse) (by decide) rfl).2.2.1 testQueue 16 20 false⟩

/-! ## The operations: batch delete and batch send responses -/

theorem strictEnv_answers (httpResp : HttpResponse) : (strictEnv httpResp).Answers httpResp :=
  ⟨⟨fun _ => str "mns.example", fun raw => raw, fun _ => rfl⟩, ⟨_, fun _ => rfl⟩, ⟨_, fun _ => rfl⟩,
    ⟨_, fun _ => rfl⟩, ⟨_, fun _ => rfl⟩, fun _ => rfl⟩

theorem defaultBranch_undecoded (env : Env) (httpResp : HttpResponse) (e : ExtErr)
    (requestId : Bytes) (hdec : xmlDecode env.DecodeApiError httpResp = .error e) :
    defaultBranch env httpResp requestId = .external e := by
  unfold defaultBranch
  rw [hdec]

/-- C11 fails as stated: a response of status 502 whose body is no error payload makes
`BatchDeleteMessage` return the error of the decoder, which is no `*ApiError`; and a 404
response that contains `<ReceiptHandle>` but does not decode as the list of entries
gives that error of the decoder, not a nil error with entries. -/
theorem batch_delete_counterexample :
    is2xx gatewayResponse = false ∧ gatewayResponse.StatusCode ≠ 404 ∧
      (testQueue.BatchDeleteMessage (strictEnv gatewayResponse) [str "h1", str "h2"]).err =
        some (.external ⟨false, str "expected element type <Error>"⟩) ∧
      partialDeleteResponse.StatusCode = 404 ∧
      Contains partialDeleteResponse.Body (str "<ReceiptHandle>") = true ∧
      (testQueue.BatchDeleteMessage (strictEnv partialDeleteResponse) [str "h1", str "h2"]).err =
        some (.external ⟨false, str "expected element type <Errors>"⟩) := by
  refine ⟨?_, ?_, ?_, ?_, ?_, ?_⟩ <;> decide

/-- C11 as amended: for 1 to 16 handles and a response of the service, `BatchDeleteMessage`
returns no error and no entry for a 2xx response; for a 404 response the error of reading
the body when it cannot be read, else, when the body contains `<ReceiptHandle>`, no error
and the decoded per-handle entries, or the error of the decoder when the body does not
decode as such; for a 404 response without `<ReceiptHandle>` and for every other status
that is not 2xx the `*ApiError` of the payload, or the error of the decoder when the body
does not decode as an error payload; and no entry in every case of an error. -/
theorem batch_delete_shapes (env : Env) (clt : QueueClient) (hs : List Bytes)
    (httpResp : HttpResponse) (hA : env.Answers httpResp)
    (h1 : 1 ≤ hs.length) (h16 : hs.length ≤ 16) :
    (is2xx httpResp = true →
      (clt.BatchDeleteMessage env hs).err = none ∧ (clt.BatchDeleteMessage env hs).val = []) ∧
    (httpResp.StatusCode = 404 → ∀ e, httpResp.BodyErr = some e →
      (clt.BatchDeleteMessage env hs).err = some (.external e) ∧
        (clt.BatchDeleteMessage env hs).val = []) ∧
    (httpResp.StatusCode = 404 → httpResp.BodyErr = none →
      Contains httpResp.Body (str "<ReceiptHandle>") = true →
      (∀ items, env.DecodeDeleteErrors httpResp.Body = .ok items →
        (clt.BatchDeleteMessage env hs).err = none ∧
          (clt.BatchDeleteMessage env hs).val = items) ∧
      (∀ e, env.DecodeDeleteErrors httpResp.Body = .error e →
        (clt.BatchDeleteMessage env hs).err = some (.external e) ∧
          (clt.BatchDeleteMessage env hs).val = [])) ∧
    (httpResp.StatusCode = 404 → httpResp.BodyErr = none →
      Contains httpResp.Body (str "<ReceiptHandle>") = false →
      (∀ payload, env.DecodeApiError httpResp.Body = .ok payload →
        (clt.BatchDeleteMessage env hs).err =
            some (.apiError (surfacedApiError httpResp payload)) ∧
          (clt.BatchDeleteMessage env hs).val = []) ∧
      (∀ e, env.DecodeApiError httpResp.Body = .error e →
        (clt.BatchDeleteMessage env hs).err = some (.external e) ∧
          (clt.BatchDeleteMessage env hs).val = [])) ∧
    (is2xx httpResp = false → httpResp.StatusCode ≠ 404 →
      (∀ payload, xmlDecode env.DecodeApiError httpResp = .ok payload →
        (clt.BatchDeleteMessage env hs).err =
            some (.apiError (surfacedApiError httpResp payload)) ∧
          (clt.BatchDeleteMessage env hs).val = []) ∧
      (∀ e, xmlDecode env.DecodeApiError httpResp = .error e →
        (clt.BatchDeleteMessage env hs).err = some (.external e) ∧
          (clt.BatchDeleteMessage env hs).val = [])) := by
  obtain ⟨host, uri, hp⟩ := hA.parse
  obtain ⟨fh, hfh⟩ := hA.marshalReceiptHandles
  have hl : ¬ (hs = [] ∨ 16 < hs.length) := by
    rintro (h | h)
    · rw [h] at h1; simp at h1
    · omega
  refine ⟨?_, ?_, ?_, ?_, ?_⟩
  · intro h2
    simp [QueueClient.BatchDeleteMessage, hl, ParseRequestURI, hp, hfh, hA.roundTrip, h2]
  · intro h404 e hread
    have h2 : is2xx httpResp = false := is2xx_false _ (by omega)
    simp [QueueClient.BatchDeleteMessage, hl, ParseRequestURI, hp, hfh, hA.roundTrip, h2, h404,
      ReadAll, hread]
  · intro h404 hread hc
    have h2 : is2xx httpResp = false := is2xx_false _ (by omega)
    refine ⟨fun items hdec => ?_, fun e hdec => ?_⟩
    · simp [QueueClient.BatchDeleteMessage, hl, ParseRequestURI, hp, hfh, hA.roundTrip, h2, h404,
        ReadAll, hread, hc, hdec]
    · simp [QueueClient.BatchDeleteMessage, hl, ParseRequestURI, hp, hfh, hA.roundTrip, h2, h404,
        ReadAll, hread, hc, hdec]
  · intro h404 hread hc
    have h2 : is2xx httpResp = false := is2xx_false _ (by omega)
    refine ⟨fun payload hdec => ?_, fun e hdec => ?_⟩
    · by_cases hr : payload.RequestId = []
      · simp [QueueClient.BatchDeleteMessage, hl, ParseRequestURI, hp, hfh, hA.roundTrip, h2,
          h404, ReadAll, hread, hc, hdec, surfacedApiError, hr]
      · simp [QueueClient.BatchDeleteMessage, hl, ParseRequestURI, hp, hfh, hA.roundTrip, h2,
          h404, ReadAll, hread, hc, hdec, surfacedApiError, hr]
    · simp [QueueClient.BatchDeleteMessage, hl, ParseRequestURI, hp, hfh, hA.roundTrip, h2, h404,
        ReadAll, hread, hc, hdec]
  · intro h2 h404
    refine ⟨fun payload hdec => ?_, fun e hdec => ?_⟩
    · have hd := defaultBranch_decoded env httpResp payload hdec
      simp [QueueClient.BatchDeleteMessage, hl, ParseRequestURI, hp, hfh, hA.roundTrip, h2,
        h404, hd]
    · have hd := defaultBranch_undecoded env httpResp e
        (httpResp.Header.Get (str "X-Mns-Request-Id")) hdec
      simp [QueueClient.BatchDeleteMessage, hl, ParseRequestURI, hp, hfh, hA.roundTrip, h2,
        h404, hd]

/-- Witness of the amended C11: the test double answers 404 with a per-handle entry, 404
with an error payload, 404 with a body that cannot be read, and 502 with a body that is no
error payload. -/
theorem batch_delete_shapes_witness :
    ((testQueue.BatchDeleteMessage (testEnv partialDeleteResponse) [str "h1", str "h2"]).err =
        none ∧
      (testQueue.BatchDeleteMessage (testEnv partialDeleteResponse) [str "h1", str "h2"]).val =
        [⟨str "MessageNotExist", [], str "<ReceiptHandle>h1"⟩]) ∧
    ((testQueue.BatchDeleteMessage (testEnv notFoundResponse) [str "h1", str "h2"]).err =
        some (.apiError ⟨404, str "MessageNotExist", str "message", str "r1", str "host"⟩) ∧
      (testQueue.BatchDeleteMessage (testEnv notFoundResponse) [str "h1", str "h2"]).val = []) ∧
    ((testQueue.BatchDeleteMessage (testEnv unreadableResponse) [str "h1", str "h2"]).err =
        some (.external ⟨false, str "unexpected EOF"⟩) ∧
      (testQueue.BatchDeleteMessage (testEnv unreadableResponse) [str "h1", str "h2"]).val =
        []) ∧
    ((testQueue.BatchDeleteMessage (strictEnv gatewayResponse) [str "h1", str "h2"]).err =
        some (.external ⟨false, str "expected element type <Error>"⟩) ∧
      (testQueue.BatchDeleteMessage (strictEnv gatewayResponse) [str "h1", str "h2"]).val =
        []) :=
  ⟨((batch_delete_shapes (testEnv partialDeleteResponse) testQueue [str "h1", str "h2"]
      partialDeleteResponse (testEnv_answers _) (by decide) (by decide)).2.2.1 rfl rfl
      (by decide)).1 _ rfl,
    ((batch_delete_shapes (testEnv notFoundResponse) testQueue [str "h1", str "h2"]
      notFoundResponse (testEnv_answers _) (by decide) (by decide)).2.2.2.1 rfl rfl
      (by decide)).1 _ rfl,
    (batch_delete_shapes (testEnv unreadableResponse) testQueue [str "h1", str "h2"]
      unreadableResponse (testEnv_answers _) (by decide) (by decide)).2.1 rfl _ rfl,
    ((batch_delete_shapes (strictEnv gatewayResponse) testQueue [str "h1", str "h2"]
      gatewayResponse (strictEnv_answers _) (by decide) (by decide)).2.2.2.2 (by decide)
      (by decide)).2 _ rfl⟩

theorem checkSendDigests_of_forall (i : Nat) (ms : List MessageToSend)
    (rs : List BatchSendMessageResponseItem)
    (h : ∀ p ∈ List.zip ms rs, p.2.ErrorCode = [] →
      ToUpper p.2.MessageBodyMD5 = messageBodyMD5 p.1.MessageBody) :
    checkSendDigests i ms rs = none := by
  induction ms generalizing i rs with
  | nil => simp [checkSendDigests]
  | cons m ms ih =>
    cases rs with
    | nil => simp [checkSendDigests]
    | cons r rs =>
      have hrest := ih (i + 1) rs (fun p hp hc => h p (by simp [hp]) hc)
      have hhead := h (m, r) (by simp)
      simp only [checkSendDigests]
      by_cases hc : r.ErrorCode = []
      · simp [hc, hhead hc, hrest]
      · simp [hc, hrest]

/-- C13 fails as stated: `BatchSendMessage2` answered with status 500, which is not 2xx,
returns the per-message result list and no error; answered with status 200, which is
2xx, it does not decode a result list and returns an `*ApiError` with status 200. -/
theorem batch_send_status_counterexample :
    is2xx batchFailureResponse = false ∧
      (testQueue.BatchSendMessage2 (testEnv batchFailureResponse) [⟨str "hello", 0, 8⟩]
        false).2.err = none ∧
      (testQueue.BatchSendMessage2 (testEnv batchFailureResponse) [⟨str "hello", 0, 8⟩]
        false).2.val = [⟨[], [], str "id", str "5D41402ABC4B2A76B9719D911017C592"⟩] ∧
      is2xx batchOkResponse = true ∧
      (testQueue.BatchSendMessage2 (testEnv batchOkResponse) [⟨str "hello", 0, 8⟩]
        false).2.err =
        some (.apiError ⟨200, str "5D41402ABC4B2A76B9719D911017C592", str "message", str "r1",
          str "host"⟩) ∧
      (testQueue.BatchSendMessage2 (testEnv batchOkResponse) [⟨str "hello", 0, 8⟩]
        false).2.val = [] := by
  refine ⟨?_, ?_, ?_, ?_, ?_, ?_⟩ <;> decide

/-- C13 as amended: for 1 to 16 messages with a body and a response of the service,
`BatchSendMessage2` decodes the body as the per-message result list exactly for the
statuses 201 and 500: it returns the list when the body decodes, the list has one item a
message and every item without error code has the digest of its message, and the error of
the decoder when the body does not decode.  For every other status, 2xx or not, it decodes
the body as an error payload: it returns the `*ApiError` of the payload with the status
of the response when the body decodes, the error of the decoder when it does not, and no
result list in either case. -/
theorem batch_send_status (env : Env) (clt : QueueClient) (msgs : List MessageToSend)
    (b : Bool) (httpResp : HttpResponse) (hA : env.Answers httpResp)
    (h1 : 1 ≤ msgs.length) (h16 : msgs.length ≤ 16)
    (hbody : ∀ m ∈ msgs, m.MessageBody ≠ []) :
    ((httpResp.StatusCode = 201 ∨ httpResp.StatusCode = 500) →
      (∀ items, xmlDecode env.DecodeBatchSendResult httpResp = .ok items →
        items.length = msgs.length →
        (∀ p ∈ List.zip
            (msgs.map fun m => { m with MessageBody := encodeBody b m.MessageBody }) items,
          p.2.ErrorCode = [] → ToUpper p.2.MessageBodyMD5 = messageBodyMD5 p.1.MessageBody) →
        (clt.BatchSendMessage2 env msgs b).2.err = none ∧
          (clt.BatchSendMessage2 env msgs b).2.val = items) ∧
      (∀ e, xmlDecode env.DecodeBatchSendResult httpResp = .error e →
        (clt.BatchSendMessage2 env msgs b).2.err = some (.external e) ∧
          (clt.BatchSendMessage2 env msgs b).2.val = [])) ∧
    (¬ (httpResp.StatusCode = 201 ∨ httpResp.StatusCode = 500) →
      (∀ payload, xmlDecode env.DecodeApiError httpResp = .ok payload →
        (clt.BatchSendMessage2 env msgs b).2.err =
            some (.apiError (surfacedApiError httpResp payload)) ∧
          (surfacedApiError httpResp payload).HttpStatusCode = httpResp.StatusCode ∧
          (clt.BatchSendMessage2 env msgs b).2.val = []) ∧
      (∀ e, xmlDecode env.DecodeApiError httpResp = .error e →
        (clt.BatchSendMessage2 env msgs b).2.err = some (.external e) ∧
          (clt.BatchSendMessage2 env msgs b).2.val = [])) := by
  obtain ⟨host, uri, hp⟩ := hA.parse
  obtain ⟨fm, hfm⟩ := hA.marshalMessages
  have hl : ¬ (msgs = [] ∨ 16 < msgs.length) := by
    rintro (h | h)
    · rw [h] at h1; simp at h1
    · omega
  have hany : ¬ ∃ x ∈ msgs, x.MessageBody = [] := by
    rintro ⟨x, hx, he⟩
    exact hbody x hx he
  refine ⟨fun hs => ⟨?_, ?_⟩, fun hs => ⟨?_, ?_⟩⟩
  · intro items hdec hlen hdig
    have hchk := checkSendDigests_of_forall 0 _ _ hdig
    simp [QueueClient.BatchSendMessage2, hl, hany, ParseRequestURI, hp, hfm, hA.roundTrip, hs,
      hdec, hlen, hchk]
  · intro e hdec
    simp [QueueClient.BatchSendMessage2, hl, hany, ParseRequestURI, hp, hfm, hA.roundTrip, hs,
      hdec]
  · intro payload hdec
    have hd := defaultBranch_decoded env httpResp payload hdec
    simp [QueueClient.BatchSendMessage2, hl, hany, ParseRequestURI, hp, hfm, hA.roundTrip, hs,
      hd, surfacedApiError]
  · intro e hdec
    have hd := defaultBranch_undecoded env httpResp e
      (httpResp.Header.Get (str "X-Mns-Request-Id")) hdec
    simp [QueueClient.BatchSendMessage2, hl, hany, ParseRequestURI, hp, hfm, hA.roundTrip, hs,
      hd]

/-- Witness of the amended C13: status 500 gives the result list; status 200 with a body
that is no error payload gives the error of the decoder. -/
theorem batch_send_status_witness :
    ((testQueue.BatchSendMessage2 (testEnv batchFailureResponse) [⟨str "hello", 0, 8⟩]
        false).2.err = none ∧
      (testQueue.BatchSendMessage2 (testEnv batchFailureResponse) [⟨str "hello", 0, 8⟩]
        false).2.val = [⟨[], [], str "id", str "5D41402ABC4B2A76B9719D911017C592"⟩]) ∧
    ((testQueue.BatchSendMessage2 (strictEnv batchOkResponse) [⟨str "hello", 0, 8⟩]
        false).2.err = some (.external ⟨false, str "expected element type <Error>"⟩) ∧
      (testQueue.BatchSendMessage2 (strictEnv batchOkResponse) [⟨str "hello", 0, 8⟩]
        false).2.val = []) :=
  ⟨((batch_send_status (testEnv batchFailureResponse) testQueue [⟨str "hello", 0, 8⟩] false
      batchFailureResponse (testEnv_answers _) (by decide) (by decide) (by decide)).1
      (by decide)).1 _ rfl (by decide) (by decide),
    ((batch_send_status (strictEnv batchOkResponse) testQueue [⟨str "hello", 0, 8⟩] false
      batchOkResponse (strictEnv_answers _) (by decide) (by decide) (by decide)).2
      (by decide)).2 _ rfl⟩

/-! ## The operations: the headers of a signed request -/

theorem lookup_filter_ne (h : Header) (k key : Bytes) (hne : key ≠ k) :
    (h.filter fun e => e.1 != k).lookup key = h.lookup key := by
  induction h with
  | nil => rfl
  | cons e rest ih =>
    obtain ⟨ek, ev⟩ := e
    by_cases hk : ek = k
    · have hkey : (key == k) = false := beq_false_of_ne hne
      simp [List.filter_cons, hk, List.lookup_cons, hkey, ih]
    · have : (ek != k) = true := by simpa using hk
      simp only [List.filter_cons, this, if_true, List.lookup_cons, ih]

theorem lookup_filter_self (h : Header) (k : Bytes) :
    (h.filter fun e => e.1 != k).lookup k = none := by
  induction h with
  | nil => rfl
  | cons e rest ih =>
    obtain ⟨ek, ev⟩ := e
    by_cases hk : ek = k
    · simp [List.filter_cons, hk, ih]
    · have h1 : (ek != k) = true := by simpa using hk
      have h2 : (k == ek) = false := beq_false_of_ne (fun h => hk h.symm)
      simp only [List.filter_cons, h1, if_true, List.lookup_cons, h2, ih]

theorem Set_lookup_self (h : Header) (k v : Bytes) : (h.Set k v).lookup k = some [v] := by
  simp [Header.Set, List.lookup_append, lookup_filter_self, List.lookup_cons]

theorem Set_lookup_ne (h : Header) (k v key : Bytes) (hne : key ≠ k) :
    (h.Set k v).lookup key = h.lookup key := by
  have hkey : (key == k) = false := beq_false_of_ne hne
  simp only [Header.Set, List.lookup_append, lookup_filter_ne h k key hne, List.lookup_cons, hkey,
    List.lookup_nil]
  cases List.lookup key h <;> rfl

theorem bodyRequest_signed (env : Env) (httpMethod : Bytes) (_url : URL) (body id secret : Bytes) :
    SignedRequest env id secret (bodyRequest env httpMethod _url body id secret) ∧
      (bodyRequest env httpMethod _url body id secret).Body = some body := by
  refine ⟨⟨?_, ?_, ⟨bodyHeader env body _url.Host, ?_, rfl, ?_⟩, ?_, ?_⟩, rfl⟩
  · simp only [Carries, bodyRequest, authorize, bodyHeader]
    rw [Set_lookup_ne _ _ _ _ (by decide), Set_lookup_ne _ _ _ _ (by decide),
      Set_lookup_ne _ _ _ _ (by decide), Set_lookup_self]
  · simp only [Carries, bodyRequest, authorize, bodyHeader]
    rw [Set_lookup_ne _ _ _ _ (by decide), Set_lookup_self]
  · simp only [bodyHeader]
    rw [Set_lookup_ne _ _ _ _ (by decide), Set_lookup_ne _ _ _ _ (by decide),
      Set_lookup_ne _ _ _ _ (by decide), Set_lookup_ne _ _ _ _ (by decide),
      Set_lookup_ne _ _ _ _ (by decide), Set_lookup_ne _ _ _ _ (by decide)]
    rfl
  · simp only [Carries, bodyRequest, authorize, authorizationHeader]
    rw [Set_lookup_self]
  · intro b hb
    have hb2 : b = body := by
      simp only [bodyRequest, Option.some.injEq] at hb
      exact hb.symm
    subst hb2
    constructor
    · simp only [Carries, bodyRequest, authorize, bodyHeader]
      rw [Set_lookup_ne _ _ _ _ (by decide), Set_lookup_ne _ _ _ _ (by decide),
        Set_lookup_ne _ _ _ _ (by decide), Set_lookup_ne _ _ _ _ (by decide), Set_lookup_self]
    · simp only [Carries, bodyRequest, authorize, bodyHeader]
      rw [Set_lookup_ne _ _ _ _ (by decide), Set_lookup_ne _ _ _ _ (by decide),
        Set_lookup_ne _ _ _ _ (by decide), Set_lookup_ne _ _ _ _ (by decide),
        Set_lookup_ne _ _ _ _ (by decide), Set_lookup_self]
  · intro hb
    simp [bodyRequest] at hb

theorem plainRequest_signed (env : Env) (httpMethod : Bytes) (_url : URL) (id secret : Bytes) :
    SignedRequest env id secret (plainRequest env httpMethod _url id secret) ∧
      (plainRequest env httpMethod _url id secret).Body = none := by
  refine ⟨⟨?_, ?_, ⟨plainHeader env _url.Host, ?_, rfl, ?_⟩, ?_, ?_⟩, rfl⟩
  · simp only [Carries, plainRequest, authorize, plainHeader]
    rw [Set_lookup_ne _ _ _ _ (by decide), Set_lookup_ne _ _ _ _ (by decide),
      Set_lookup_ne _ _ _ _ (by decide), Set_lookup_self]
  · simp only [Carries, plainRequest, authorize, plainHeader]
    rw [Set_lookup_ne _ _ _ _ (by decide), Set_lookup_self]
  · simp only [plainHeader]
    rw [Set_lookup_ne _ _ _ _ (by decide), Set_lookup_ne _ _ _ _ (by decide),
      Set_lookup_ne _ _ _ _ (by decide)]
    rfl
  · simp only [Carries, plainRequest, authorize, authorizationHeader]
    rw [Set_lookup_self]
  · intro b hb
    simp [plainRequest] at hb
  · intro _
    constructor
    · simp only [plainRequest, authorize, plainHeader]
      rw [Set_lookup_ne _ _ _ _ (by decide), Set_lookup_ne _ _ _ _ (by decide),
        Set_lookup_ne _ _ _ _ (by decide), Set_lookup_ne _ _ _ _ (by decide)]
      rfl
    · simp only [plainRequest, authorize, plainHeader]
      rw [Set_lookup_ne _ _ _ _ (by decide), Set_lookup_ne _ _ _ _ (by decide),
        Set_lookup_ne _ _ _ _ (by decide), Set_lookup_ne _ _ _ _ (by decide)]
      rfl
theorem SendMessage2_sent (env : Env) (clt : QueueClient) (msg : Option MessageToSend) (b : Bool) :
    ∀ req ∈ (clt.SendMessage2 env msg b).2.sent,
      SignedRequest env clt.AccessKeyId clt.AccessKeySecret req ∧ ∃ body, req.Body = some body := by
  generalize hret : clt.SendMessage2 env msg b = ret
  simp only [QueueClient.SendMessage2] at hret
  repeat' split at hret
  all_goals subst hret
  all_goals intro req hreq
  all_goals first
    | (simp at hreq; done)
    | (rw [List.mem_singleton] at hreq; subst hreq
       exact ⟨(bodyRequest_signed _ _ _ _ _ _).1, _, rfl⟩)

theorem BatchSendMessage2_sent (env : Env) (clt : QueueClient) (msgs : List MessageToSend)
    (b : Bool) :
    ∀ req ∈ (clt.BatchSendMessage2 env msgs b).2.sent,
      SignedRequest env clt.AccessKeyId clt.AccessKeySecret req ∧ ∃ body, req.Body = some body := by
  generalize hret : clt.BatchSendMessage2 env msgs b = ret
  simp only [QueueClient.BatchSendMessage2] at hret
  repeat' split at hret
  all_goals subst hret
  all_goals intro req hreq
  all_goals first
    | (simp at hreq; done)
    | (rw [List.mem_singleton] at hreq; subst hreq
       exact ⟨(bodyRequest_signed _ _ _ _ _ _).1, _, rfl⟩)

theorem BatchDeleteMessage_sent (env : Env) (clt : QueueClient) (hs : List Bytes) :
    ∀ req ∈ (clt.BatchDeleteMessage env hs).sent,
      SignedRequest env clt.AccessKeyId clt.AccessKeySecret req ∧ ∃ body, req.Body = some body := by
  generalize hret : clt.BatchDeleteMessage env hs = ret
  simp only [QueueClient.BatchDeleteMessage] at hret
  repeat' split at hret
  all_goals subst hret
  all_goals intro req hreq
  all_goals first
    | (simp at hreq; done)
    | (rw [List.mem_singleton] at hreq; subst hreq
       exact ⟨(bodyRequest_signed _ _ _ _ _ _).1, _, rfl⟩)

theorem PublishMessage2_sent (env : Env) (clt : TopicClient) (msg : Option MessageToPublish)
    (b : Bool) :
    ∀ req ∈ (clt.PublishMessage2 env msg b).2.sent,
      SignedRequest env clt.AccessKeyId clt.AccessKeySecret req ∧ ∃ body, req.Body = some body := by
  generalize hret : clt.PublishMessage2 env msg b = ret
  simp only [TopicClient.PublishMessage2] at hret
  repeat' split at hret
  all_goals subst hret
  all_goals intro req hreq
  all_goals first
    | (simp at hreq; done)
    | (rw [List.mem_singleton] at hreq; subst hreq
       exact ⟨(bodyRequest_signed _ _ _ _ _ _).1, _, rfl⟩)

theorem ReceiveMessage2Context_sent (env : Env) (clt : QueueClient) (w : Int) (b : Bool)
    (ret : Ret (Option Message)) (h : clt.ReceiveMessage2Context env w b = .returned ret) :
    ∀ req ∈ ret.sent,
      SignedRequest env clt.AccessKeyId clt.AccessKeySecret req ∧ req.Body = none := by
  simp only [QueueClient.ReceiveMessage2Context] at h
  repeat' split at h
  all_goals cases h
  all_goals intro req hreq
  all_goals first
    | (simp at hreq; done)
    | (rw [List.mem_singleton] at hreq; subst hreq
       exact ⟨(plainRequest_signed _ _ _ _ _).1, rfl⟩)

theorem PeekMessage2Context_sent (env : Env) (clt : QueueClient) (b : Bool)
    (ret : Ret (Option MessageFromPeek)) (h : clt.PeekMessage2Context env b = .returned ret) :
    ∀ req ∈ ret.sent,
      SignedRequest env clt.AccessKeyId clt.AccessKeySecret req ∧ req.Body = none := by
  simp only [QueueClient.PeekMessage2Context] at h
  repeat' split at h
  all_goals cases h
  all_goals intro req hreq
  all_goals first
    | (simp at hreq; done)
    | (rw [List.mem_singleton] at hreq; subst hreq
       exact ⟨(plainRequest_signed _ _ _ _ _).1, rfl⟩)

theorem BatchReceiveMessage2Context_sent (env : Env) (clt : QueueClient) (n w : Int) (b : Bool) :
    ∀ req ∈ (clt.BatchReceiveMessage2Context env n w b).sent,
      SignedRequest env clt.AccessKeyId clt.AccessKeySecret req ∧ req.Body = none := by
  generalize hret : clt.BatchReceiveMessage2Context env n w b = ret
  simp only [QueueClient.BatchReceiveMessage2Context] at hret
  repeat' split at hret
  all_goals subst hret
  all_goals intro req hreq
  all_goals first
    | (simp at hreq; done)
    | (rw [List.mem_singleton] at hreq; subst hreq
       exact ⟨(plainRequest_signed _ _ _ _ _).1, rfl⟩)

theorem BatchPeekMessage2Context_sent (env : Env) (clt : QueueClient) (n : Int) (b : Bool) :
    ∀ req ∈ (clt.BatchPeekMessage2Context env n b).sent,
      SignedRequest env clt.AccessKeyId clt.AccessKeySecret req ∧ req.Body = none := by
  generalize hret : clt.BatchPeekMessage2Context env n b = ret
  simp only [QueueClient.BatchPeekMessage2Context] at hret
  repeat' split at hret
  all_goals subst hret
  all_goals intro req hreq
  all_goals first
    | (simp at hreq; done)
    | (rw [List.mem_singleton] at hreq; subst hreq
       exact ⟨(plainRequest_signed _ _ _ _ _).1, rfl⟩)

theorem DeleteMessage_sent (env : Env) (clt : QueueClient) (receiptHandle : Bytes) :
    ∀ req ∈ (clt.DeleteMessage env receiptHandle).sent,
      SignedRequest env clt.AccessKeyId clt.AccessKeySecret req ∧ req.Body = none := by
  generalize hret : clt.DeleteMessage env receiptHandle = ret
  simp only [QueueClient.DeleteMessage] at hret
  repeat' split at hret
  all_goals subst hret
  all_goals intro req hreq
  all_goals first
    | (simp at hreq; done)
    | (rw [List.mem_singleton] at hreq; subst hreq
       exact ⟨(plainRequest_signed _ _ _ _ _).1, rfl⟩)

theorem ChangeMessageVisibility_sent (env : Env) (clt : QueueClient) (receiptHandle : Bytes)
    (visibilityTimeout : Int) :
    ∀ req ∈ (clt.ChangeMessageVisibility env receiptHandle visibilityTimeout).sent,
      SignedRequest env clt.AccessKeyId clt.AccessKeySecret req ∧ req.Body = none := by
  generalize hret : clt.ChangeMessageVisibility env receiptHandle visibilityTimeout = ret
  simp only [QueueClient.ChangeMessageVisibility] at hret
  repeat' split at hret
  all_goals subst hret
  all_goals intro req hreq
  all_goals first
    | (simp at hreq; done)
    | (rw [List.mem_singleton] at hreq; subst hreq
       exact ⟨(plainRequest_signed _ _ _ _ _).1, rfl⟩)

/-- C12 fails as stated: the request of a delete and the request of a batch receive, which
have no body, carry no Content-Type header (and no Content-Md5); they carry Date,
X-Mns-Version and Authorization. -/
theorem content_type_counterexample :
    (testQueue.DeleteMessage (testEnv notFoundResponse) (str "handle")).sent.map
        (fun r => r.Header.lookup (str "Content-Type")) = [none] ∧
      (testQueue.DeleteMessage (testEnv notFoundResponse) (str "handle")).sent.map
        (fun r => r.Header.lookup (str "Content-Md5")) = [none] ∧
      (testQueue.DeleteMessage (testEnv notFoundResponse) (str "handle")).sent.map
        (fun r => r.Header.lookup (str "Date")) = [some [str "Thu, 17 Mar 2012 18:49:58 GMT"]] ∧
      (testQueue.DeleteMessage (testEnv notFoundResponse) (str "handle")).sent.map
        (fun r => r.Header.lookup (str "X-Mns-Version")) = [some [str "2015-06-06"]] ∧
      (testQueue.BatchReceiveMessage2Context (testEnv receiveResponse) 16 20 false).sent.map
        (fun r => r.Header.lookup (str "Content-Type")) = [none] := by
  refine ⟨?_, ?_, ?_, ?_, ?_⟩ <;> decide

/-- C12 as amended: every request that an operation hands to the HTTP client carries
Date, X-Mns-Version and the Authorization header `MNS <accessKeyId>:<signature>`, the
signature being `sign` over the header as it stands before Authorization is added and
over the request URI; the requests of send, batch send, batch delete and publish have a
body and carry Content-Md5 of the body and Content-Type; the requests of receive, batch
receive, peek, batch peek, delete and change-visibility have no body and carry neither
Content-Md5 nor Content-Type. -/
theorem signed_requests (env : Env) :
    (∀ (clt : QueueClient) (msg : Option MessageToSend) (b : Bool),
      ∀ req ∈ (clt.SendMessage2 env msg b).2.sent,
        SignedRequest env clt.AccessKeyId clt.AccessKeySecret req ∧
          ∃ body, req.Body = some body) ∧
    (∀ (clt : QueueClient) (msgs : List MessageToSend) (b : Bool),
      ∀ req ∈ (clt.BatchSendMessage2 env msgs b).2.sent,
        SignedRequest env clt.AccessKeyId clt.AccessKeySecret req ∧
          ∃ body, req.Body = some body) ∧
    (∀ (clt : QueueClient) (hs : List Bytes),
      ∀ req ∈ (clt.BatchDeleteMessage env hs).sent,
        SignedRequest env clt.AccessKeyId clt.AccessKeySecret req ∧
          ∃ body, req.Body = some body) ∧
    (∀ (clt : TopicClient) (msg : Option MessageToPublish) (b : Bool),
      ∀ req ∈ (clt.PublishMessage2 env msg b).2.sent,
        SignedRequest env clt.AccessKeyId clt.AccessKeySecret req ∧
          ∃ body, req.Body = some body) ∧
    (∀ (clt : QueueClient) (w : Int) (b : Bool) (ret : Ret (Option Message)),
      clt.ReceiveMessage2Context env w b = .returned ret →
      ∀ req ∈ ret.sent,
        SignedRequest env clt.AccessKeyId clt.AccessKeySecret req ∧ req.Body = none) ∧
    (∀ (clt : QueueClient) (n w : Int) (b : Bool),
      ∀ req ∈ (clt.BatchReceiveMessage2Context env n w b).sent,
        SignedRequest env clt.AccessKeyId clt.AccessKeySecret req ∧ req.Body = none) ∧
    (∀ (clt : QueueClient) (b : Bool) (ret : Ret (Option MessageFromPeek)),
      clt.PeekMessage2Context env b = .returned ret →
      ∀ req ∈ ret.sent,
        SignedRequest env clt.AccessKeyId clt.AccessKeySecret req ∧ req.Body = none) ∧
    (∀ (clt : QueueClient) (n : Int) (b : Bool),
      ∀ req ∈ (clt.BatchPeekMessage2Context env n b).sent,
        SignedRequest env clt.AccessKeyId clt.AccessKeySecret req ∧ req.Body = none) ∧
    (∀ (clt : QueueClient) (receiptHandle : Bytes),
      ∀ req ∈ (clt.DeleteMessage env receiptHandle).sent,
        SignedRequest env clt.AccessKeyId clt.AccessKeySecret req ∧ req.Body = none) ∧
    (∀ (clt : QueueClient) (receiptHandle : Bytes) (visibilityTimeout : Int),
      ∀ req ∈ (clt.ChangeMessageVisibility env receiptHandle visibilityTimeout).sent,
        SignedRequest env clt.AccessKeyId clt.AccessKeySecret req ∧ req.Body = none) :=
  ⟨SendMessage2_sent env, BatchSendMessage2_sent env, BatchDeleteMessage_sent env,
    PublishMessage2_sent env, ReceiveMessage2Context_sent env, BatchReceiveMessage2Context_sent env,
    PeekMessage2Context_sent env, BatchPeekMessage2Context_sent env, DeleteMessage_sent env,
    ChangeMessageVisibility_sent env⟩

/-- Witness of the amended C12: the request of a send of `hello` by the test double. -/
theorem signed_requests_witness :
    ∀ req ∈ (testQueue.SendMessage2 (testEnv sendResponse) (some ⟨str "hello", 0, 8⟩) false).2.sent,
      SignedRequest (testEnv sendResponse) testQueue.AccessKeyId testQueue.AccessKeySecret req ∧
        ∃ body, req.Body = some body :=
  (signed_requests (testEnv sendResponse)).1 testQueue (some ⟨str "hello", 0, 8⟩) false

/-! ## Verification of a notification -/

theorem rsaVerify_decoded (nenv : NotifyEnv) (data : Bytes) (key : PublicKey) (sign sig : Bytes)
    (h : StdEncoding.Decode sign = .ok sig) :
    rsaVerify nenv data key sign = (nenv.VerifyPKCS1v15 key (sha1Sum data) sig, none) := by
  unfold rsaVerify
  rw [h]
  cases hv : nenv.VerifyPKCS1v15 key (sha1Sum data) sig <;> simp [hv]

/-- C14: `rsaVerify` reports a signature that does not verify as not verified and not as
an error. When the Authorization value is base64, the result is the verdict of
`rsa.VerifyPKCS1v15` on the SHA-1 digest of the data and the decoded bytes, with a nil
error; an error is returned only when the value is not base64, and then the verdict is
false. `VerifyNotification`, once the earlier checks have passed and the key is resolved,
returns what `rsaVerify` returns for the string to sign of the request. -/
theorem rsaVerify_contract (nenv : NotifyEnv) (data : Bytes) (key : PublicKey) (sign : Bytes) :
    (∀ sig, StdEncoding.Decode sign = .ok sig →
      rsaVerify nenv data key sign = (nenv.VerifyPKCS1v15 key (sha1Sum data) sig, none)) ∧
    (∀ offset, StdEncoding.Decode sign = .error offset →
      (rsaVerify nenv data key sign).1 = false ∧ (rsaVerify nenv data key sign).2 ≠ none) ∧
    ((rsaVerify nenv data key sign).2 ≠ none →
      (rsaVerify nenv data key sign).1 = false ∧ ∃ offset, StdEncoding.Decode sign = .error offset) ∧
    (∀ (cache : Cache) (req : InboundRequest) (body certURL : Bytes) (found : KeyResult)
        (pubKey : PublicKey),
      (req.Header.Get (str "Content-Md5") = [] ∨
        req.Header.Get (str "Content-Md5") = contentMD5 body) →
      req.Header.Get (str "Authorization") ≠ [] →
      req.Header.Get (str "X-Mns-Signing-Cert-Url") ≠ [] →
      StdEncoding.Decode (req.Header.Get (str "X-Mns-Signing-Cert-Url")) = .ok certURL →
      HasPrefix certURL certURLPrefix = true →
      getRSAPublicKey nenv cache certURL = found → found.key = .ok pubKey →
      (VerifyNotification nenv cache req body).ok =
          (rsaVerify nenv (getSignStr nenv.MapToLower req) pubKey (req.Header.Get (str "Authorization"))).1 ∧
        (VerifyNotification nenv cache req body).err =
          (rsaVerify nenv (getSignStr nenv.MapToLower req) pubKey (req.Header.Get (str "Authorization"))).2) := by
  refine ⟨fun sig h => rsaVerify_decoded nenv data key sign sig h, ?_, ?_, ?_⟩
  · intro offset h
    simp [rsaVerify, h]
  · intro h
    cases hd : StdEncoding.Decode sign with
    | error offset => exact ⟨by simp [rsaVerify, hd], offset, rfl⟩
    | ok sig =>
      rw [rsaVerify_decoded nenv data key sign sig hd] at h
      exact absurd rfl h
  · intro cache req body certURL found pubKey hmd5 hauth hcert hdec hpre hget hkey
    obtain ⟨k, c2, dl⟩ := found
    simp only at hkey
    subst hkey
    have hm : ¬ (req.Header.Get (str "Content-Md5") ≠ [] ∧
        req.Header.Get (str "Content-Md5") ≠ contentMD5 body) := by
      rintro ⟨h1, h2⟩
      rcases hmd5 with h | h
      · exact h1 h
      · exact h2 h
    simp [VerifyNotification, verifyNotification, hm, hauth, hcert, hdec, hpre, hget]

/-- Witness of C14: for the test double a signature is valid when it is the digest. -/
theorem rsaVerify_contract_witness :
    rsaVerify testNotifyEnv (str "data") ⟨1, 65537⟩ (StdEncoding.Encode (sha1Sum (str "data"))) =
        (true, none) ∧
      rsaVerify testNotifyEnv (str "data") ⟨1, 65537⟩ (StdEncoding.Encode (str "other")) =
        (false, none) ∧
      ((rsaVerify testNotifyEnv (str "data") ⟨1, 65537⟩ (str "!")).1 = false ∧
        (rsaVerify testNotifyEnv (str "data") ⟨1, 65537⟩ (str "!")).2 ≠ none) :=
  ⟨(rsaVerify_contract testNotifyEnv (str "data") ⟨1, 65537⟩
      (StdEncoding.Encode (sha1Sum (str "data")))).1 (sha1Sum (str "data"))
      (Decode_Encode _ (by decide)),
    (rsaVerify_contract testNotifyEnv (str "data") ⟨1, 65537⟩
      (StdEncoding.Encode (str "other"))).1 (str "other") (Decode_Encode _ (by decide)),
    (rsaVerify_contract testNotifyEnv (str "data") ⟨1, 65537⟩ (str "!")).2.1 0 (by rfl)⟩
theorem fetchRSAPublicKey_downloads (nenv : NotifyEnv) (cache : Cache) (certURL : Bytes) :
    (fetchRSAPublicKey nenv cache certURL).downloads = [certURL] := by
  unfold fetchRSAPublicKey
  repeat' split
  all_goals rfl

theorem getRSAPublicKey_downloads (nenv : NotifyEnv) (cache : Cache) (certURL : Bytes) :
    ∀ u ∈ (getRSAPublicKey nenv cache certURL).downloads, u = certURL := by
  unfold getRSAPublicKey
  split <;> simp [fetchRSAPublicKey_downloads]

theorem verifyNotification_err_false (nenv : NotifyEnv) (cache : Cache) (req : InboundRequest)
    (body : Bytes) (flag : Bool) (h : (verifyNotification nenv cache req body flag).err ≠ none) :
    (verifyNotification nenv cache req body flag).ok = false := by
  generalize hr : verifyNotification nenv cache req body flag = r at h ⊢
  simp only [verifyNotification] at hr
  repeat' split at hr
  all_goals subst hr
  all_goals first
    | rfl
    | skip
  rename_i pubKey _ _ _
  exact ((rsaVerify_contract nenv (getSignStr nenv.MapToLower req) pubKey
    (req.Header.Get (str "Authorization"))).2.2.1 h).1

/-- C15: `VerifyNotification` returns false and an error, with the cache untouched and
nothing downloaded, when the Authorization header is missing or empty, when the header
X-Mns-Signing-Cert-Url is missing, empty or not base64, and when the decoded certificate
URL has not the allow-listed prefix; whenever it returns an error it returns false. -/
theorem verify_rejects_early (nenv : NotifyEnv) (cache : Cache) (req : InboundRequest)
    (body : Bytes) :
    (req.Header.Get (str "Authorization") = [] →
      (VerifyNotification nenv cache req body).ok = false ∧
        (VerifyNotification nenv cache req body).err ≠ none ∧
        (VerifyNotification nenv cache req body).cache = cache ∧
        (VerifyNotification nenv cache req body).downloads = []) ∧
    (req.Header.Get (str "X-Mns-Signing-Cert-Url") = [] →
      (VerifyNotification nenv cache req body).ok = false ∧
        (VerifyNotification nenv cache req body).err ≠ none ∧
        (VerifyNotification nenv cache req body).cache = cache ∧
        (VerifyNotification nenv cache req body).downloads = []) ∧
    (∀ offset, StdEncoding.Decode (req.Header.Get (str "X-Mns-Signing-Cert-Url")) = .error offset →
      (VerifyNotification nenv cache req body).ok = false ∧
        (VerifyNotification nenv cache req body).err ≠ none ∧
        (VerifyNotification nenv cache req body).cache = cache ∧
        (VerifyNotification nenv cache req body).downloads = []) ∧
    (∀ certURL, StdEncoding.Decode (req.Header.Get (str "X-Mns-Signing-Cert-Url")) = .ok certURL →
      HasPrefix certURL certURLPrefix = false →
      (VerifyNotification nenv cache req body).ok = false ∧
        (VerifyNotification nenv cache req body).err ≠ none ∧
        (VerifyNotification nenv cache req body).cache = cache ∧
        (VerifyNotification nenv cache req body).downloads = []) ∧
    ((VerifyNotification nenv cache req body).err ≠ none →
      (VerifyNotification nenv cache req body).ok = false) := by
  refine ⟨?_, ?_, ?_, ?_, verifyNotification_err_false nenv cache req body true⟩
  · intro h
    simp only [VerifyNotification, verifyNotification, h]
    split <;> simp
  · intro h
    simp only [VerifyNotification, verifyNotification, h]
    repeat' split
    all_goals simp_all
  · intro offset h
    simp only [VerifyNotification, verifyNotification, h]
    repeat' split
    all_goals simp_all
  · intro certURL h hp
    simp only [VerifyNotification, verifyNotification, h, hp]
    repeat' split
    all_goals simp_all

/-- Witness of C15: a request without any header, and a request whose certificate URL is
on another host. -/
theorem verify_rejects_early_witness :
    ((VerifyNotification testNotifyEnv [] ⟨str "POST", [], str "/notify"⟩ (str "body")).ok = false ∧
      (VerifyNotification testNotifyEnv [] ⟨str "POST", [], str "/notify"⟩ (str "body")).err ≠
        none ∧
      (VerifyNotification testNotifyEnv [] ⟨str "POST", [], str "/notify"⟩ (str "body")).cache =
        [] ∧
      (VerifyNotification testNotifyEnv [] ⟨str "POST", [], str "/notify"⟩ (str "body")).downloads =
        []) ∧
    ((VerifyNotification testNotifyEnv []
        ⟨str "POST", [(str "Authorization", [str "sig"]),
          (str "X-Mns-Signing-Cert-Url", [StdEncoding.Encode (str "http://evil.example/cert.pem")])],
          str "/notify"⟩ (str "body")).ok = false ∧
      (VerifyNotification testNotifyEnv []
        ⟨str "POST", [(str "Authorization", [str "sig"]),
          (str "X-Mns-Signing-Cert-Url", [StdEncoding.Encode (str "http://evil.example/cert.pem")])],
          str "/notify"⟩ (str "body")).err ≠ none ∧
      (VerifyNotification testNotifyEnv []
        ⟨str "POST", [(str "Authorization", [str "sig"]),
          (str "X-Mns-Signing-Cert-Url", [StdEncoding.Encode (str "http://evil.example/cert.pem")])],
          str "/notify"⟩ (str "body")).cache = [] ∧
      (VerifyNotification testNotifyEnv []
        ⟨str "POST", [(str "Authorization", [str "sig"]),
          (str "X-Mns-Signing-Cert-Url", [StdEncoding.Encode (str "http://evil.example/cert.pem")])],
          str "/notify"⟩ (str "body")).downloads = []) :=
  ⟨(verify_rejects_early testNotifyEnv [] ⟨str "POST", [], str "/notify"⟩ (str "body")).1
      (by decide),
    (verify_rejects_early testNotifyEnv []
      ⟨str "POST", [(str "Authorization", [str "sig"]),
        (str "X-Mns-Signing-Cert-Url", [StdEncoding.Encode (str "http://evil.example/cert.pem")])],
        str "/notify"⟩ (str "body")).2.2.2.1 (str "http://evil.example/cert.pem")
      (Decode_Encode _ (by decide)) (by decide)⟩

/-- C16: when the request has a Content-Md5 header that is not empty and differs from
`contentMD5` of the body, `VerifyNotification` returns false and the mismatch error,
whatever the other headers, the environment and the cache are, with the cache untouched
and nothing downloaded; when the header is absent or empty, or equals the digest, the
result is that of the remaining steps alone. -/
theorem content_md5_check (nenv : NotifyEnv) (cache : Cache) (req : InboundRequest)
    (body : Bytes) :
    (req.Header.Get (str "Content-Md5") ≠ [] →
      req.Header.Get (str "Content-Md5") ≠ contentMD5 body →
      VerifyNotification nenv cache req body =
        ⟨false, some (.errorString (str "Content-MD5 mismatch, have " ++
          req.Header.Get (str "Content-Md5") ++ str ", want " ++ contentMD5 body)), cache, []⟩) ∧
    (req.Header.Get (str "Content-Md5") = [] →
      VerifyNotification nenv cache req body = verifyNotification nenv cache req body false) ∧
    (req.Header.Get (str "Content-Md5") = contentMD5 body →
      VerifyNotification nenv cache req body = verifyNotification nenv cache req body false) := by
  refine ⟨?_, ?_, ?_⟩
  · intro h1 h2
    simp [VerifyNotification, verifyNotification, h1, h2]
  · intro h
    simp [VerifyNotification, verifyNotification, h]
  · intro h
    simp [VerifyNotification, verifyNotification, h]

/-- Witness of C16: a body under the digest of another body. -/
theorem content_md5_check_witness :
    VerifyNotification testNotifyEnv []
        ⟨str "POST", [(str "Content-Md5", [contentMD5 (str "other")])], str "/notify"⟩
        (str "body") =
      ⟨false, some (.errorString (str "Content-MD5 mismatch, have " ++
        Header.Get [(str "Content-Md5", [contentMD5 (str "other")])] (str "Content-Md5") ++
        str ", want " ++ contentMD5 (str "body"))), [], []⟩ :=
  (content_md5_check testNotifyEnv []
    ⟨str "POST", [(str "Content-Md5", [contentMD5 (str "other")])], str "/notify"⟩
    (str "body")).1 (by decide) (by decide)

/-- C17 fails as stated: the URL `http://mnstest.oss-cn-hangzhou.aliyuncs.com/cert.pem`
passes the allow-list check and does not start with `https://`; the test double verifies
a notification that names it and downloads the certificate from it. -/
theorem cert_url_counterexample :
    HasPrefix (str "http://mnstest.oss-cn-hangzhou.aliyuncs.com/cert.pem") certURLPrefix = true ∧
      HasPrefix (str "http://mnstest.oss-cn-hangzhou.aliyuncs.com/cert.pem") (str "https://") =
        false ∧
      (VerifyNotification testNotifyEnv [] testNotification []).downloads =
        [str "http://mnstest.oss-cn-hangzhou.aliyuncs.com/cert.pem"] ∧
      (VerifyNotification testNotifyEnv [] testNotification []).ok = true ∧
      (VerifyNotification testNotifyEnv [] testNotification []).err = none := by
  refine ⟨?_, ?_, ?_, ?_, ?_⟩ <;> decide

theorem HasPrefix_cons (a : Nat) (p u : Bytes) (h : HasPrefix u (a :: p) = true) :
    ∃ r, u = a :: r ∧ HasPrefix r p = true := by
  cases u with
  | nil => simp [HasPrefix] at h
  | cons b r =>
    simp only [HasPrefix, Bool.and_eq_true, beq_iff_eq] at h
    exact ⟨r, by rw [h.1], h.2⟩

/-- C17 as amended: every certificate URL that passes the allow-list check, and so every
URL that the verifier downloads, starts with
`http://mnstest.oss-cn-hangzhou.aliyuncs.com/`; it is a plain `http://` URL and never
starts with `https://`. -/
theorem cert_url_allowed (u : Bytes) (h : HasPrefix u certURLPrefix = true) :
    HasPrefix u (str "http://") = true ∧ HasPrefix u (str "https://") = false ∧
      ∀ (nenv : NotifyEnv) (cache : Cache) (req : InboundRequest) (body : Bytes) (flag : Bool),
        ∀ v ∈ (verifyNotification nenv cache req body flag).downloads,
          HasPrefix v certURLPrefix = true := by
  have hp : certURLPrefix =
      104 :: 116 :: 116 :: 112 :: 58 :: 47 :: 47 :: certURLPrefix.drop 7 := by decide
  rw [hp] at h
  obtain ⟨r1, e1, h⟩ := HasPrefix_cons _ _ _ h
  obtain ⟨r2, e2, h⟩ := HasPrefix_cons _ _ _ h
  obtain ⟨r3, e3, h⟩ := HasPrefix_cons _ _ _ h
  obtain ⟨r4, e4, h⟩ := HasPrefix_cons _ _ _ h
  obtain ⟨r5, e5, h⟩ := HasPrefix_cons _ _ _ h
  obtain ⟨r6, e6, h⟩ := HasPrefix_cons _ _ _ h
  obtain ⟨r7, e7, h⟩ := HasPrefix_cons _ _ _ h
  subst e1 e2 e3 e4 e5 e6 e7
  have s1 : str "http://" = [104, 116, 116, 112, 58, 47, 47] := by decide
  have s2 : str "https://" = [104, 116, 116, 112, 115, 58, 47, 47] := by decide
  refine ⟨by simp [s1, HasPrefix], by simp [s2, HasPrefix], ?_⟩
  intro nenv cache req body flag v hv
  generalize hr : verifyNotification nenv cache req body flag = res at hv
  simp only [verifyNotification] at hr
  repeat' split at hr
  all_goals subst hr
  all_goals first
    | (simp at hv; done)
    | skip
  all_goals
    rename_i hpre _ _ _ _ hget
    have hmem := getRSAPublicKey_downloads nenv cache _ v (by rw [hget]; exact hv)
    rw [hmem]
    simpa using hpre

/-- Witness of the amended C17. -/
theorem cert_url_allowed_witness :
    HasPrefix (str "http://mnstest.oss-cn-hangzhou.aliyuncs.com/cert.pem") (str "http://") = true ∧
      HasPrefix (str "http://mnstest.oss-cn-hangzhou.aliyuncs.com/cert.pem") (str "https://") =
        false :=
  ⟨(cert_url_allowed (str "http://mnstest.oss-cn-hangzhou.aliyuncs.com/cert.pem") (by decide)).1,
    (cert_url_allowed (str "http://mnstest.oss-cn-hangzhou.aliyuncs.com/cert.pem") (by decide)).2.1⟩

/-! ## The consumer engine -/

theorem init_inv : Engine.init.Inv := by
  constructor <;> simp [Engine.init, pending]

theorem step_inv {c : Consumer} {s t : Engine} {l : Label} (h : step c s l = some t)
    (hi : s.Inv) : t.Inv := by
  obtain ⟨h0, h1, h2, h3, h4, h5, h6, h7⟩ := hi
  cases l
  all_goals simp only [step] at h
  all_goals (repeat' split at h)
  all_goals first | (simp at h; done) | skip
  all_goals (simp only [Option.some.injEq] at h; subst h)
  all_goals (constructor <;> simp_all [pending, Wait])
theorem run_inv {c : Consumer} (ls : List Label) {s t : Engine} (h : run c s ls = some t)
    (hi : s.Inv) : t.Inv := by
  induction ls generalizing s with
  | nil => simp only [run, Option.some.injEq] at h; exact h ▸ hi
  | cons l ls ih =>
    simp only [run] at h
    cases hs : step c s l with
    | none => simp [hs] at h
    | some u => rw [hs] at h; exact ih h (step_inv hs hi)

theorem run_append (c : Consumer) (s : Engine) (ls ms : List Label) :
    run c s (ls ++ ms) = (run c s ls).bind fun t => run c t ms := by
  induction ls generalizing s with
  | nil => simp [run]
  | cons l ls ih =>
    simp only [List.cons_append, run]
    cases step c s l with
    | none => simp
    | some u => simpa using ih u

theorem releasesLast_tail {op : HandlerOp} {ops : List HandlerOp}
    (h : releasesLast (op :: ops) = true) : releasesLast ops = true := by
  cases ops with
  | nil => rfl
  | cons a as => simp only [releasesLast, Bool.and_eq_true] at h; exact h.2

theorem releasesLast_release {ops : List HandlerOp}
    (h : releasesLast (.release :: ops) = true) : ops = [] := by
  cases ops with
  | nil => rfl
  | cons a as => simp [releasesLast] at h

theorem countP_set {α : Type} (p : α → Bool) (l : List α) (k : Nat) (x y : α)
    (h : l[k]? = some x) :
    (l.set k y).countP p + (if p x then 1 else 0) = l.countP p + (if p y then 1 else 0) := by
  induction l generalizing k with
  | nil => simp at h
  | cons a l ih =>
    cases k with
    | zero =>
      simp only [List.getElem?_cons_zero, Option.some.injEq] at h
      subst h
      simp only [List.set_cons_zero, List.countP_cons]
      omega
    | succ k =>
      simp only [List.getElem?_cons_succ] at h
      have := ih k h
      simp only [List.set_cons_succ, List.countP_cons]
      omega

theorem executing_work {s : Engine} {k : Nat} {op : HandlerOp} {ops : List HandlerOp}
    (h : s.handlers[k]? = some (op :: ops)) :
    (s.handlers.set k ops).countP (fun ops => !ops.isEmpty) ≤
        s.handlers.countP (fun ops => !ops.isEmpty) ∧
    (ops = [] → (s.handlers.set k ops).countP (fun ops => !ops.isEmpty) + 1 =
        s.handlers.countP (fun ops => !ops.isEmpty)) := by
  have := countP_set (fun ops => !ops.isEmpty) s.handlers k (op :: ops) ops h
  simp only [List.isEmpty_cons, Bool.not_false, if_true] at this
  constructor
  · split at this <;> omega
  · intro he; subst he; simp at this; omega

theorem scripts_set {s : Engine} {k : Nat} {op : HandlerOp} {ops : List HandlerOp}
    (h : s.handlers[k]? = some (op :: ops))
    (hs : ∀ ops ∈ s.handlers, releasesLast ops = true) :
    ∀ a ∈ s.handlers.set k ops, releasesLast a = true := by
  intro a ha
  rcases List.mem_or_eq_of_mem_set ha with ha | ha
  · exact hs a ha
  · subst ha
    exact releasesLast_tail (hs _ (List.getElem?_mem h))
theorem step_bounded {c : Consumer} (hd : ∀ m, releasesLast (c.hanlder m) = true)
    {s t : Engine} {l : Label} (h : step c s l = some t) (hb : s.Bounded c) :
    t.Bounded c := by
  obtain ⟨h1, h2, h3⟩ := hb
  cases l
  case handler k =>
    simp only [step] at h
    split at h
    · next ops hk =>
      simp only [Option.some.injEq] at h; subst h
      have := (executing_work hk).1
      exact ⟨by simp only [held, pending, executing] at h1 ⊢; omega, h2,
        scripts_set hk h3⟩
    · next ops hk =>
      split at h
      · simp only [Option.some.injEq] at h; subst h
        have he := releasesLast_release (h3 _ (List.getElem?_mem hk))
        have := (executing_work hk).2 he
        exact ⟨by simp only [held, pending, executing] at h1 ⊢; omega,
          by simp only; omega, scripts_set hk h3⟩
      · simp at h
    · simp at h
  case acquire k =>
    simp only [step] at h
    split at h
    · next msg rest hpc =>
      have h1 : (pending s).length + executing s ≤ s.LimitChan := by
        simpa [held, hpc] using h1
      split at h
      · split at h
        · simp only [Option.some.injEq] at h; subst h
          refine ⟨?_, by simp only; omega, h3⟩
          simp only [held, pending, executing] at h1 ⊢
          omega
        · simp at h
      · split at h
        · split at h
          · next ops hk =>
            simp only [Option.some.injEq] at h; subst h
            have he := releasesLast_release (h3 _ (List.getElem?_mem hk))
            have := (executing_work hk).2 he
            refine ⟨?_, h2, scripts_set hk h3⟩
            simp only [held, pending, executing] at h1 ⊢
            omega
          · simp at h
        · simp at h
    · simp at h
  case launch =>
    simp only [step] at h
    split at h
    · next msg hw =>
      simp only [Option.some.injEq] at h; subst h
      refine ⟨?_, h2, ?_⟩
      · have hle : [c.hanlder msg].countP (fun ops => !ops.isEmpty) ≤ 1 :=
          List.countP_le_length _
        simp only [held, pending, executing, hw, List.countP_append, List.length_append,
          List.length_singleton, List.length_nil] at h1 ⊢
        split at h1 <;> omega
      · intro ops hops
        rcases List.mem_append.mp hops with hops | hops
        · exact h3 ops hops
        · simp only [List.mem_singleton] at hops; subst hops; exact hd msg
    · simp at h
  all_goals simp only [step] at h
  all_goals (repeat' split at h)
  all_goals first | (simp at h; done) | skip
  all_goals (simp only [Option.some.injEq] at h; subst h)
  all_goals (refine ⟨?_, h2, h3⟩)
  all_goals simp_all [held, pending, executing]
  all_goals omega
theorem reachable_inv {c : Consumer} {s : Engine} (h : Reachable c s) : s.Inv := by
  obtain ⟨ls, hls⟩ := h
  exact run_inv ls hls init_inv

theorem run_bounded {c : Consumer} (hd : ∀ m, releasesLast (c.hanlder m) = true)
    (ls : List Label) {s t : Engine} (h : run c s ls = some t) (hb : s.Bounded c) :
    t.Bounded c := by
  induction ls generalizing s with
  | nil => simp only [run, Option.some.injEq] at h; exact h ▸ hb
  | cons l ls ih =>
    simp only [run] at h
    cases hs : step c s l with
    | none => simp [hs] at h
    | some u => rw [hs] at h; exact ih h (step_bounded hd hs hb)

theorem init_bounded (c : Consumer) : Engine.init.Bounded c := by
  constructor <;> simp [Engine.init, held, pending, executing]

/-- Once the tomb is dead no move launches a handler or sends on the buffer. -/
theorem step_dead {c : Consumer} {s t : Engine} {l : Label} (h : step c s l = some t)
    (hi : s.Inv) (hd : s.dead = true) :
    t.dead = true ∧ t.launched = s.launched ∧ t.placed = s.placed ∧
      t.handlers.length = s.handlers.length := by
  obtain ⟨_, hp, hw⟩ := hi.dead hd
  cases l
  all_goals simp only [step] at h
  all_goals (repeat' split at h)
  all_goals first | (simp at h; done) | skip
  all_goals (simp only [Option.some.injEq] at h; subst h)
  all_goals simp_all

theorem run_dead {c : Consumer} (ls : List Label) {s t : Engine} (h : run c s ls = some t)
    (hi : s.Inv) (hd : s.dead = true) :
    t.launched = s.launched ∧ t.placed = s.placed ∧
      t.handlers.length = s.handlers.length := by
  induction ls generalizing s with
  | nil => simp only [run, Option.some.injEq] at h; subst h; exact ⟨rfl, rfl, rfl⟩
  | cons l ls ih =>
    simp only [run] at h
    cases hs : step c s l with
    | none => simp [hs] at h
    | some u =>
      rw [hs] at h
      obtain ⟨h1, h2, h3, h4⟩ := step_dead hs hi hd
      obtain ⟨k2, k3, k4⟩ := ih h (step_inv hs hi) h1
      exact ⟨k2.trans h2, k3.trans h3, k4.trans h4⟩

/-- A move appends to the history of the buffer, and nothing once `serve` has exited,
which it never leaves. -/
theorem step_placed {c : Consumer} {s t : Engine} {l : Label} (h : step c s l = some t)
    (hi : s.Inv) :
    ∃ later, t.placed = s.placed ++ later ∧
      (s.servePc = .exited → later = [] ∧ t.servePc = .exited) := by
  have h0 := hi.idle
  cases l
  case enqueue =>
    simp only [step] at h
    repeat' split at h
    all_goals first | (simp at h; done) | skip
    all_goals (simp only [Option.some.injEq] at h; subst h)
    all_goals exact ⟨[_], rfl, by simp_all⟩
  all_goals simp only [step] at h
  all_goals (repeat' split at h)
  all_goals first | (simp at h; done) | skip
  all_goals (simp only [Option.some.injEq] at h; subst h)
  all_goals exact ⟨[], by simp, by simp_all⟩

theorem run_placed {c : Consumer} (ls : List Label) {s t : Engine} (h : run c s ls = some t)
    (hi : s.Inv) :
    ∃ later, t.placed = s.placed ++ later ∧
      (s.servePc = .exited → later = [] ∧ t.servePc = .exited) := by
  induction ls generalizing s with
  | nil => simp only [run, Option.some.injEq] at h; subst h; exact ⟨[], by simp, by simp⟩
  | cons l ls ih =>
    simp only [run] at h
    cases hs : step c s l with
    | none => simp [hs] at h
    | some u =>
      rw [hs] at h
      obtain ⟨a, ha, ha2⟩ := step_placed hs hi
      obtain ⟨b, hb, hb2⟩ := ih h (step_inv hs hi)
      refine ⟨a ++ b, by rw [hb, ha, List.append_assoc], fun hx => ?_⟩
      obtain ⟨e1, e2⟩ := ha2 hx
      obtain ⟨e3, e4⟩ := hb2 e2
      exact ⟨by simp [e1, e3], e4⟩
/-- C18, as stated for every handler, fails: with a limit of one, a handler that receives
from `LimitChan` before it works lets a second handler be launched while it is still
executing, so two handlers execute in a reachable state. -/
theorem executing_counterexample :
    ¬ ∀ (c : Consumer) (s : Engine), Reachable c s → executing s ≤ c.limitSize := by
  intro h
  have := h (testConsumer earlyRelease 1) overrun ⟨overrunTrace, by decide⟩
  revert this
  decide

/-- C18 (amended): for every handler that receives from `LimitChan` at most once and as
its last statement (as `ProcessMessage` does), in every reachable state of the engine
the number of executing handlers is at most `limitSize`. -/
theorem executing_bounded (c : Consumer) (hd : ∀ m, releasesLast (c.hanlder m) = true)
    (s : Engine) (h : Reachable c s) : executing s ≤ c.limitSize := by
  obtain ⟨ls, hls⟩ := h
  obtain ⟨h1, h2, _⟩ := run_bounded hd ls hls (init_bounded c)
  omega

/-- Witness of `executing_bounded`: `ProcessMessage` under a limit of one, with one
handler executing. -/
theorem executing_bounded_witness :
    (∀ m, releasesLast ((testConsumer ProcessMessage 1).hanlder m) = true) ∧
      Reachable (testConsumer ProcessMessage 1) busy ∧ executing busy = 1 ∧
      executing busy ≤ (testConsumer ProcessMessage 1).limitSize :=
  ⟨fun _ => rfl, ⟨busyTrace, by decide⟩, by decide,
    executing_bounded (testConsumer ProcessMessage 1) (fun _ => rfl) busy
      ⟨busyTrace, by decide⟩⟩

/-- C19: in every reachable state in which `Stop` has returned, `Start` was called, both
loops have exited, the buffer is closed and empty, the messages for which a handler was
launched are exactly the messages ever sent on the buffer (one handler goroutine each),
and no further move of the engine launches a handler or sends on the buffer. -/
theorem stop_complete (c : Consumer) (s : Engine) (h : Reachable c s)
    (hs : s.stopped = true) :
    s.started = true ∧ s.servePc = .exited ∧ s.workerPc = .exited ∧
      s.queClosed = true ∧ s.queMsgChan = [] ∧
      s.launched = s.placed ∧ s.handlers.length = s.placed.length ∧
      ∀ ls t, run c s ls = some t →
        t.launched = s.launched ∧ t.handlers.length = s.handlers.length ∧
          t.placed = s.placed := by
  have hi := reachable_inv h
  have hd := hi.stopped hs
  obtain ⟨h1, h2, h3⟩ := hi.dead hd
  obtain ⟨h4, h5⟩ := hi.worker h3
  have h6 : s.launched = s.placed := by
    have := hi.fifo
    simp only [pending, h3, h5, List.append_nil] at this
    exact this.symm
  refine ⟨h1, h2, h3, h4, h5, h6, by rw [← h6]; exact hi.spawned, fun ls t ht => ?_⟩
  obtain ⟨k1, k2, k3⟩ := run_dead ls ht hi hd
  exact ⟨k1, k3, k2⟩

/-- Witness of `stop_complete`: a batch of two is received, `Stop` is called part-way
through it and returns after both messages have been handed to handlers. -/
theorem stop_complete_witness :
    Reachable (testConsumer ProcessMessage 2) drained ∧ drained.stopped = true ∧
      drained.launched = [testMsg "a", testMsg "b"] ∧
      (drained.started = true ∧ drained.servePc = .exited ∧ drained.workerPc = .exited ∧
        drained.queClosed = true ∧ drained.queMsgChan = [] ∧
        drained.launched = drained.placed ∧
        drained.handlers.length = drained.placed.length ∧
        ∀ ls t, run (testConsumer ProcessMessage 2) drained ls = some t →
          t.launched = drained.launched ∧ t.handlers.length = drained.handlers.length ∧
            t.placed = drained.placed) :=
  ⟨⟨midBatchTrace ++ .kill :: drainTrace, by decide⟩, by decide, by decide,
    stop_complete (testConsumer ProcessMessage 2) drained
      ⟨midBatchTrace ++ .kill :: drainTrace, by decide⟩ (by decide)⟩

/-- C20, as stated, fails: when `Stop` is called while `serve` is part-way through a
batch of two, one message is pending; `serve` still sends the second message on the
buffer and a handler is launched for it too. -/
theorem stop_request_counterexample :
    ¬ ∀ (c : Consumer) (s t : Engine) (ls : List Label), Reachable c s →
        run c s (.kill :: ls) = some t →
        t.placed = s.placed ∧ ∃ rest, s.launched ++ pending s = t.launched ++ rest := by
  intro h
  have := h (testConsumer ProcessMessage 2) midBatch drained drainTrace
    ⟨midBatchTrace, by decide⟩ (by decide)
  exact absurd this.1 (by decide)

/-- C20 (amended): when `Stop` is called in a reachable state, every later state has
launched, or still has pending, exactly the messages launched or pending at the call
followed by the messages `serve` has sent on the buffer since; when the dispatch loop
has exited all of them have been launched, in that order.  If `serve` had exited at the
call nothing is sent since, and once `serve` has exited nothing is sent any more. -/
theorem stop_request_drains (c : Consumer) (s t : Engine) (ls : List Label)
    (h : Reachable c s) (ht : run c s (.kill :: ls) = some t) :
    ∃ later, t.placed = s.placed ++ later ∧
      t.launched ++ pending t = s.launched ++ pending s ++ later ∧
      (t.workerPc = .exited → t.launched = s.launched ++ pending s ++ later) ∧
      (s.servePc = .exited → later = []) ∧
      (t.servePc = .exited → ∀ ms u, run c t ms = some u → u.placed = t.placed) := by
  have hi := reachable_inv h
  have hti := run_inv _ ht hi
  obtain ⟨later, hp, hx⟩ := run_placed _ ht hi
  have hf : t.launched ++ pending t = s.launched ++ pending s ++ later := by
    rw [← hti.fifo, hp, hi.fifo]
  refine ⟨later, hp, hf, fun hw => ?_, fun he => (hx he).1, fun he ms u hu => ?_⟩
  · obtain ⟨_, hq⟩ := hti.worker hw
    have : pending t = [] := by simp [pending, hw, hq]
    rw [this, List.append_nil] at hf
    exact hf
  · obtain ⟨more, hm, hy⟩ := run_placed ms hu hti
    rw [hm, (hy he).1, List.append_nil]

/-- Witness of `stop_request_drains`: the stop is requested with one message pending and
one still to be sent; when `Stop` has returned both have been launched. -/
theorem stop_request_drains_witness :
    Reachable (testConsumer ProcessMessage 2) midBatch ∧
      run (testConsumer ProcessMessage 2) midBatch (.kill :: drainTrace) = some drained ∧
      pending midBatch = [testMsg "a"] ∧ drained.launched = [testMsg "a", testMsg "b"] ∧
      ∃ later, drained.placed = midBatch.placed ++ later ∧
        drained.launched ++ pending drained =
          midBatch.launched ++ pending midBatch ++ later ∧
        (drained.workerPc = .exited →
          drained.launched = midBatch.launched ++ pending midBatch ++ later) ∧
        (midBatch.servePc = .exited → later = []) ∧
        (drained.servePc = .exited → ∀ ms u,
          run (testConsumer ProcessMessage 2) drained ms = some u →
            u.placed = drained.placed) :=
  ⟨⟨midBatchTrace, by decide⟩, by decide, by decide, by decide,
    stop_request_drains (testConsumer ProcessMessage 2) midBatch drained drainTrace
      ⟨midBatchTrace, by decide⟩ (by decide)⟩

/-! ## `Delete` -/

theorem deleteLoop_spec (n : Int) (att : Nat → Bytes → Option Err) (rh : Bytes)
    (fuel i : Nat) (calls : List ClientCall) (err : Option Err)
    (hfuel : (i : Int) + fuel = n) (hpos : 0 < fuel) :
    ∃ k : Nat, i < k ∧ (k : Int) ≤ n ∧
      (deleteLoop n att rh fuel i calls err).1 =
        calls ++ List.replicate (k - i) (ClientCall.DeleteMessage rh) ∧
      (∀ j, i ≤ j → j + 1 < k → ∃ e, att j rh = some e ∧ timeoutErr e = true) ∧
      ((k : Int) = n ∨ att (k - 1) rh = none ∨
        ∃ e, att (k - 1) rh = some e ∧ timeoutErr e = false) ∧
      (deleteLoop n att rh fuel i calls err).2 = att (k - 1) rh := by
  induction fuel generalizing i calls err with
  | zero => omega
  | succ fuel ih =>
    have hlt : (i : Int) < n := by omega
    simp only [deleteLoop, hlt, if_true]
    cases hatt : att i rh with
    | none =>
      refine ⟨i + 1, by omega, by omega, by simp, fun j h1 h2 => by omega,
        Or.inr (Or.inl (by simpa using hatt)), by simpa using hatt.symm⟩
    | some e =>
      by_cases ht : timeoutErr e = true
      · simp only [ht, if_true]
        rcases Nat.eq_zero_or_pos fuel with h0 | h0
        · subst h0
          refine ⟨i + 1, by omega, by omega, by simp [deleteLoop], fun j h1 h2 => by omega,
            Or.inl (by push_cast; omega), by simpa [deleteLoop] using hatt.symm⟩
        · obtain ⟨k, h1, h2, h3, h4, h5, h6⟩ :=
            ih (i + 1) (calls ++ [ClientCall.DeleteMessage rh]) (some e) (by push_cast; omega) h0
          refine ⟨k, by omega, h2, ?_, fun j hj1 hj2 => ?_, h5, h6⟩
          · rw [h3, List.append_assoc]
            congr 1
            have : k - i = (k - (i + 1)) + 1 := by omega
            rw [this, List.replicate_succ]
            rfl
          · rcases Nat.eq_or_lt_of_le hj1 with hj | hj
            · subst hj; exact ⟨e, hatt, ht⟩
            · exact h4 j hj hj2
      · simp only [ht]
        refine ⟨i + 1, by omega, by omega, by simp, fun j h1 h2 => by omega,
          Or.inr (Or.inr ⟨e, by simpa using hatt, by simpa using ht⟩),
          by simpa using hatt.symm⟩

/-- C21: for a ceiling of at least 1 and any outcomes of the delete calls, the calls of the
client that `Delete` makes are `k` calls of `DeleteMessage` with the receipt handle of the
message, where `1 ≤ k ≤ timeoutMaxRetry`, every call before the last returned a timeout,
and the last call is the ceiling-th one, a success or an error that is no timeout; its
`err` is the outcome of the last call; when that outcome is nil it logs its first line
only, and when it is an error it logs a second line with what `xml.Marshal` returns for
the message (nothing when the marshalling fails). -/
theorem delete_retries (c : Consumer) (hn : 1 ≤ c.timeoutMaxRetry)
    (DeleteMessage : Nat → Bytes → Option Err) (Marshal : Message → Except ExtErr Bytes)
    (msg : Message) :
    ∃ k : Nat, 1 ≤ k ∧ (k : Int) ≤ c.timeoutMaxRetry ∧
      (c.Delete DeleteMessage Marshal msg).calls =
        List.replicate k (.DeleteMessage msg.ReceiptHandle) ∧
      (∀ j, j + 1 < k →
        ∃ e, DeleteMessage j msg.ReceiptHandle = some e ∧ timeoutErr e = true) ∧
      ((k : Int) = c.timeoutMaxRetry ∨ DeleteMessage (k - 1) msg.ReceiptHandle = none ∨
        ∃ e, DeleteMessage (k - 1) msg.ReceiptHandle = some e ∧ timeoutErr e = false) ∧
      (c.Delete DeleteMessage Marshal msg).err = DeleteMessage (k - 1) msg.ReceiptHandle ∧
      (DeleteMessage (k - 1) msg.ReceiptHandle = none →
        (c.Delete DeleteMessage Marshal msg).logged =
          [[str "method", str "mns.Delete", str "msgID", msg.MessageId]]) ∧
      (DeleteMessage (k - 1) msg.ReceiptHandle ≠ none →
        (∀ b, Marshal msg = .ok b →
          (c.Delete DeleteMessage Marshal msg).logged =
            [[str "method", str "mns.Delete", str "msgID", msg.MessageId],
             [str "msgstr", b]]) ∧
        (∀ e, Marshal msg = .error e →
          (c.Delete DeleteMessage Marshal msg).logged =
            [[str "method", str "mns.Delete", str "msgID", msg.MessageId],
             [str "msgstr", []]])) := by
  obtain ⟨k, h1, h2, h3, h4, h5, h6⟩ := deleteLoop_spec c.timeoutMaxRetry DeleteMessage
    msg.ReceiptHandle c.timeoutMaxRetry.toNat 0 [] none (by omega) (by omega)
  generalize hr : deleteLoop c.timeoutMaxRetry DeleteMessage msg.ReceiptHandle
    c.timeoutMaxRetry.toNat 0 [] none = r at h3 h6
  simp only [List.nil_append, Nat.sub_zero] at h3
  have hcalls : (c.Delete DeleteMessage Marshal msg).calls = r.1 := by
    simp only [Consumer.Delete, hr]
    repeat' split
    all_goals rfl
  have herr : (c.Delete DeleteMessage Marshal msg).err = r.2 := by
    simp only [Consumer.Delete, hr]
    repeat' split
    all_goals rfl
  refine ⟨k, by omega, h2, hcalls.trans h3, fun j hj => h4 j (Nat.zero_le j) hj, h5,
    herr.trans h6, fun hnone => ?_, fun hsome => ⟨fun b hb => ?_, fun e he => ?_⟩⟩
  · have : r.2 = none := h6.trans hnone
    simp [Consumer.Delete, hr, this]
  · have : r.2 ≠ none := fun h => hsome (h6.symm.trans h)
    simp [Consumer.Delete, hr, this, hb]
  · have : r.2 ≠ none := fun h => hsome (h6.symm.trans h)
    simp [Consumer.Delete, hr, this, he]

/-- Witness of `delete_retries`: under the default ceiling of 5, two timeouts and a
not-found answer make three calls, the error is the not-found answer, and the second log
line carries the marshalled message. -/
theorem delete_retries_witness :
    1 ≤ (testConsumer ProcessMessage 1).timeoutMaxRetry ∧
      ((testConsumer ProcessMessage 1).Delete testDeletes testMarshal (testMsg "a")).calls =
        [.DeleteMessage (str "handle"), .DeleteMessage (str "handle"),
          .DeleteMessage (str "handle")] ∧
      ((testConsumer ProcessMessage 1).Delete testDeletes testMarshal (testMsg "a")).err =
        some testNotExist ∧
      ((testConsumer ProcessMessage 1).Delete testDeletes testMarshal (testMsg "a")).logged =
        [[str "method", str "mns.Delete", str "msgID", str "id"],
         [str "msgstr", str "<Message><MessageBody>a</MessageBody></Message>"]] ∧
      ((testConsumer ProcessMessage 1).Delete (fun _ _ => none) testMarshal
        (testMsg "a")).logged = [[str "method", str "mns.Delete", str "msgID", str "id"]] ∧
      ∃ k : Nat, 1 ≤ k ∧ (k : Int) ≤ (testConsumer ProcessMessage 1).timeoutMaxRetry ∧
        ((testConsumer ProcessMessage 1).Delete testDeletes testMarshal (testMsg "a")).calls =
          List.replicate k (.DeleteMessage (testMsg "a").ReceiptHandle) ∧
        (∀ j, j + 1 < k →
          ∃ e, testDeletes j (testMsg "a").ReceiptHandle = some e ∧ timeoutErr e = true) ∧
        ((k : Int) = (testConsumer ProcessMessage 1).timeoutMaxRetry ∨
          testDeletes (k - 1) (testMsg "a").ReceiptHandle = none ∨
          ∃ e, testDeletes (k - 1) (testMsg "a").ReceiptHandle = some e ∧
            timeoutErr e = false) ∧
        ((testConsumer ProcessMessage 1).Delete testDeletes testMarshal (testMsg "a")).err =
          testDeletes (k - 1) (testMsg "a").ReceiptHandle ∧
        (testDeletes (k - 1) (testMsg "a").ReceiptHandle = none →
          ((testConsumer ProcessMessage 1).Delete testDeletes testMarshal
            (testMsg "a")).logged =
            [[str "method", str "mns.Delete", str "msgID", (testMsg "a").MessageId]]) ∧
        (testDeletes (k - 1) (testMsg "a").ReceiptHandle ≠ none →
          (∀ b, testMarshal (testMsg "a") = .ok b →
            ((testConsumer ProcessMessage 1).Delete testDeletes testMarshal
              (testMsg "a")).logged =
              [[str "method", str "mns.Delete", str "msgID", (testMsg "a").MessageId],
               [str "msgstr", b]]) ∧
          (∀ e, testMarshal (testMsg "a") = .error e →
            ((testConsumer ProcessMessage 1).Delete testDeletes testMarshal
              (testMsg "a")).logged =
              [[str "method", str "mns.Delete", str "msgID", (testMsg "a").MessageId],
               [str "msgstr", []]])) :=
  ⟨by decide, by decide, by decide, by decide, by decide,
    delete_retries (testConsumer ProcessMessage 1) (by decide) testDeletes testMarshal
      (testMsg "a")⟩

/-! ## The operations: the polling wait -/

theorem ParseRequestURI_raw {env : Env} {rawurl : Bytes} {u : URL}
    (h : ParseRequestURI env rawurl = .ok u) : u.Raw = rawurl := by
  unfold ParseRequestURI at h
  split at h
  · simp at h
  · simp only [Except.ok.injEq] at h; subst h; rfl

theorem ReceiveMessage2Context_rawurl (env : Env) (clt : QueueClient) (w : Int) (b : Bool)
    (ret : Ret (Option Message)) (h : clt.ReceiveMessage2Context env w b = .returned ret) :
    ∀ u ∈ rawURLs ret,
      u = if clampWaitSeconds w > 0 then
          clt.QueueURL ++ str "/messages" ++ str "?waitseconds=" ++ Itoa (clampWaitSeconds w)
        else clt.QueueURL ++ str "/messages" := by
  intro u hu
  simp only [QueueClient.ReceiveMessage2Context] at h
  repeat' split at h
  all_goals cases h
  all_goals first | (simp [rawURLs] at hu; done) | skip
  all_goals
    (simp only [rawURLs, List.map_cons, List.map_nil, List.mem_singleton, plainRequest] at hu
     subst hu
     have hr := ParseRequestURI_raw (by assumption)
     rw [hr])

theorem BatchReceiveMessage2Context_rawurl (env : Env) (clt : QueueClient) (n w : Int)
    (b : Bool) :
    ∀ u ∈ rawURLs (clt.BatchReceiveMessage2Context env n w b),
      u = if clampWaitSeconds w > 0 then
          clt.QueueURL ++ str "/messages?numOfMessages=" ++ Itoa (clampNumOfMessages n) ++
            str "&waitseconds=" ++ Itoa (clampWaitSeconds w)
        else clt.QueueURL ++ str "/messages?numOfMessages=" ++ Itoa (clampNumOfMessages n) := by
  intro u hu
  generalize hret : clt.BatchReceiveMessage2Context env n w b = ret at hu
  simp only [QueueClient.BatchReceiveMessage2Context] at hret
  repeat' split at hret
  all_goals subst hret
  all_goals first | (simp [rawURLs] at hu; done) | skip
  all_goals
    (simp only [rawURLs, List.map_cons, List.map_nil, List.mem_singleton, plainRequest] at hu
     subst hu
     have hr := ParseRequestURI_raw (by assumption)
     rw [hr])
theorem clampWaitSeconds_neg {w : Int} (h : w < 0) : clampWaitSeconds w = 30 := by
  simp [clampWaitSeconds, h]

theorem clampWaitSeconds_range {w : Int} (h0 : 0 ≤ w) (h1 : w ≤ 30) :
    clampWaitSeconds w = w := by
  unfold clampWaitSeconds
  rw [if_neg]
  omega

/-- C22, the code at the failing input `waitSeconds = -1`: the clamp at the head of
`ReceiveMessage2Context` and `BatchReceiveMessage2Context` turns a negative wait into
30, so the request carries `waitseconds=30` where the documentation promises the default
of the queue; for 0 there is no such parameter and for 7 it is `waitseconds=7`. -/
theorem wait_seconds_negative :
    (match testQueue.ReceiveMessage2Context (testEnv receiveResponse) (-1) false with
      | .returned ret => rawURLs ret
      | .panicked _ => []) = [str "http://mns.example/queues/q/messages?waitseconds=30"] ∧
    rawURLs (testQueue.BatchReceiveMessage2Context (testEnv receiveResponse) 16 (-1) false) =
      [str "http://mns.example/queues/q/messages?numOfMessages=16&waitseconds=30"] ∧
    (match testQueue.ReceiveMessage2Context (testEnv receiveResponse) 0 false with
      | .returned ret => rawURLs ret
      | .panicked _ => []) = [str "http://mns.example/queues/q/messages"] ∧
    rawURLs (testQueue.BatchReceiveMessage2Context (testEnv receiveResponse) 16 0 false) =
      [str "http://mns.example/queues/q/messages?numOfMessages=16"] ∧
    (match testQueue.ReceiveMessage2Context (testEnv receiveResponse) 7 false with
      | .returned ret => rawURLs ret
      | .panicked _ => []) = [str "http://mns.example/queues/q/messages?waitseconds=7"] ∧
    rawURLs (testQueue.BatchReceiveMessage2Context (testEnv receiveResponse) 16 7 false) =
      [str "http://mns.example/queues/q/messages?numOfMessages=16&waitseconds=7"] := by
  refine ⟨?_, ?_, ?_, ?_, ?_, ?_⟩ <;> decide

/-! ## The poll cycle -/

theorem pollCycle_spec (c : Consumer) (Receive : Nat → List Message × Option Err)
    (fuel k : Nat) (s : Engine) (hpc : s.servePc = .retry) (hi : s.i = k)
    (hf : (k : Int) + fuel = c.timeoutMaxRetry + 1) (hk : (k : Int) ≤ c.timeoutMaxRetry)
    (hprev : 0 < k → s.msgs = (Receive (k - 1)).1 ∧ s.err = (Receive (k - 1)).2) :
    (pollCycle c Receive fuel k s).2.servePc = .check ∧
    k ≤ (pollCycle c Receive fuel k s).1 ∧
    ((pollCycle c Receive fuel k s).1 : Int) ≤ c.timeoutMaxRetry ∧
    ((k : Int) < c.timeoutMaxRetry → k < (pollCycle c Receive fuel k s).1) ∧
    (∀ j, k ≤ j → j + 1 < (pollCycle c Receive fuel k s).1 →
      ∃ e, (Receive j).2 = some e ∧ transient e = true) ∧
    (((pollCycle c Receive fuel k s).1 : Int) = c.timeoutMaxRetry ∨
      (Receive ((pollCycle c Receive fuel k s).1 - 1)).2 = none ∨
      ∃ e, (Receive ((pollCycle c Receive fuel k s).1 - 1)).2 = some e ∧
        transient e = false) ∧
    (0 < (pollCycle c Receive fuel k s).1 →
      (pollCycle c Receive fuel k s).2.msgs =
        (Receive ((pollCycle c Receive fuel k s).1 - 1)).1 ∧
      (pollCycle c Receive fuel k s).2.err =
        (Receive ((pollCycle c Receive fuel k s).1 - 1)).2) ∧
    (pollCycle c Receive fuel k s).2 =
      { s with servePc := .check, msgs := (pollCycle c Receive fuel k s).2.msgs,
               err := (pollCycle c Receive fuel k s).2.err,
               i := (pollCycle c Receive fuel k s).2.i } := by
  induction fuel generalizing k s with
  | zero => omega
  | succ fuel ih =>
    by_cases hlt : (k : Int) < c.timeoutMaxRetry
    · have hlt2 : s.i < c.timeoutMaxRetry := by rw [hi]; exact hlt
      cases he : (Receive k).2 with
      | none =>
        have hstep : step c s (.receive (Receive k).1 (Receive k).2) =
            some { s with msgs := (Receive k).1, err := none, servePc := .check } := by
          simp [step, hpc, hlt2, he]
        simp only [pollCycle, hstep]
        refine ⟨rfl, by simp, by simp; omega, fun _ => by simp, fun j h1 h2 => ?_,
          Or.inr (Or.inl (by simpa using he)), fun _ => ⟨by simp, by simpa using he.symm⟩, rfl⟩
        simp at h2; omega
      | some e =>
        by_cases ht : transient e = true
        · have ht2 : (timeoutErr e || mnsMsgNotFound e) = true := ht
          have hstep : step c s (.receive (Receive k).1 (Receive k).2) =
              some { s with msgs := (Receive k).1, err := some e, i := s.i + 1 } := by
            simp only [step, hpc, hlt2, he, ht2, and_self, if_true]
          rw [pollCycle, hstep]
          dsimp only
          rw [if_pos hpc]
          obtain ⟨h1, h2, h3, h4, h5, h6, h7, h8⟩ :=
            ih (k + 1) { s with msgs := (Receive k).1, err := some e, i := s.i + 1 } hpc
              (by simp [hi]) (by push_cast; omega) (by push_cast; omega)
              (fun _ => ⟨by simp, by simpa using he.symm⟩)
          refine ⟨h1, by omega, h3, fun _ => by omega, fun j hj1 hj2 => ?_, h6, h7, h8⟩
          rcases Nat.eq_or_lt_of_le hj1 with hj | hj
          · subst hj; exact ⟨e, he, ht⟩
          · exact h5 j hj hj2
        · have ht2 : (timeoutErr e || mnsMsgNotFound e) = false := by
            simpa [transient] using ht
          have hstep : step c s (.receive (Receive k).1 (Receive k).2) =
              some { s with msgs := (Receive k).1, err := some e, servePc := .check } := by
            simp [step, hpc, hlt2, he, ht2]
          simp only [pollCycle, hstep]
          refine ⟨rfl, by simp, by simp; omega, fun _ => by simp, fun j h1 h2 => ?_,
            Or.inr (Or.inr ⟨e, by simpa using he, by simpa using ht⟩),
            fun _ => ⟨by simp, by simpa using he.symm⟩, rfl⟩
          simp at h2; omega
    · have hlt2 : ¬ s.i < c.timeoutMaxRetry := by rw [hi]; exact hlt
      have hstep : step c s (.receive (Receive k).1 (Receive k).2) = none := by
        simp [step, hlt2]
      have hleave : step c s .leave = some { s with servePc := .check } := by
        simp [step, hpc, hlt2]
      rw [pollCycle, hstep]
      dsimp only
      rw [hleave]
      dsimp only
      exact ⟨rfl, le_refl k, hk, fun h => absurd h hlt, fun j h1 h2 => by omega,
        Or.inl (by omega), hprev, rfl⟩
theorem transient_iff (e : Err) :
    transient e = true ↔
      (∃ x, e = .external x ∧ x.Timeout = true) ∨
      (∃ a, e = .apiError a ∧ a.HttpStatusCode = 404 ∧ a.Code = str "MessageNotExist") := by
  cases e <;> simp [transient, timeoutErr, mnsMsgNotFound]

/-- C23: for a ceiling of at least 1 and any outcomes of the receive calls, the retry
loop of a poll cycle makes `k` calls with `1 ≤ k ≤ timeoutMaxRetry` and leaves `serve`
after the loop with the outcome of the last call in `msgs` and `err`; every call before
the last returned a transient error, and the last call is the ceiling-th one, a success,
or an error that is not transient.  An error is transient exactly when it is a network
error whose `Timeout()` is true or an `*ApiError` with status 404 and code
`MessageNotExist`. -/
theorem poll_cycle_attempts (c : Consumer) (hn : 1 ≤ c.timeoutMaxRetry)
    (Receive : Nat → List Message × Option Err) (s : Engine) (hpc : s.servePc = .retry)
    (hi : s.i = 0) :
    ∃ k t, pollCycle c Receive (c.timeoutMaxRetry.toNat + 1) 0 s = (k, t) ∧
      t = { s with servePc := .check, msgs := (Receive (k - 1)).1,
                   err := (Receive (k - 1)).2, i := t.i } ∧
      1 ≤ k ∧ (k : Int) ≤ c.timeoutMaxRetry ∧
      (∀ j, j + 1 < k → ∃ e, (Receive j).2 = some e ∧ transient e = true) ∧
      ((k : Int) = c.timeoutMaxRetry ∨ (Receive (k - 1)).2 = none ∨
        ∃ e, (Receive (k - 1)).2 = some e ∧ transient e = false) ∧
      ∀ e, transient e = true ↔
        (∃ x, e = .external x ∧ x.Timeout = true) ∨
        (∃ a, e = .apiError a ∧ a.HttpStatusCode = 404 ∧ a.Code = str "MessageNotExist") := by
  obtain ⟨_, _, h3, h4, h5, h6, h7, h8⟩ :=
    pollCycle_spec c Receive (c.timeoutMaxRetry.toNat + 1) 0 s hpc (by simpa using hi)
      (by push_cast; omega) (by push_cast; omega) (fun h => absurd h (by omega))
  generalize pollCycle c Receive (c.timeoutMaxRetry.toNat + 1) 0 s = r at h3 h4 h5 h6 h7 h8
  have hk : 0 < r.1 := h4 (by push_cast; omega)
  obtain ⟨hm, he⟩ := h7 hk
  refine ⟨r.1, r.2, rfl, ?_, hk, h3, fun j hj => h5 j (Nat.zero_le j) hj, h6, transient_iff⟩
  rw [← hm, ← he]
  exact h8

/-- Witness of `poll_cycle_attempts`: under the default ceiling of 5, two timeouts and a
refused connection make three calls. -/
theorem poll_cycle_attempts_witness :
    1 ≤ (testConsumer ProcessMessage 1).timeoutMaxRetry ∧ polling.servePc = .retry ∧
      polling.i = 0 ∧
      (pollCycle (testConsumer ProcessMessage 1) testReceives
        ((testConsumer ProcessMessage 1).timeoutMaxRetry.toNat + 1) 0 polling).1 = 3 ∧
      ∃ k t, pollCycle (testConsumer ProcessMessage 1) testReceives
          ((testConsumer ProcessMessage 1).timeoutMaxRetry.toNat + 1) 0 polling = (k, t) ∧
        t = { polling with servePc := .check, msgs := (testReceives (k - 1)).1,
                           err := (testReceives (k - 1)).2, i := t.i } ∧
        1 ≤ k ∧ (k : Int) ≤ (testConsumer ProcessMessage 1).timeoutMaxRetry ∧
        (∀ j, j + 1 < k → ∃ e, (testReceives j).2 = some e ∧ transient e = true) ∧
        ((k : Int) = (testConsumer ProcessMessage 1).timeoutMaxRetry ∨
          (testReceives (k - 1)).2 = none ∨
          ∃ e, (testReceives (k - 1)).2 = some e ∧ transient e = false) ∧
        ∀ e, transient e = true ↔
          (∃ x, e = .external x ∧ x.Timeout = true) ∨
          (∃ a, e = .apiError a ∧ a.HttpStatusCode = 404 ∧
            a.Code = str "MessageNotExist") :=
  ⟨by decide, by decide, by decide, by decide,
    poll_cycle_attempts (testConsumer ProcessMessage 1) (by decide) testReceives polling
      (by decide) (by decide)⟩

/-! ## After the receive attempts -/

theorem step_unsent {c : Consumer} {s t : Engine} {l : Label} (h : step c s l = some t)
    (hi : s.Inv) (hl : l ≠ .branch) : t.placed ++ unsent t = s.placed ++ unsent s := by
  have h0 := hi.idle
  cases l
  case branch => exact absurd rfl hl
  all_goals simp only [step] at h
  all_goals (repeat' split at h)
  all_goals first | (simp at h; done) | skip
  all_goals (simp only [Option.some.injEq] at h; subst h)
  all_goals simp_all [unsent]

theorem run_unsent {c : Consumer} (ls : List Label) {s t : Engine} (h : run c s ls = some t)
    (hi : s.Inv) (hl : Label.branch ∉ ls) : t.placed ++ unsent t = s.placed ++ unsent s := by
  induction ls generalizing s with
  | nil => simp only [run, Option.some.injEq] at h; subst h; rfl
  | cons l ls ih =>
    simp only [run] at h
    cases hs : step c s l with
    | none => simp [hs] at h
    | some u =>
      rw [hs] at h
      rw [ih h (step_inv hs hi) (fun hm => hl (List.mem_cons_of_mem _ hm))]
      exact step_unsent hs hi (fun he => hl (he ▸ List.mem_cons_self _ _))

theorem step_send {c : Consumer} {s t : Engine} {l : Label} {msg : Message}
    {rest : List Message} (h : step c s l = some t) (ht : t.servePc = .send msg rest)
    (hs : s.servePc ≠ .send msg rest) :
    s.servePc = .range (msg :: rest) ∧
      ((l = .acquire none ∧ s.LimitChan < c.limitSize ∧ t.LimitChan = s.LimitChan + 1) ∨
        ∃ k ops, l = .acquire (some k) ∧ s.LimitChan = 0 ∧
          s.handlers[k]? = some (.release :: ops)) := by
  cases l
  all_goals simp only [step] at h
  all_goals (repeat' split at h)
  all_goals first | (simp at h; done) | skip
  all_goals (simp only [Option.some.injEq] at h; subst h)
  all_goals simp_all

theorem step_enqueue {c : Consumer} {s t : Engine} (h : step c s .enqueue = some t) :
    ∃ msg rest, s.servePc = .send msg rest ∧ t.servePc = .range rest ∧
      t.placed = s.placed ++ [msg] := by
  simp only [step] at h
  repeat' split at h
  all_goals first | (simp at h; done) | skip
  all_goals (simp only [Option.some.injEq] at h; subst h)
  all_goals exact ⟨_, _, by assumption, rfl, rfl⟩
/-- C24: when `serve` has left the retry loop, its next move depends on `err` and on the
cancellation only: (a) an error and a canceled context lead to `DONE`, where `serveDone`
is closed and `serve` returns; (b) the not-found error without cancellation starts the
next cycle at once; (c) any other error without cancellation leads into the sleep, and
the next cycle starts after it; (d) without an error `serve` ranges over `msgs`: as long
as it does not pass this point again the messages sent on the buffer since, followed by
the unsent ones, are `msgs` in their order, a message is sent only by a move that
follows the send on `LimitChan` made for it, and the exhausted range starts the next
cycle. -/
theorem after_receive (c : Consumer) (s : Engine) (h : Reachable c s)
    (hpc : s.servePc = .check) :
    (∀ e, s.err = some e → s.canceled = true →
      step c s .branch = some { s with servePc := .done } ∧
      step c { s with servePc := .done } .finish =
        some { s with serveDone := true, canceled := true, servePc := .exited }) ∧
    (∀ e, s.err = some e → s.canceled = false → mnsMsgNotFound e = true →
      step c s .branch = some { s with servePc := .retry, i := 0 }) ∧
    (∀ e, s.err = some e → s.canceled = false → mnsMsgNotFound e = false →
      step c s .branch = some { s with servePc := .sleep } ∧
      step c { s with servePc := .sleep } .wake = some { s with servePc := .retry, i := 0 }) ∧
    (s.err = none →
      step c s .branch = some { s with servePc := .range s.msgs } ∧
      (∀ ls t, run c { s with servePc := .range s.msgs } ls = some t → Label.branch ∉ ls →
        t.placed ++ unsent t = s.placed ++ s.msgs) ∧
      (∀ u t l msg rest, step c u l = some t → t.servePc = .send msg rest →
        u.servePc ≠ .send msg rest →
        u.servePc = .range (msg :: rest) ∧
          ((l = .acquire none ∧ u.LimitChan < c.limitSize ∧
              t.LimitChan = u.LimitChan + 1) ∨
            ∃ k ops, l = .acquire (some k) ∧ u.LimitChan = 0 ∧
              u.handlers[k]? = some (.release :: ops))) ∧
      (∀ u t, step c u .enqueue = some t →
        ∃ msg rest, u.servePc = .send msg rest ∧ t.servePc = .range rest ∧
          t.placed = u.placed ++ [msg]) ∧
      ∀ u, u.servePc = .range [] →
        step c u .next = some { u with servePc := .retry, i := 0 }) := by
  refine ⟨fun e he hc => ?_, fun e he hc hn => ?_, fun e he hc hn => ?_, fun he => ?_⟩
  · exact ⟨by simp [step, hpc, he, hc], by simp [step]⟩
  · simp [step, hpc, he, hc, hn]
  · exact ⟨by simp [step, hpc, he, hc, hn], by simp [step]⟩
  · have hb : step c s .branch = some { s with servePc := .range s.msgs } := by
      simp [step, hpc, he]
    refine ⟨hb, fun ls t ht hl => ?_, fun u t l msg rest hs ht hu => step_send hs ht hu,
      fun u t hs => step_enqueue hs, fun u hu => by simp [step, hu]⟩
    have := run_unsent ls ht (step_inv hb (reachable_inv h)) hl
    simpa [unsent] using this

/-- Witness of `after_receive`: after a receive that returned a batch of two. -/
theorem after_receive_witness :
    Reachable (testConsumer ProcessMessage 2) received ∧ received.servePc = .check ∧
      received.err = none ∧ received.msgs = [testMsg "a", testMsg "b"] ∧
      ((∀ e, received.err = some e → received.canceled = true →
        step (testConsumer ProcessMessage 2) received .branch =
          some { received with servePc := .done } ∧
        step (testConsumer ProcessMessage 2) { received with servePc := .done } .finish =
          some { received with serveDone := true, canceled := true, servePc := .exited }) ∧
      (∀ e, received.err = some e → received.canceled = false → mnsMsgNotFound e = true →
        step (testConsumer ProcessMessage 2) received .branch =
          some { received with servePc := .retry, i := 0 }) ∧
      (∀ e, received.err = some e → received.canceled = false → mnsMsgNotFound e = false →
        step (testConsumer ProcessMessage 2) received .branch =
          some { received with servePc := .sleep } ∧
        step (testConsumer ProcessMessage 2) { received with servePc := .sleep } .wake =
          some { received with servePc := .retry, i := 0 }) ∧
      (received.err = none →
        step (testConsumer ProcessMessage 2) received .branch =
          some { received with servePc := .range received.msgs } ∧
        (∀ ls t, run (testConsumer ProcessMessage 2)
            { received with servePc := .range received.msgs } ls = some t →
          Label.branch ∉ ls → t.placed ++ unsent t = received.placed ++ received.msgs) ∧
        (∀ u t l msg rest, step (testConsumer ProcessMessage 2) u l = some t →
          t.servePc = .send msg rest → u.servePc ≠ .send msg rest →
          u.servePc = .range (msg :: rest) ∧
            ((l = .acquire none ∧ u.LimitChan < (testConsumer ProcessMessage 2).limitSize ∧
                t.LimitChan = u.LimitChan + 1) ∨
              ∃ k ops, l = .acquire (some k) ∧ u.LimitChan = 0 ∧
                u.handlers[k]? = some (.release :: ops))) ∧
        (∀ u t, step (testConsumer ProcessMessage 2) u .enqueue = some t →
          ∃ msg rest, u.servePc = .send msg rest ∧ t.servePc = .range rest ∧
            t.placed = u.placed ++ [msg]) ∧
        ∀ u, u.servePc = .range [] →
          step (testConsumer ProcessMessage 2) u .next =
            some { u with servePc := .retry, i := 0 })) :=
  ⟨⟨[.start, .receive [testMsg "a", testMsg "b"] none], by decide⟩, by decide, by decide,
    by decide,
    after_receive (testConsumer ProcessMessage 2) received
      ⟨[.start, .receive [testMsg "a", testMsg "b"] none], by decide⟩ (by decide)⟩

/-! ## The retry ceiling and the exit of `serve` -/

theorem init_spinning : Engine.init.Spinning := by
  constructor <;> simp [Engine.init]

theorem step_spinning {c : Consumer} (hn : c.timeoutMaxRetry ≤ 0) {s t : Engine} {l : Label}
    (h : step c s l = some t) (hz : s.Spinning) : t.Spinning := by
  obtain ⟨h1, h2, h3, h4, h5, h6, h7, h8, h9⟩ := hz
  cases l
  case receive msgs err =>
    simp only [step] at h
    split at h
    · next hg => rw [h1] at hg; omega
    · simp at h
  all_goals simp only [step] at h
  all_goals (repeat' split at h)
  all_goals first | (simp at h; done) | skip
  all_goals (simp only [Option.some.injEq] at h; subst h)
  all_goals (constructor <;> simp_all [Wait])

theorem run_spinning {c : Consumer} (hn : c.timeoutMaxRetry ≤ 0) (ls : List Label)
    {s t : Engine} (h : run c s ls = some t) (hz : s.Spinning) : t.Spinning := by
  induction ls generalizing s with
  | nil => simp only [run, Option.some.injEq] at h; exact h ▸ hz
  | cons l ls ih =>
    simp only [run] at h
    cases hs : step c s l with
    | none => simp [hs] at h
    | some u => rw [hs] at h; exact ih h (step_spinning hn hs hz)
/-- C27: with a retry ceiling that is not positive, in every reachable state no receive
call can be made, `err` is nil and `msgs` is empty, `serve` is neither at `DONE` nor
returned, `serveDone` is open, the dispatch loop has not exited, the tomb is not dead
and `Stop` has not returned.  With a ceiling of at least 1, a cycle that starts with the
context canceled and whose receive calls all fail ends with an error, takes the exit
branch and closes `serveDone`. -/
theorem retry_ceiling_exit (c : Consumer) :
    (c.timeoutMaxRetry ≤ 0 → ∀ s, Reachable c s →
      (∀ msgs err, step c s (.receive msgs err) = none) ∧ s.err = none ∧ s.msgs = [] ∧
      s.servePc ≠ .done ∧ s.servePc ≠ .exited ∧ s.serveDone = false ∧
      s.workerPc ≠ .exited ∧ s.dead = false ∧ s.stopped = false) ∧
    (1 ≤ c.timeoutMaxRetry → ∀ (Receive : Nat → List Message × Option Err) (s : Engine),
      s.servePc = .retry → s.i = 0 → s.canceled = true → (∀ k, (Receive k).2 ≠ none) →
      ∃ k t, pollCycle c Receive (c.timeoutMaxRetry.toNat + 1) 0 s = (k, t) ∧
        t.err ≠ none ∧
        step c t .branch = some { t with servePc := .done } ∧
        step c { t with servePc := .done } .finish =
          some { t with serveDone := true, canceled := true, servePc := .exited }) := by
  refine ⟨fun hn s h => ?_, fun hn Receive s hpc hi hc hr => ?_⟩
  · obtain ⟨ls, hls⟩ := h
    obtain ⟨h1, h2, h3, h4, h5, h6, h7, h8, h9⟩ := run_spinning hn ls hls init_spinning
    refine ⟨fun msgs err => ?_, h2, h3, ?_, ?_, h5, h7, h8, h9⟩
    · have : ¬ s.i < c.timeoutMaxRetry := by rw [h1]; omega
      simp [step, this]
    · rcases h4 with h | h | h | h <;> simp [h]
    · rcases h4 with h | h | h | h <;> simp [h]
  · obtain ⟨k1, _, _, k4, _, _, k7, k8⟩ :=
      pollCycle_spec c Receive (c.timeoutMaxRetry.toNat + 1) 0 s hpc (by simpa using hi)
        (by push_cast; omega) (by push_cast; omega) (fun h => absurd h (by omega))
    generalize pollCycle c Receive (c.timeoutMaxRetry.toNat + 1) 0 s = r at k1 k4 k7 k8
    have hk : 0 < r.1 := k4 (by push_cast; omega)
    have he : r.2.err ≠ none := by rw [(k7 hk).2]; exact hr _
    have hcan : r.2.canceled = true := by rw [k8]; exact hc
    refine ⟨r.1, r.2, rfl, he, ?_, by simp [step]⟩
    cases hx : r.2.err with
    | none => exact absurd hx he
    | some e => simp [step, k1, hx, hcan]

/-- Witness of `retry_ceiling_exit`: a consumer made with `WithTimeoutRetry(0)` after a
stop request, the cancellation and two cycles; and the default ceiling of 5 with a
canceled context. -/
theorem retry_ceiling_exit_witness :
    (zeroRetry.timeoutMaxRetry ≤ 0 ∧ Reachable zeroRetry spinning ∧
      spinning.canceled = true ∧
      (∀ msgs err, step zeroRetry spinning (.receive msgs err) = none) ∧
      spinning.err = none ∧ spinning.msgs = [] ∧
      spinning.servePc ≠ .done ∧ spinning.servePc ≠ .exited ∧ spinning.serveDone = false ∧
      spinning.workerPc ≠ .exited ∧ spinning.dead = false ∧ spinning.stopped = false) ∧
    (1 ≤ (testConsumer ProcessMessage 1).timeoutMaxRetry ∧
      ∃ k t, pollCycle (testConsumer ProcessMessage 1) canceledReceives
          ((testConsumer ProcessMessage 1).timeoutMaxRetry.toNat + 1) 0
          { polling with canceled := true } = (k, t) ∧
        t.err ≠ none ∧
        step (testConsumer ProcessMessage 1) t .branch = some { t with servePc := .done } ∧
        step (testConsumer ProcessMessage 1) { t with servePc := .done } .finish =
          some { t with serveDone := true, canceled := true, servePc := .exited }) :=
  ⟨⟨by decide, ⟨spinTrace, by decide⟩, by decide,
      (retry_ceiling_exit zeroRetry).1 (by decide) spinning ⟨spinTrace, by decide⟩⟩,
    by decide,
    (retry_ceiling_exit (testConsumer ProcessMessage 1)).2 (by decide) canceledReceives
      { polling with canceled := true } rfl rfl rfl (fun _ => by simp [canceledReceives])⟩

/-! ## The certificate cache -/

theorem cache_lookup_filter_ne (c : Cache) (k key : Bytes) (hne : key ≠ k) :
    (c.filter fun e => e.1 != k).lookup key = c.lookup key := by
  induction c with
  | nil => rfl
  | cons e rest ih =>
    obtain ⟨ek, ev⟩ := e
    by_cases hk : ek = k
    · have hkey : (key == k) = false := beq_false_of_ne hne
      simp [List.filter_cons, hk, List.lookup_cons, hkey, ih]
    · have : (ek != k) = true := by simpa using hk
      simp only [List.filter_cons, this, if_true, List.lookup_cons, ih]

theorem cache_lookup_front (c : Cache) (key u : Bytes) (v : CacheValue)
    (h : c.lookup key = some v) :
    ((key, v) :: c.filter fun e => e.1 != key).lookup u = c.lookup u := by
  by_cases hu : u = key
  · subst hu; simp [List.lookup_cons, h]
  · have : (u == key) = false := beq_false_of_ne hu
    simp only [List.lookup_cons, this]
    exact cache_lookup_filter_ne c key u hu

theorem cache_lookup_take (c : Cache) (n : Nat) (u : Bytes) (v : CacheValue)
    (h : (c.take n).lookup u = some v) : c.lookup u = some v := by
  induction c generalizing n with
  | nil => simp at h
  | cons e rest ih =>
    cases n with
    | zero => simp at h
    | succ n =>
      obtain ⟨ek, ev⟩ := e
      simp only [List.take_succ_cons, List.lookup_cons] at h ⊢
      split at h
      · exact h
      · exact ih n h

theorem Set_lookup_key (c : Cache) (key : Bytes) (v : CacheValue) :
    (c.Set key v).lookup key = some v := by
  simp [Cache.Set, List.lookup_cons]

theorem Set_lookup_some (c : Cache) (key u : Bytes) (v w : CacheValue)
    (h : (c.Set key v).lookup u = some w) : (u = key ∧ w = v) ∨ c.lookup u = some w := by
  have h2 := cache_lookup_take _ _ _ _ h
  by_cases hu : u = key
  · subst hu
    simp only [List.lookup_cons, beq_self_eq_true, Option.some.injEq] at h2
    exact Or.inl ⟨rfl, h2.symm⟩
  · have : (u == key) = false := beq_false_of_ne hu
    simp only [List.lookup_cons, this] at h2
    rw [cache_lookup_filter_ne c key u hu] at h2
    exact Or.inr h2

theorem fetchRSAPublicKey_key (nenv : NotifyEnv) (cache : Cache) (certURL : Bytes) :
    (fetchRSAPublicKey nenv cache certURL).key = uncachedKey nenv certURL := by
  unfold fetchRSAPublicKey uncachedKey
  repeat' split
  all_goals simp_all

theorem fetchRSAPublicKey_cache (nenv : NotifyEnv) (cache : Cache) (certURL : Bytes) :
    (∀ k, uncachedKey nenv certURL = .ok k →
      (fetchRSAPublicKey nenv cache certURL).cache = cache.Set certURL (.key k)) ∧
    (∀ e, uncachedKey nenv certURL = .error e →
      (fetchRSAPublicKey nenv cache certURL).cache = cache) := by
  unfold fetchRSAPublicKey uncachedKey
  repeat' split
  all_goals simp_all
theorem getRSAPublicKey_hit (nenv : NotifyEnv) (cache : Cache) (certURL : Bytes)
    (k : PublicKey) (h : cache.lookup certURL = some (.key k)) :
    getRSAPublicKey nenv cache certURL =
      ⟨.ok k, (certURL, .key k) :: cache.filter (fun e => e.1 != certURL), []⟩ := by
  simp [getRSAPublicKey, Cache.Get, h]

theorem getRSAPublicKey_miss (nenv : NotifyEnv) (cache : Cache) (certURL : Bytes)
    (h : cache.lookup certURL = none) :
    getRSAPublicKey nenv cache certURL = fetchRSAPublicKey nenv cache certURL := by
  simp [getRSAPublicKey, Cache.Get, h]

theorem getRSAPublicKey_other (nenv : NotifyEnv) (cache : Cache) (certURL : Bytes)
    (h : cache.lookup certURL = some .other) :
    getRSAPublicKey nenv cache certURL =
      fetchRSAPublicKey nenv ((certURL, .other) :: cache.filter (fun e => e.1 != certURL))
        certURL := by
  simp [getRSAPublicKey, Cache.Get, h]

theorem Sound_front (nenv : NotifyEnv) (c : Cache) (key : Bytes) (v : CacheValue)
    (h : c.lookup key = some v) (hs : c.Sound nenv) :
    Cache.Sound nenv ((key, v) :: c.filter fun e => e.1 != key) := by
  intro u k hu
  rw [cache_lookup_front c key u v h] at hu
  exact hs u k hu

theorem Sound_fetch (nenv : NotifyEnv) (c : Cache) (url : Bytes) (hs : c.Sound nenv) :
    (fetchRSAPublicKey nenv c url).cache.Sound nenv := by
  cases hk : uncachedKey nenv url with
  | error e => rw [(fetchRSAPublicKey_cache nenv c url).2 e hk]; exact hs
  | ok k =>
    rw [(fetchRSAPublicKey_cache nenv c url).1 k hk]
    intro u k2 hu
    rcases Set_lookup_some c url u _ _ hu with ⟨h1, h2⟩ | h
    · subst h1
      simp only [CacheValue.key.injEq] at h2
      rw [h2]; exact hk
    · exact hs u k2 h

theorem Sound_getRSAPublicKey (nenv : NotifyEnv) (c : Cache) (url : Bytes)
    (hs : c.Sound nenv) : (getRSAPublicKey nenv c url).cache.Sound nenv := by
  cases h : c.lookup url with
  | none => rw [getRSAPublicKey_miss nenv c url h]; exact Sound_fetch nenv c url hs
  | some v =>
    cases v with
    | key k => rw [getRSAPublicKey_hit nenv c url k h]; exact Sound_front nenv c url _ h hs
    | other =>
      rw [getRSAPublicKey_other nenv c url h]
      exact Sound_fetch nenv _ url (Sound_front nenv c url _ h hs)

theorem Sound_foldl (nenv : NotifyEnv) (urls : List Bytes) (c : Cache) (hs : c.Sound nenv) :
    (urls.foldl (fun cache url => (getRSAPublicKey nenv cache url).cache) c).Sound nenv := by
  induction urls generalizing c with
  | nil => exact hs
  | cons u us ih => exact ih _ (Sound_getRSAPublicKey nenv c u hs)

theorem getRSAPublicKey_sound (nenv : NotifyEnv) (c : Cache) (url : Bytes)
    (hs : c.Sound nenv) : (getRSAPublicKey nenv c url).key = uncachedKey nenv url := by
  cases h : c.lookup url with
  | none => rw [getRSAPublicKey_miss nenv c url h]; exact fetchRSAPublicKey_key nenv c url
  | some v =>
    cases v with
    | key k => rw [getRSAPublicKey_hit nenv c url k h]; exact (hs url k h).symm
    | other => rw [getRSAPublicKey_other nenv c url h]; exact fetchRSAPublicKey_key nenv _ url

/-- C25: `getRSAPublicKey` returns a cached RSA key without a download; on a miss, or on
a cached value of another type, it returns what the uncached computation
`parse(download(url))` returns after one download of the URL, stores a key it got under
the URL, and on a failure leaves every entry of the cache as it was.  From a cache whose
entries were all stored by `getRSAPublicKey` the result is that of the uncached
computation. -/
theorem cache_is_performance_only (nenv : NotifyEnv) (cache : Cache) (url : Bytes) :
    (∀ k, cache.lookup url = some (.key k) →
      (getRSAPublicKey nenv cache url).key = .ok k ∧
      (getRSAPublicKey nenv cache url).downloads = []) ∧
    (cache.lookup url = none ∨ cache.lookup url = some .other →
      (getRSAPublicKey nenv cache url).key = uncachedKey nenv url ∧
      (getRSAPublicKey nenv cache url).downloads = [url] ∧
      (∀ k, uncachedKey nenv url = .ok k →
        (getRSAPublicKey nenv cache url).cache.lookup url = some (.key k)) ∧
      (∀ e, uncachedKey nenv url = .error e →
        ∀ u, (getRSAPublicKey nenv cache url).cache.lookup u = cache.lookup u)) ∧
    (∀ urls, (getRSAPublicKey nenv (cacheAfter nenv urls) url).key = uncachedKey nenv url) := by
  refine ⟨fun k h => ?_, fun h => ?_, fun urls => ?_⟩
  · rw [getRSAPublicKey_hit nenv cache url k h]; exact ⟨rfl, rfl⟩
  · rcases h with h | h
    · rw [getRSAPublicKey_miss nenv cache url h]
      refine ⟨fetchRSAPublicKey_key _ _ _, fetchRSAPublicKey_downloads _ _ _,
        fun k hk => ?_, fun e he u => ?_⟩
      · rw [(fetchRSAPublicKey_cache nenv cache url).1 k hk]; exact Set_lookup_key _ _ _
      · rw [(fetchRSAPublicKey_cache nenv cache url).2 e he]
    · rw [getRSAPublicKey_other nenv cache url h]
      refine ⟨fetchRSAPublicKey_key _ _ _, fetchRSAPublicKey_downloads _ _ _,
        fun k hk => ?_, fun e he u => ?_⟩
      · rw [(fetchRSAPublicKey_cache nenv _ url).1 k hk]; exact Set_lookup_key _ _ _
      · rw [(fetchRSAPublicKey_cache nenv _ url).2 e he]
        exact cache_lookup_front cache url u _ h
  · exact getRSAPublicKey_sound nenv _ url
      (Sound_foldl nenv urls [] (fun u k hu => by simp at hu))

/-- Witness of `cache_is_performance_only`: the first call for a URL downloads it, the
second finds the key in the cache. -/
theorem cache_is_performance_only_witness :
    (cacheAfter testNotifyEnv [str "http://mnstest.oss-cn-hangzhou.aliyuncs.com/c"]).lookup
        (str "http://mnstest.oss-cn-hangzhou.aliyuncs.com/c") = some (.key ⟨45, 65537⟩) ∧
      ((getRSAPublicKey testNotifyEnv
          (cacheAfter testNotifyEnv [str "http://mnstest.oss-cn-hangzhou.aliyuncs.com/c"])
          (str "http://mnstest.oss-cn-hangzhou.aliyuncs.com/c")).key = .ok ⟨45, 65537⟩ ∧
        (getRSAPublicKey testNotifyEnv
          (cacheAfter testNotifyEnv [str "http://mnstest.oss-cn-hangzhou.aliyuncs.com/c"])
          (str "http://mnstest.oss-cn-hangzhou.aliyuncs.com/c")).downloads = []) ∧
      (([] : Cache).lookup (str "http://mnstest.oss-cn-hangzhou.aliyuncs.com/c") = none ∨
        ([] : Cache).lookup (str "http://mnstest.oss-cn-hangzhou.aliyuncs.com/c") =
          some .other) ∧
      ((getRSAPublicKey testNotifyEnv []
          (str "http://mnstest.oss-cn-hangzhou.aliyuncs.com/c")).key =
          uncachedKey testNotifyEnv (str "http://mnstest.oss-cn-hangzhou.aliyuncs.com/c") ∧
        (getRSAPublicKey testNotifyEnv []
          (str "http://mnstest.oss-cn-hangzhou.aliyuncs.com/c")).downloads =
          [str "http://mnstest.oss-cn-hangzhou.aliyuncs.com/c"] ∧
        (∀ k, uncachedKey testNotifyEnv
            (str "http://mnstest.oss-cn-hangzhou.aliyuncs.com/c") = .ok k →
          (getRSAPublicKey testNotifyEnv []
            (str "http://mnstest.oss-cn-hangzhou.aliyuncs.com/c")).cache.lookup
            (str "http://mnstest.oss-cn-hangzhou.aliyuncs.com/c") = some (.key k)) ∧
        (∀ e, uncachedKey testNotifyEnv
            (str "http://mnstest.oss-cn-hangzhou.aliyuncs.com/c") = .error e →
          ∀ u, (getRSAPublicKey testNotifyEnv []
            (str "http://mnstest.oss-cn-hangzhou.aliyuncs.com/c")).cache.lookup u =
            ([] : Cache).lookup u)) :=
  ⟨by decide,
    (cache_is_performance_only testNotifyEnv
      (cacheAfter testNotifyEnv [str "http://mnstest.oss-cn-hangzhou.aliyuncs.com/c"])
      (str "http://mnstest.oss-cn-hangzhou.aliyuncs.com/c")).1 ⟨45, 65537⟩ (by decide),
    Or.inl (by decide),
    (cache_is_performance_only testNotifyEnv []
      (str "http://mnstest.oss-cn-hangzhou.aliyuncs.com/c")).2.1 (Or.inl (by decide))⟩

/-! ## The operations: the caller's message after a send -/

theorem SendMessage2_caller (env : Env) (clt : QueueClient) (u : URL)
    (hp : ParseRequestURI env (clt.QueueURL ++ str "/messages") = .ok u)
    (m : MessageToSend) (b : Bool) (hne : m.MessageBody ≠ []) :
    (clt.SendMessage2 env (some m) b).1 =
      some { m with MessageBody := encodeBody b m.MessageBody } := by
  have hlen : ¬ m.MessageBody.length = 0 := fun h => hne (List.length_eq_zero.mp h)
  generalize hret : clt.SendMessage2 env (some m) b = ret
  simp only [QueueClient.SendMessage2] at hret
  repeat' split at hret
  all_goals subst hret
  all_goals first
    | rfl
    | simp_all

theorem SendMessage2_request (env : Env) (clt : QueueClient) (u : URL)
    (hp : ParseRequestURI env (clt.QueueURL ++ str "/messages") = .ok u)
    (m : MessageToSend) (b : Bool) :
    ∀ req ∈ (clt.SendMessage2 env (some m) b).2.sent,
      ∃ body, env.MarshalMessage { m with MessageBody := encodeBody b m.MessageBody } =
          .ok body ∧
        req = bodyRequest env (str "POST") u body clt.AccessKeyId clt.AccessKeySecret := by
  intro req hreq
  generalize hret : clt.SendMessage2 env (some m) b = ret at hreq
  simp only [QueueClient.SendMessage2] at hret
  repeat' split at hret
  all_goals subst hret
  all_goals first
    | (simp at hreq; done)
    | (rw [List.mem_singleton] at hreq; subst hreq
       simp_all)

theorem BatchSendMessage2_caller (env : Env) (clt : QueueClient) (u : URL)
    (hp : ParseRequestURI env (clt.QueueURL ++ str "/messages") = .ok u)
    (msgs : List MessageToSend) (b : Bool) (h1 : 1 ≤ msgs.length) (h16 : msgs.length ≤ 16)
    (hbody : ∀ m ∈ msgs, m.MessageBody ≠ []) :
    (clt.BatchSendMessage2 env msgs b).1 =
      msgs.map fun m => { m with MessageBody := encodeBody b m.MessageBody } := by
  generalize hret : clt.BatchSendMessage2 env msgs b = ret
  simp only [QueueClient.BatchSendMessage2] at hret
  repeat' split at hret
  all_goals subst hret
  all_goals first
    | rfl
    | omega
    | (exfalso
       have hx : (msgs.any fun m => m.MessageBody.length == 0) = true := by assumption
       simp only [List.any_eq_true, beq_iff_eq, List.length_eq_zero] at hx
       obtain ⟨x, hx, he⟩ := hx
       exact hbody x hx he)
    | simp_all
theorem SendMessage2_compares (env : Env) (clt : QueueClient) (httpResp : HttpResponse)
    (result : SendResult) (hA : env.Answers httpResp) (h2 : is2xx httpResp = true)
    (hdec : xmlDecode env.DecodeSendResult httpResp = .ok result) (m : MessageToSend)
    (b : Bool) (hne : m.MessageBody ≠ []) :
    (clt.SendMessage2 env (some m) b).2.err = none ↔
      ToUpper result.MessageBodyMD5 = messageBodyMD5 (encodeBody b m.MessageBody) := by
  obtain ⟨host, uri, hp⟩ := hA.parse
  obtain ⟨fm, hfm⟩ := hA.marshalMessage
  by_cases hd : ToUpper result.MessageBodyMD5 = messageBodyMD5 (encodeBody b m.MessageBody)
  · simp [QueueClient.SendMessage2, hne, ParseRequestURI, hp, hfm, hA.roundTrip, h2, hdec, hd]
  · simp [QueueClient.SendMessage2, hne, ParseRequestURI, hp, hfm, hA.roundTrip, h2, hdec, hd,
      md5Mismatch]

/-- C26: when the checks before the encoding pass (a body that is not empty, 1 to 16
messages, a queue URL that parses), `SendMessage2` with `base64Encode` leaves the base64
encoding of the body in the caller's message whatever happens to the request, and
without it leaves the message as it was; a second send of the same value marshals and
sends the encoding of the encoding; the digest the reply is compared with is the digest
of the encoded body.  `BatchSendMessage2` does the same to every element of the caller's
slice. -/
theorem send_overwrites (env : Env) (clt : QueueClient) (u : URL)
    (hp : ParseRequestURI env (clt.QueueURL ++ str "/messages") = .ok u) :
    (∀ m : MessageToSend, m.MessageBody ≠ [] →
      (clt.SendMessage2 env (some m) true).1 =
        some { m with MessageBody := StdEncoding.Encode m.MessageBody } ∧
      (clt.SendMessage2 env (some m) false).1 = some m ∧
      (clt.SendMessage2 env (clt.SendMessage2 env (some m) true).1 true).1 =
        some { m with MessageBody := StdEncoding.Encode (StdEncoding.Encode m.MessageBody) } ∧
      (∀ req ∈ (clt.SendMessage2 env (clt.SendMessage2 env (some m) true).1 true).2.sent,
        ∃ body, env.MarshalMessage
            { m with MessageBody := StdEncoding.Encode (StdEncoding.Encode m.MessageBody) } =
            .ok body ∧
          req = bodyRequest env (str "POST") u body clt.AccessKeyId clt.AccessKeySecret) ∧
      (∀ httpResp result, env.Answers httpResp → is2xx httpResp = true →
        xmlDecode env.DecodeSendResult httpResp = .ok result →
        ((clt.SendMessage2 env (some m) true).2.err = none ↔
          ToUpper result.MessageBodyMD5 =
            messageBodyMD5 (StdEncoding.Encode m.MessageBody)))) ∧
    (∀ msgs : List MessageToSend, 1 ≤ msgs.length → msgs.length ≤ 16 →
      (∀ m ∈ msgs, m.MessageBody ≠ []) →
      (clt.BatchSendMessage2 env msgs true).1 =
        msgs.map (fun m => { m with MessageBody := StdEncoding.Encode m.MessageBody }) ∧
      (clt.BatchSendMessage2 env msgs false).1 = msgs ∧
      ((clt.BatchSendMessage2 env msgs true).2.err = none →
        ∀ p ∈ List.zip
            (msgs.map fun m => { m with MessageBody := StdEncoding.Encode m.MessageBody })
            (clt.BatchSendMessage2 env msgs true).2.val,
          p.2.ErrorCode = [] →
            ToUpper p.2.MessageBodyMD5 = messageBodyMD5 p.1.MessageBody)) := by
  refine ⟨fun m hne => ?_, fun msgs h1 h16 hbody => ?_⟩
  · have e1 := SendMessage2_caller env clt u hp m true hne
    have e2 := SendMessage2_caller env clt u hp m false hne
    simp only [encodeBody, if_true] at e1
    have hne2 : StdEncoding.Encode m.MessageBody ≠ [] := Encode_ne_nil _ hne
    have e3 := SendMessage2_caller env clt u hp
      { m with MessageBody := StdEncoding.Encode m.MessageBody } true hne2
    simp only [encodeBody, if_true] at e3
    refine ⟨e1, by simpa [encodeBody] using e2, by rw [e1]; exact e3, ?_, ?_⟩
    · rw [e1]
      intro req hreq
      have := SendMessage2_request env clt u hp
        { m with MessageBody := StdEncoding.Encode m.MessageBody } true req hreq
      simpa [encodeBody] using this
    · intro httpResp result hA h2 hdec
      have := SendMessage2_compares env clt httpResp result hA h2 hdec m true hne
      simpa [encodeBody] using this
  · have e1 := BatchSendMessage2_caller env clt u hp msgs true h1 h16 hbody
    have e2 := BatchSendMessage2_caller env clt u hp msgs false h1 h16 hbody
    simp only [encodeBody, if_true] at e1
    refine ⟨e1, by simpa [encodeBody] using e2, fun herr => ?_⟩
    obtain ⟨_, _, items, _, _, _, hval, _, _, hdig⟩ :=
      BatchSendMessage2_digest env clt msgs true herr
    rw [e1] at hdig
    rw [hval]
    exact hdig
/-- Witness of `send_overwrites`: `hello` is left as `aGVsbG8=` in the caller's message
and compared under that digest; sent again it goes out as `YUdWc2JHOD0=`. -/
theorem send_overwrites_witness :
    ParseRequestURI (testEnv sendResponse) (testQueue.QueueURL ++ str "/messages") =
        .ok ⟨testQueue.QueueURL ++ str "/messages", str "mns.example",
          testQueue.QueueURL ++ str "/messages"⟩ ∧
      (testQueue.SendMessage2 (testEnv sendResponse) (some ⟨str "hello", 0, 8⟩) true).1 =
        some ⟨str "aGVsbG8=", 0, 8⟩ ∧
      (testQueue.SendMessage2 (testEnv sendResponse) (some ⟨str "hello", 0, 8⟩) true).2.err =
        some (md5Mismatch (str "5d41402abc4b2a76b9719d911017c592")
          (messageBodyMD5 (str "aGVsbG8="))) ∧
      (testQueue.SendMessage2 (testEnv sendResponse) (some ⟨str "aGVsbG8=", 0, 8⟩)
          true).2.sent.map (fun r => r.Body) = [some (str "YUdWc2JHOD0=")] ∧
      ((testQueue.SendMessage2 (testEnv sendResponse) (some ⟨str "hello", 0, 8⟩) true).1 =
          some { (⟨str "hello", 0, 8⟩ : MessageToSend) with
            MessageBody := StdEncoding.Encode (str "hello") } ∧
        (testQueue.SendMessage2 (testEnv sendResponse) (some ⟨str "hello", 0, 8⟩) false).1 =
          some ⟨str "hello", 0, 8⟩) ∧
      ((testQueue.BatchSendMessage2 (testEnv sendResponse)
          [⟨str "hello", 0, 8⟩, ⟨str "world", 0, 8⟩] true).1 =
          ([⟨str "hello", 0, 8⟩, ⟨str "world", 0, 8⟩] : List MessageToSend).map
            (fun m => { m with MessageBody := StdEncoding.Encode m.MessageBody }) ∧
        (testQueue.BatchSendMessage2 (testEnv sendResponse)
          [⟨str "hello", 0, 8⟩, ⟨str "world", 0, 8⟩] false).1 =
          [⟨str "hello", 0, 8⟩, ⟨str "world", 0, 8⟩]) :=
  ⟨rfl, by decide, by decide, by decide,
    ⟨((send_overwrites (testEnv sendResponse) testQueue _ rfl).1 ⟨str "hello", 0, 8⟩
        (by decide)).1,
      ((send_overwrites (testEnv sendResponse) testQueue _ rfl).1 ⟨str "hello", 0, 8⟩
        (by decide)).2.1⟩,
    ⟨((send_overwrites (testEnv sendResponse) testQueue _ rfl).2
        [⟨str "hello", 0, 8⟩, ⟨str "world", 0, 8⟩] (by decide) (by decide) (by decide)).1,
      ((send_overwrites (testEnv sendResponse) testQueue _ rfl).2
        [⟨str "hello", 0, 8⟩, ⟨str "world", 0, 8⟩] (by decide) (by decide) (by decide)).2.1⟩⟩

end Mns
